import Mathlib

/-!
# LucidDB / Fennel bitmap streams: `LbmUnionExecStream` and `LbmSearchExecStream`

A shallow embedding of
`fennel/lucidera/bitmap/LbmUnionExecStream.cpp` and
`fennel/lucidera/bitmap/LbmSearchExecStream.cpp`.

* Member variables of a stream become fields of a structure; a method becomes a
  function from the structure to a result and the updated structure.
* The classes the streams call but which live in other files (segment reader,
  merge workspace, segment writer, output buffer accessor) are taken as a
  parameter `Collaborators`: one abstract state type and one function per
  method used.
* `uint` is 32 bits wide, `LcsRid` and `RecordNum` are 64 bits wide; arithmetic
  that can wrap is written with an explicit `%`.
* `assert` is modelled as compiled in: a failed assertion ends the call with
  `Outcome.assertFailed`. The two methods on the path of `execute` that call
  `assert` are embedded a second time as `NDEBUG` compiles them, under names
  ending in `NDEBUG`. An access the language leaves undefined (an index
  past the end of a vector, a write through a null pointer, a conversion of
  an out-of-range `double` to `uint`) ends it with
  `Outcome.undefinedBehaviour`.
* Loops whose trip count depends on the collaborators take a `fuel` bound on
  their number of iterations; `Outcome.outOfFuel` reports that the bound was
  reached.
-/

namespace Fennel

/-! ## Shared declarations -/

/-- Width of `uint`. -/
def UINT_WIDTH : Nat := 2 ^ 32

/-- Width of `LcsRid` / `RecordNum` (unsigned 64 bit). -/
def RID_WIDTH : Nat := 2 ^ 64

/-- The enumeration `ExecStreamResult` returned by `ExecStream::execute`. -/
inductive ExecStreamResult where
  | EXECRC_BUF_UNDERFLOW
  | EXECRC_BUF_OVERFLOW
  | EXECRC_EOS
  | EXECRC_QUANTUM_EXPIRED
  | EXECRC_YIELD
  deriving DecidableEq, Repr

open ExecStreamResult

/-- The part of `ExecStreamQuantum` that `execute` looks at. -/
structure ExecStreamQuantum where
  nTuplesMax : Nat
  deriving DecidableEq, Repr

/-- The fields of `LbmByteSegment` the union stream passes around:
`byteNum`, `byteSeg` (the bytes) and `len`. -/
structure LbmByteSegment where
  byteNum : Nat
  byteSeg : List Nat
  len : Nat
  deriving DecidableEq, Repr

/-- How a call of a method ends. -/
inductive Outcome (α : Type) where
  | ret (a : α)
  | assertFailed
  | undefinedBehaviour
  | outOfFuel
  deriving DecidableEq, Repr

/-- The classes used by `LbmUnionExecStream` whose code is in other files.
Every method the stream calls is one function on the abstract state of its
object; a method returning `bool` and changing its object returns both. -/
structure Collaborators where
  SegmentReader : Type
  Workspace : Type
  SegmentWriter : Type
  OutAccessor : Type
  TupleData : Type
  /-- Models `LbmSegmentReader::readSegmentAndAdvance(byteNum, byteSeg, len)`;
  the three reference arguments are the fields of `inputSegment`. -/
  readSegmentAndAdvance :
    SegmentReader → LbmByteSegment → ExecStreamResult × LbmByteSegment × SegmentReader
  /-- Models `LbmSegmentReader::getSrid()`. -/
  getSrid : SegmentReader → Nat
  /-- Models `LbmUnionWorkspace::isEmpty()`. -/
  wsIsEmpty : Workspace → Bool
  /-- Models `LbmUnionWorkspace::canProduce()`. -/
  wsCanProduce : Workspace → Bool
  /-- Models `LbmUnionWorkspace::getSegment()`. -/
  wsGetSegment : Workspace → LbmByteSegment
  /-- Models `LbmUnionWorkspace::advancePastSegment()`. -/
  wsAdvancePastSegment : Workspace → Workspace
  /-- Models `LbmUnionWorkspace::setProductionLimit(rid)`. -/
  wsSetProductionLimit : Workspace → Nat → Workspace
  /-- Models `LbmUnionWorkspace::removeLimit()`. -/
  wsRemoveLimit : Workspace → Workspace
  /-- Models `LbmUnionWorkspace::advanceToSrid(rid)`. -/
  wsAdvanceToSrid : Workspace → Nat → Workspace
  /-- Models `LbmUnionWorkspace::addSegment(segment)`. -/
  wsAddSegment : Workspace → LbmByteSegment → Bool × Workspace
  /-- Models `LbmUnionWorkspace::reset()`. -/
  wsReset : Workspace → Workspace
  /-- Models `LbmByteSegment::getSrid()`. -/
  segGetSrid : LbmByteSegment → Nat
  /-- Models `LbmSegmentWriter::addSegment(srid, byteSeg, len)`. -/
  swAddSegment : SegmentWriter → Nat → List Nat → Nat → Bool × SegmentWriter
  /-- Models `LbmSegmentWriter::produceSegmentTuple()`. -/
  swProduceSegmentTuple : SegmentWriter → TupleData × SegmentWriter
  /-- Models `LbmSegmentWriter::reset()`. -/
  swReset : SegmentWriter → SegmentWriter
  /-- Models `ExecStreamBufAccessor::produceTuple(tuple)`. -/
  outProduceTuple : OutAccessor → TupleData → Bool × OutAccessor
  /-- Models `ExecStreamBufAccessor::markEOS()`. -/
  outMarkEOS : OutAccessor → OutAccessor

/-- One call of a collaborator's method, with the arguments and the result
that matter to the orchestrator. The stream keeps the list of the calls it
made, oldest first, in the ghost field `calls`. -/
inductive Call (T : Type) where
  | getParam (id : Nat)
  | readSegmentAndAdvance (status : ExecStreamResult) (seg : LbmByteSegment)
  | readerGetSrid
  | wsIsEmpty
  | wsCanProduce
  | wsGetSegment
  | wsAdvancePastSegment (seg : LbmByteSegment)
  | wsSetProductionLimit (rid : Nat)
  | wsRemoveLimit
  | wsAdvanceToSrid (rid : Nat)
  | wsAddSegment (seg : LbmByteSegment) (ok : Bool)
  | wsReset
  | swAddSegment (seg : LbmByteSegment) (ok : Bool)
  | swProduceSegmentTuple (t : T)
  | swReset
  | outProduceTuple (t : T) (ok : Bool)
  | outMarkEOS
  deriving DecidableEq, Repr

/-! ## `LbmUnionExecStream` -/

/-- The member variables of `LbmUnionExecStream` that its methods read or
write, the state of the objects it owns or points to, and the ghost field
`calls`. `pDynamicParamManager` maps a parameter id to the value stored in its
slot. -/
structure LbmUnionExecStream (E : Collaborators) where
  ridLimitParamId : Nat
  startRidParamId : Nat
  segmentLimitParamId : Nat
  maxRid : Nat
  pageSize : Nat
  nWorkspacePages : Nat
  ridLimit : Nat
  requestedSrid : Nat
  segmentsRemaining : Nat
  writePending : Bool
  producePending : Bool
  isDone : Bool
  inputSegment : LbmByteSegment
  outputTuple : E.TupleData
  segmentReader : E.SegmentReader
  workspace : E.Workspace
  segmentWriter : E.SegmentWriter
  pOutAccessor : E.OutAccessor
  pDynamicParamManager : Nat → Nat
  calls : List (Call E.TupleData)

namespace LbmUnionExecStream

variable {E : Collaborators}

/-- Appends one collaborator call to the ghost record. -/
def log (s : LbmUnionExecStream E) (c : Call E.TupleData) : LbmUnionExecStream E :=
  { s with calls := s.calls ++ [c] }

/-- Embeds `LbmUnionExecStream::isConsumerSridSet`. -/
def isConsumerSridSet (s : LbmUnionExecStream E) : Bool :=
  decide (s.startRidParamId > 0)

/-- Embeds `LbmUnionExecStream::isSegmentLimitSet`. -/
def isSegmentLimitSet (s : LbmUnionExecStream E) : Bool :=
  decide (s.segmentLimitParamId > 0)

/-- Embeds `LbmUnionExecStream::readSegment`. -/
def readSegment (s : LbmUnionExecStream E) : ExecStreamResult × LbmUnionExecStream E :=
  if s.writePending then
    (EXECRC_YIELD, s)
  else
    let r := E.readSegmentAndAdvance s.segmentReader s.inputSegment
    let s1 : LbmUnionExecStream E :=
      { s with inputSegment := r.2.1, segmentReader := r.2.2,
               calls := s.calls ++ [Call.readSegmentAndAdvance r.1 r.2.1] }
    if r.1 = EXECRC_YIELD then
      (r.1, { s1 with writePending := true })
    else
      (r.1, s1)

/-- Embeds `LbmUnionExecStream::transfer`. `fuel` bounds the iterations of the
`while (workspace.canProduce())` loop. -/
def transfer : Nat → LbmUnionExecStream E → Outcome (Bool × LbmUnionExecStream E)
  | 0, _ => Outcome.outOfFuel
  | fuel + 1, s =>
    let s0 := s.log Call.wsCanProduce
    if E.wsCanProduce s0.workspace then
      if s0.isSegmentLimitSet && s0.segmentsRemaining == 0 then
        Outcome.ret (false, s0)
      else
        let seg := E.wsGetSegment s0.workspace
        let a := E.swAddSegment s0.segmentWriter (E.segGetSrid seg) seg.byteSeg seg.len
        let s1 : LbmUnionExecStream E :=
          { s0 with segmentWriter := a.2,
                    calls := s0.calls ++ [Call.wsGetSegment, Call.swAddSegment seg a.1] }
        if !a.1 then
          Outcome.ret (false, s1)
        else
          let s2 : LbmUnionExecStream E :=
            { s1 with workspace := E.wsAdvancePastSegment s1.workspace,
                      calls := s1.calls ++ [Call.wsAdvancePastSegment seg] }
          let s3 : LbmUnionExecStream E :=
            if s2.isSegmentLimitSet then
              { s2 with segmentsRemaining :=
                  (s2.segmentsRemaining + UINT_WIDTH - 1) % UINT_WIDTH }
            else s2
          transfer fuel s3
    else
      Outcome.ret (true, s0)

/-- Embeds `LbmUnionExecStream::transferLast`; the result of `transfer` is
dropped. -/
def transferLast (fuel : Nat) (s : LbmUnionExecStream E) :
    Outcome (LbmUnionExecStream E) :=
  let s1 : LbmUnionExecStream E :=
    { s with workspace := E.wsRemoveLimit s.workspace,
             calls := s.calls ++ [Call.wsRemoveLimit] }
  match transfer fuel s1 with
  | Outcome.ret r => Outcome.ret r.2
  | Outcome.assertFailed => Outcome.assertFailed
  | Outcome.undefinedBehaviour => Outcome.undefinedBehaviour
  | Outcome.outOfFuel => Outcome.outOfFuel

/-- Embeds `LbmUnionExecStream::writeSegment`. Its first statement,
`assert(writePending = true)`, is an assignment: it stores `true` and cannot
fail. `currentSrid - 1` is a 64-bit unsigned subtraction. -/
def writeSegment (fuel : Nat) (s : LbmUnionExecStream E) :
    Outcome (Bool × LbmUnionExecStream E) :=
  let s0 : LbmUnionExecStream E := { s with writePending := true }
  let s1 : LbmUnionExecStream E :=
    if s0.isConsumerSridSet then
      { s0 with workspace := E.wsAdvanceToSrid s0.workspace s0.requestedSrid,
                calls := s0.calls ++ [Call.wsAdvanceToSrid s0.requestedSrid] }
    else s0
  let currentSrid := E.getSrid s1.segmentReader % RID_WIDTH
  let limit := (currentSrid + RID_WIDTH - 1) % RID_WIDTH
  let s2 : LbmUnionExecStream E :=
    { s1 with workspace := E.wsSetProductionLimit s1.workspace limit,
              calls := s1.calls ++ [Call.readerGetSrid, Call.wsSetProductionLimit limit] }
  match transfer fuel s2 with
  | Outcome.ret (false, s3) => Outcome.ret (false, s3)
  | Outcome.ret (true, s3) =>
    let a := E.wsAddSegment s3.workspace s3.inputSegment
    if a.1 then
      Outcome.ret (true,
        { s3 with workspace := a.2, writePending := false,
                  calls := s3.calls ++ [Call.wsAddSegment s3.inputSegment a.1] })
    else
      Outcome.assertFailed
  | Outcome.assertFailed => Outcome.assertFailed
  | Outcome.undefinedBehaviour => Outcome.undefinedBehaviour
  | Outcome.outOfFuel => Outcome.outOfFuel

/-- Embeds `LbmUnionExecStream::produceTuple`. -/
def produceTuple (s : LbmUnionExecStream E) : Outcome (Bool × LbmUnionExecStream E) :=
  if s.producePending then
    let p := E.swProduceSegmentTuple s.segmentWriter
    let o := E.outProduceTuple s.pOutAccessor p.1
    let s1 : LbmUnionExecStream E :=
      { s with outputTuple := p.1, segmentWriter := p.2, pOutAccessor := o.2,
               calls := s.calls ++
                 [Call.swProduceSegmentTuple p.1, Call.outProduceTuple p.1 o.1] }
    if o.1 then
      Outcome.ret (true, { s1 with producePending := false })
    else
      Outcome.ret (false, s1)
  else
    Outcome.assertFailed

/-- The loop `while (! producePending) { ... }` inside `execute`. The result
`some status` is a `return status` out of `execute`; `none` is the end of the
loop (by its condition or by `break`). `fuel` bounds its iterations and those
of each `transfer` it starts. -/
def whileNotPending :
    Nat → LbmUnionExecStream E → Outcome (Option ExecStreamResult × LbmUnionExecStream E)
  | 0, _ => Outcome.outOfFuel
  | fuel + 1, s =>
    if s.producePending then
      Outcome.ret (none, s)
    else
      let r := s.readSegment
      if r.1 = EXECRC_EOS then
        let s1 := r.2.log Call.wsIsEmpty
        if !E.wsIsEmpty s1.workspace then
          match transferLast (fuel + 1) s1 with
          | Outcome.ret s2 => Outcome.ret (none, { s2 with producePending := true })
          | Outcome.assertFailed => Outcome.assertFailed
          | Outcome.undefinedBehaviour => Outcome.undefinedBehaviour
          | Outcome.outOfFuel => Outcome.outOfFuel
        else
          Outcome.ret (some EXECRC_BUF_OVERFLOW, { s1 with isDone := true })
      else if r.1 ≠ EXECRC_YIELD then
        Outcome.ret (some r.1, r.2)
      else
        match writeSegment (fuel + 1) r.2 with
        | Outcome.ret (false, s2) => whileNotPending fuel { s2 with producePending := true }
        | Outcome.ret (true, s2) => whileNotPending fuel s2
        | Outcome.assertFailed => Outcome.assertFailed
        | Outcome.undefinedBehaviour => Outcome.undefinedBehaviour
        | Outcome.outOfFuel => Outcome.outOfFuel

/-- The loop `for (uint i = 0; i < quantum.nTuplesMax; i++) { ... }` of
`execute` followed by `return EXECRC_QUANTUM_EXPIRED`; the first argument
after `fuel` is the number of iterations still to run. -/
def forLoop (fuel : Nat) :
    Nat → LbmUnionExecStream E → Outcome (ExecStreamResult × LbmUnionExecStream E)
  | 0, s => Outcome.ret (EXECRC_QUANTUM_EXPIRED, s)
  | n + 1, s =>
    match whileNotPending fuel s with
    | Outcome.ret (some status, s1) => Outcome.ret (status, s1)
    | Outcome.ret (none, s1) =>
      match produceTuple s1 with
      | Outcome.ret (false, s2) => Outcome.ret (EXECRC_BUF_OVERFLOW, s2)
      | Outcome.ret (true, s2) => forLoop fuel n { s2 with producePending := false }
      | Outcome.assertFailed => Outcome.assertFailed
      | Outcome.undefinedBehaviour => Outcome.undefinedBehaviour
      | Outcome.outOfFuel => Outcome.outOfFuel
    | Outcome.assertFailed => Outcome.assertFailed
    | Outcome.undefinedBehaviour => Outcome.undefinedBehaviour
    | Outcome.outOfFuel => Outcome.outOfFuel

/-- The two parameter reads at the start of `execute`: `requestedSrid` is read
as a 64-bit `RecordNum`, `segmentsRemaining` as a `uint`. -/
def readLimits (s : LbmUnionExecStream E) : LbmUnionExecStream E :=
  let s1 : LbmUnionExecStream E :=
    if s.isConsumerSridSet then
      { s with requestedSrid := s.pDynamicParamManager s.startRidParamId % RID_WIDTH,
               calls := s.calls ++ [Call.getParam s.startRidParamId] }
    else s
  if s1.isSegmentLimitSet then
    { s1 with segmentsRemaining :=
                s1.pDynamicParamManager s1.segmentLimitParamId % UINT_WIDTH,
              calls := s1.calls ++ [Call.getParam s1.segmentLimitParamId] }
  else s1

/-- Embeds `LbmUnionExecStream::execute`. -/
def execute (fuel : Nat) (quantum : ExecStreamQuantum) (s : LbmUnionExecStream E) :
    Outcome (ExecStreamResult × LbmUnionExecStream E) :=
  if s.isDone then
    Outcome.ret (EXECRC_EOS,
      { s with pOutAccessor := E.outMarkEOS s.pOutAccessor,
               calls := s.calls ++ [Call.outMarkEOS] })
  else
    forLoop fuel quantum.nTuplesMax s.readLimits

end LbmUnionExecStream

/-! ## `double` arithmetic

The two sizing functions compute in `double`. A finite `double` is modelled by
the rational number it stands for; every operation returns the exact result
rounded to 53 significant bits, ties to even. The values that occur lie far
inside the exponent range, so overflow and subnormal numbers are not
modelled. -/

/-- Rounds to the nearest integer, ties to the even one. -/
def roundHalfEven (q : ℚ) : ℤ :=
  let f := ⌊q⌋
  let r := q - f
  if r < 1 / 2 then f
  else if 1 / 2 < r then f + 1
  else if f % 2 = 0 then f else f + 1

/-- Rounds a rational to the nearest `double`: 53 significant bits, ties to
even. -/
def roundToDouble (x : ℚ) : ℚ :=
  if x = 0 then 0
  else
    let e : ℤ := Int.log 2 |x|
    let ulp : ℚ := (2 : ℚ) ^ (e - 52)
    (roundHalfEven (x / ulp) : ℚ) * ulp

/-- Conversion of an unsigned integer to `double`. -/
def doubleOfNat (n : Nat) : ℚ := roundToDouble n

/-- Subtraction of `double`s. -/
def doubleSub (x y : ℚ) : ℚ := roundToDouble (x - y)

/-- Multiplication of `double`s. -/
def doubleMul (x y : ℚ) : ℚ := roundToDouble (x * y)

/-- Division of `double`s by a divisor other than zero. -/
def doubleDiv (x y : ℚ) : ℚ := roundToDouble (x / y)

/-- The function `ceil` of `<math.h>`; the result is an integral `double`. -/
def doubleCeil (x : ℚ) : ℚ := ((⌈x⌉ : ℤ) : ℚ)

/-- The conversion `(uint) d`: the value is truncated toward zero, and the
conversion is undefined when the truncated value is not a `uint`. -/
def doubleToUint (d : ℚ) : Outcome Nat :=
  if -1 < d ∧ d < (UINT_WIDTH : ℚ) then Outcome.ret ⌊d⌋.toNat
  else Outcome.undefinedBehaviour

/-- Modelled from the spec: the constant `LbmSegment::LbmOneByteSize`, declared
in a header outside these sources; the spec's sizing formulas use 8, the
number of Rids one bitmap byte covers. -/
def LbmOneByteSize : Nat := 8

namespace LbmUnionExecStream

variable {E : Collaborators}

/-- Embeds `LbmUnionExecStream::computeOptWorkspacePages`. `bytes` is an
`LcsRid` (64 bits); the quotient is a `double`; a `pageSize` of zero makes the
quotient infinite and its conversion to `uint` undefined. -/
def computeOptWorkspacePages (s : LbmUnionExecStream E) (maxRid : Nat) : Outcome Nat :=
  let bytes0 := (maxRid % RID_WIDTH / LbmOneByteSize + 1) % RID_WIDTH
  let bytes := (bytes0 + s.pageSize % UINT_WIDTH / 2) % RID_WIDTH
  if s.pageSize % UINT_WIDTH = 0 then
    Outcome.undefinedBehaviour
  else
    let pages := doubleDiv (doubleOfNat bytes) (doubleOfNat (s.pageSize % UINT_WIDTH))
    doubleToUint (doubleCeil pages)

/-- Embeds `LbmUnionExecStream::computeRidLimit`. The product is a `double`,
`bytes * LbmOneByteSize` is a `uint` multiplication. -/
def computeRidLimit (s : LbmUnionExecStream E) (nWorkspacePages : Nat) : Outcome Nat :=
  let d := doubleMul (doubleSub (doubleOfNat (nWorkspacePages % UINT_WIDTH)) (1 / 2))
    (doubleOfNat (s.pageSize % UINT_WIDTH))
  match doubleToUint d with
  | Outcome.ret bytes => Outcome.ret (bytes * LbmOneByteSize % UINT_WIDTH)
  | Outcome.assertFailed => Outcome.assertFailed
  | Outcome.undefinedBehaviour => Outcome.undefinedBehaviour
  | Outcome.outOfFuel => Outcome.outOfFuel

end LbmUnionExecStream

/-! ## `LbmSearchExecStream` -/

/-- The enumeration `SearchEndpoint` of the B-tree search directives. -/
inductive SearchEndpoint where
  | SEARCH_UNBOUNDED_LOWER
  | SEARCH_OPEN_LOWER
  | SEARCH_CLOSED_LOWER
  | SEARCH_OPEN_UPPER
  | SEARCH_CLOSED_UPPER
  | SEARCH_UNBOUNDED_UPPER
  deriving DecidableEq, Repr

open SearchEndpoint

/-- What the `pData` pointer of a `TupleDatum` points at: nothing, a value
outside the stream, or one of the stream's own members `startRid` and
`rowLimit`. -/
inductive PConstBuffer where
  | null
  | external (value : Nat)
  | startRidMember
  | rowLimitMember
  deriving DecidableEq, Repr

/-- The fields `pData` and `cbData` of a `TupleDatum`. -/
structure TupleDatum where
  pData : PConstBuffer
  cbData : Nat
  deriving DecidableEq, Repr

/-- The storage size of a `TupleAttributeDescriptor`. -/
structure TupleAttributeDescriptor where
  cbStorage : Nat
  deriving DecidableEq, Repr

/-- The attribute `stdTypeFactory.newDataType(STANDARD_TYPE_RECORDNUM)`: a
record number takes 8 bytes. -/
def recordNumAttr : TupleAttributeDescriptor := { cbStorage := 8 }

/-- Models `TupleData::compute(desc)`: one datum per attribute, not yet
pointing at data. -/
def computeTupleData (desc : List TupleAttributeDescriptor) : List TupleDatum :=
  desc.map (fun a => { pData := PConstBuffer.null, cbData := a.cbStorage })

/-- Which tuple `pSearchKey` points at. -/
inductive SearchKeyRef where
  | unset
  | inputKeyData
  | ridSearchKeyData
  deriving DecidableEq, Repr

/-- The two fields of `LbmSearchExecStreamParams` read by `prepare`. -/
structure LbmSearchExecStreamParams where
  rowLimitParamId : Nat
  startRidParamId : Nat
  deriving DecidableEq, Repr

/-- The member variables of `LbmSearchExecStream` its methods read or write.
The first seven are inherited from `BTreeSearchExecStream`
(`keyProjectionSize` stands for `treeDescriptor.keyProjection.size()`);
`paramReads` is a ghost field listing the ids passed to `readParam`, oldest
first. -/
structure LbmSearchExecStream where
  inputKeyDesc : List TupleAttributeDescriptor
  keyProjectionSize : Nat
  inputKeyData : List TupleDatum
  lowerBoundDirective : SearchEndpoint
  upperBoundDirective : SearchEndpoint
  leastUpper : Bool
  pSearchKey : SearchKeyRef
  rowLimitParamId : Nat
  startRidParamId : Nat
  ignoreRowLimit : Bool
  rowLimit : Nat
  rowLimitDatum : TupleDatum
  ridInKey : Bool
  ridKeySetup : Bool
  startRid : Nat
  startRidDatum : TupleDatum
  ridSearchKeyData : List TupleDatum
  pDynamicParamManager : Nat → Nat
  paramReads : List Nat

namespace LbmSearchExecStream

/-- Models `DynamicParamManager::readParam(id, dest)`: the value of the slot is
copied to the 8 bytes `dest.pData` points at. -/
def readParam (id : Nat) (dest : TupleDatum) (s : LbmSearchExecStream) :
    Outcome LbmSearchExecStream :=
  let v := s.pDynamicParamManager id % RID_WIDTH
  match dest.pData with
  | PConstBuffer.startRidMember =>
    Outcome.ret { s with startRid := v, paramReads := s.paramReads ++ [id] }
  | PConstBuffer.rowLimitMember =>
    Outcome.ret { s with rowLimit := v, paramReads := s.paramReads ++ [id] }
  | PConstBuffer.external _ => Outcome.undefinedBehaviour
  | PConstBuffer.null => Outcome.undefinedBehaviour

/-- The assignment `v[i].pData = p` on a vector of datums. -/
def setPData (v : List TupleDatum) (i : Nat) (p : PConstBuffer) :
    Outcome (List TupleDatum) :=
  match v.get? i with
  | some d => Outcome.ret (v.set i { d with pData := p })
  | none => Outcome.undefinedBehaviour

/-- The end of the `if (ridInKey)` block of `prepare`, from
`ridSearchKeyData.compute(ridKeyDesc)` on. The index
`ridSearchKeyData.size() - 1` is a `size_t` subtraction. -/
def prepareRidSearchKey (ridKeyDesc : List TupleAttributeDescriptor)
    (s : LbmSearchExecStream) : Outcome LbmSearchExecStream :=
  let k := computeTupleData ridKeyDesc
  match setPData k ((k.length + RID_WIDTH - 1) % RID_WIDTH) PConstBuffer.startRidMember with
  | Outcome.ret k1 => Outcome.ret { s with ridSearchKeyData := k1, leastUpper := false }
  | Outcome.assertFailed => Outcome.assertFailed
  | Outcome.undefinedBehaviour => Outcome.undefinedBehaviour
  | Outcome.outOfFuel => Outcome.outOfFuel

/-- Embeds `LbmSearchExecStream::prepare`; `s` is the stream as
`BTreeSearchExecStream::prepare(params)` left it.
`treeDescriptor.keyProjection.size() - 1` is a `size_t` subtraction. -/
def prepare (params : LbmSearchExecStreamParams) (s : LbmSearchExecStream) :
    Outcome LbmSearchExecStream :=
  let s1 : LbmSearchExecStream :=
    { s with rowLimitParamId := params.rowLimitParamId,
             ignoreRowLimit := decide (params.rowLimitParamId = 0) }
  let s2 : LbmSearchExecStream :=
    if !s1.ignoreRowLimit then
      { s1 with rowLimitDatum := { pData := PConstBuffer.rowLimitMember, cbData := 8 } }
    else s1
  let s3 : LbmSearchExecStream :=
    { s2 with startRidParamId := params.startRidParamId,
              ridInKey := decide (params.startRidParamId > 0) }
  if s3.ridInKey then
    let s4 : LbmSearchExecStream :=
      { s3 with startRidDatum := { pData := PConstBuffer.startRidMember, cbData := 8 } }
    if s4.inputKeyDesc.length = (s4.keyProjectionSize + RID_WIDTH - 1) % RID_WIDTH then
      prepareRidSearchKey (s4.inputKeyDesc ++ [recordNumAttr]) { s4 with ridKeySetup := false }
    else if s4.inputKeyDesc.length = 1 ∧ s4.inputKeyDesc.length = s4.keyProjectionSize then
      prepareRidSearchKey s4.inputKeyDesc { s4 with ridKeySetup := true }
    else
      Outcome.assertFailed
  else
    Outcome.ret s3

/-- Embeds `LbmSearchExecStream::reachedTupleLimit`. The parameter `nTuples`
is a `uint`: whatever count the caller keeps, the function receives it modulo
`2 ^ 32`. `rowLimit` is a 64-bit `RecordNum`, and `nTuples >= rowLimit`
compares the two as 64-bit values. -/
def reachedTupleLimit (count : Nat) (s : LbmSearchExecStream) :
    Outcome (Bool × LbmSearchExecStream) :=
  let nTuples := count % UINT_WIDTH
  if s.ignoreRowLimit then
    Outcome.ret (false, s)
  else
    let r : Outcome LbmSearchExecStream :=
      if nTuples = 0 then readParam s.rowLimitParamId s.rowLimitDatum s
      else Outcome.ret s
    match r with
    | Outcome.ret s1 =>
      if s1.rowLimit = 0 then Outcome.ret (false, s1)
      else Outcome.ret (decide (nTuples ≥ s1.rowLimit), s1)
    | Outcome.assertFailed => Outcome.assertFailed
    | Outcome.undefinedBehaviour => Outcome.undefinedBehaviour
    | Outcome.outOfFuel => Outcome.outOfFuel

/-- The loop `for (uint i = 0; i < inputKeyData.size(); i++)
ridSearchKeyData[i] = inputKeyData[i];` of `setAdditionalKeys`, started at
index `i`; `n` is the number of iterations left. -/
def copyKeys (input : List TupleDatum) : Nat → Nat → List TupleDatum →
    Outcome (List TupleDatum)
  | 0, _, k => Outcome.ret k
  | n + 1, i, k =>
    match input.get? i with
    | some d =>
      if i < k.length then copyKeys input n (i + 1) (k.set i d)
      else Outcome.undefinedBehaviour
    | none => Outcome.undefinedBehaviour

/-- Embeds `LbmSearchExecStream::setAdditionalKeys`. -/
def setAdditionalKeys (s : LbmSearchExecStream) : Outcome LbmSearchExecStream :=
  if s.ridInKey then
    if s.lowerBoundDirective = SEARCH_CLOSED_LOWER then
      let copied : Outcome LbmSearchExecStream :=
        if s.ridKeySetup then
          if s.upperBoundDirective = SEARCH_UNBOUNDED_UPPER then Outcome.ret s
          else Outcome.assertFailed
        else
          if s.upperBoundDirective = SEARCH_CLOSED_UPPER then
            match copyKeys s.inputKeyData s.inputKeyData.length 0 s.ridSearchKeyData with
            | Outcome.ret k => Outcome.ret { s with ridSearchKeyData := k }
            | Outcome.assertFailed => Outcome.assertFailed
            | Outcome.undefinedBehaviour => Outcome.undefinedBehaviour
            | Outcome.outOfFuel => Outcome.outOfFuel
          else Outcome.assertFailed
      match copied with
      | Outcome.ret s1 =>
        match readParam s1.startRidParamId s1.startRidDatum s1 with
        | Outcome.ret s2 => Outcome.ret { s2 with pSearchKey := SearchKeyRef.ridSearchKeyData }
        | Outcome.assertFailed => Outcome.assertFailed
        | Outcome.undefinedBehaviour => Outcome.undefinedBehaviour
        | Outcome.outOfFuel => Outcome.outOfFuel
      | Outcome.assertFailed => Outcome.assertFailed
      | Outcome.undefinedBehaviour => Outcome.undefinedBehaviour
      | Outcome.outOfFuel => Outcome.outOfFuel
    else
      Outcome.assertFailed
  else
    Outcome.ret { s with pSearchKey := SearchKeyRef.inputKeyData }

/-- The value a datum of this stream holds: what its `pData` points at. -/
def datumValue (s : LbmSearchExecStream) (d : TupleDatum) : Option Nat :=
  match d.pData with
  | PConstBuffer.null => none
  | PConstBuffer.external v => some v
  | PConstBuffer.startRidMember => some s.startRid
  | PConstBuffer.rowLimitMember => some s.rowLimit

/-- The tuple `*pSearchKey`. -/
def searchKey (s : LbmSearchExecStream) : List TupleDatum :=
  match s.pSearchKey with
  | SearchKeyRef.unset => []
  | SearchKeyRef.inputKeyData => s.inputKeyData
  | SearchKeyRef.ridSearchKeyData => s.ridSearchKeyData

/-- The values of the components of `*pSearchKey`, in order. -/
def searchKeyValues (s : LbmSearchExecStream) : List (Option Nat) :=
  s.searchKey.map s.datumValue

end LbmSearchExecStream

/-! ## Concrete collaborators

`LbmSegmentWriterModel` follows the spec's description of the segment writer.
The reader, the workspace and the output accessor below are small stand-ins
with which the orchestrator can be run on concrete inputs. -/

/-- Modelled from the spec: the class `LbmSegmentWriter`, whose code is outside
these sources. The spec says of it: `addSegment` "appends an encoded segment
to the internal output buffer; returns false if appending would exceed
`bufferSize`", and `produceSegmentTuple` "serializes the buffered segments into
one output tuple and clears the writer's buffer". A buffered segment is the
triple of its start Rid, its bytes and its length, and it takes `len` bytes of
the buffer. -/
structure LbmSegmentWriterModel where
  bufferSize : Nat
  buffer : List (Nat × List Nat × Nat)
  deriving DecidableEq, Repr

namespace LbmSegmentWriterModel

/-- Bytes of the buffer in use. -/
def used (w : LbmSegmentWriterModel) : Nat :=
  (w.buffer.map (fun b => b.2.2)).sum

/-- Modelled from the spec: `LbmSegmentWriter::addSegment`. -/
def addSegment (w : LbmSegmentWriterModel) (srid : Nat) (byteSeg : List Nat) (len : Nat) :
    Bool × LbmSegmentWriterModel :=
  if w.used + len > w.bufferSize then (false, w)
  else (true, { w with buffer := w.buffer ++ [(srid, byteSeg, len)] })

/-- Modelled from the spec: `LbmSegmentWriter::produceSegmentTuple`; the output
tuple is the list of the buffered segments. -/
def produceSegmentTuple (w : LbmSegmentWriterModel) :
    List (Nat × List Nat × Nat) × LbmSegmentWriterModel :=
  (w.buffer, { w with buffer := [] })

/-- Modelled from the spec: `LbmSegmentWriter::reset`. -/
def reset (w : LbmSegmentWriterModel) : LbmSegmentWriterModel :=
  { w with buffer := [] }

end LbmSegmentWriterModel

/-- A segment reader that replays a script: `some seg` is a pull that yields
the segment `seg`, `none` is a pull that finds no tuple ready upstream; after
the script the reader reports end of stream. -/
structure ScriptedReader where
  srid : Nat
  script : List (Option LbmByteSegment)
  deriving DecidableEq, Repr

/-- One pull of the scripted reader. -/
def ScriptedReader.readSegmentAndAdvance (r : ScriptedReader) (seg : LbmByteSegment) :
    ExecStreamResult × LbmByteSegment × ScriptedReader :=
  match r.script with
  | [] => (EXECRC_EOS, seg, r)
  | some sg :: rest => (EXECRC_YIELD, sg, { srid := sg.byteNum * 8, script := rest })
  | none :: rest => (EXECRC_BUF_UNDERFLOW, seg, { r with script := rest })

/-- A workspace that queues the segments added to it and hands them back in
order, those that end at or below the production limit. -/
structure QueueWorkspace where
  limit : Option Nat
  segments : List LbmByteSegment
  deriving DecidableEq, Repr

/-- Whether the first queued segment may be drained. -/
def QueueWorkspace.canProduce (w : QueueWorkspace) : Bool :=
  match w.segments, w.limit with
  | [], _ => false
  | _ :: _, none => true
  | sg :: _, some l => decide ((sg.byteNum + sg.len) * 8 ≤ l)

/-- An output accessor with room for a number of tuples. -/
structure BoundedOutAccessor (T : Type) where
  room : Nat
  tuples : List T
  eos : Bool
  deriving DecidableEq, Repr

/-- Accepts the tuple when there is room. -/
def BoundedOutAccessor.produceTuple {T : Type} (o : BoundedOutAccessor T) (t : T) :
    Bool × BoundedOutAccessor T :=
  if o.room = 0 then (false, o)
  else (true, { o with room := o.room - 1, tuples := o.tuples ++ [t] })

/-- The collaborators made of the modelled writer and the three stand-ins. -/
def modelCollaborators : Collaborators where
  SegmentReader := ScriptedReader
  Workspace := QueueWorkspace
  SegmentWriter := LbmSegmentWriterModel
  OutAccessor := BoundedOutAccessor (List (Nat × List Nat × Nat))
  TupleData := List (Nat × List Nat × Nat)
  readSegmentAndAdvance := ScriptedReader.readSegmentAndAdvance
  getSrid := fun r => r.srid
  wsIsEmpty := fun w => w.segments.isEmpty
  wsCanProduce := QueueWorkspace.canProduce
  wsGetSegment := fun w => w.segments.headD { byteNum := 0, byteSeg := [], len := 0 }
  wsAdvancePastSegment := fun w => { w with segments := w.segments.tail }
  wsSetProductionLimit := fun w rid => { w with limit := some rid }
  wsRemoveLimit := fun w => { w with limit := none }
  wsAdvanceToSrid := fun w rid =>
    { w with segments := w.segments.filter (fun sg => decide (rid < (sg.byteNum + sg.len) * 8)) }
  wsAddSegment := fun w sg => (true, { w with segments := w.segments ++ [sg] })
  wsReset := fun _ => { limit := none, segments := [] }
  segGetSrid := fun sg => sg.byteNum * 8
  swAddSegment := LbmSegmentWriterModel.addSegment
  swProduceSegmentTuple := LbmSegmentWriterModel.produceSegmentTuple
  swReset := LbmSegmentWriterModel.reset
  outProduceTuple := BoundedOutAccessor.produceTuple
  outMarkEOS := fun o => { o with eos := true }

/-- A union stream over `modelCollaborators`, just opened: nothing pending, an
empty workspace and writer, no limit parameter but the Rid limit. -/
def modelStream (script : List (Option LbmByteSegment)) (room : Nat)
    (segmentLimitParamId : Nat) (params : Nat → Nat) :
    LbmUnionExecStream modelCollaborators where
  ridLimitParamId := 1
  startRidParamId := 0
  segmentLimitParamId := segmentLimitParamId
  maxRid := 1000
  pageSize := 4096
  nWorkspacePages := 2
  ridLimit := 49152
  requestedSrid := 0
  segmentsRemaining := 0
  writePending := false
  producePending := false
  isDone := false
  inputSegment := { byteNum := 0, byteSeg := [], len := 0 }
  outputTuple := []
  segmentReader := { srid := 0, script := script }
  workspace := { limit := none, segments := [] }
  segmentWriter := { bufferSize := 512, buffer := [] }
  pOutAccessor := { room := room, tuples := [], eos := false }
  pDynamicParamManager := params
  calls := []

/-- A union stream over `modelCollaborators` in the middle of a call: its
workspace holds `segments`, without a production limit, and `segmentsRemaining`
is as given. -/
def modelStreamHolding (segments : List LbmByteSegment) (segmentsRemaining : Nat)
    (segmentLimitParamId : Nat) (params : Nat → Nat) :
    LbmUnionExecStream modelCollaborators :=
  { modelStream [] 0 segmentLimitParamId params with
    segmentsRemaining := segmentsRemaining
    workspace := { limit := none, segments := segments } }

/-- A union stream over `modelCollaborators`, just opened, whose scratch
segment has pages of `pageSize` usable bytes. -/
def modelStreamPaged (pageSize : Nat) : LbmUnionExecStream modelCollaborators :=
  { modelStream [] 0 0 (fun _ => 0) with pageSize := pageSize }

namespace LbmSearchExecStream

/-- What `BTreeSearchExecStream` and the owners of the parameters do between
`prepare` and a call of `setAdditionalKeys`, as far as `setAdditionalKeys` can
see it: the input key is bound to the datums `key`, the two bound directives
are read, and the parameter slots hold `params`. -/
def bindSearch (key : List TupleDatum) (lower upper : SearchEndpoint) (params : Nat → Nat)
    (s : LbmSearchExecStream) : LbmSearchExecStream :=
  { s with inputKeyData := key, lowerBoundDirective := lower, upperBoundDirective := upper,
           pDynamicParamManager := params }

/-- A search stream as `BTreeSearchExecStream::prepare` leaves it: least upper
bound search, an input key of the shape `inputKeyDesc`, closed bounds. -/
def modelSearchStream (inputKeyDesc : List TupleAttributeDescriptor)
    (keyProjectionSize : Nat) (params : Nat → Nat) : LbmSearchExecStream where
  inputKeyDesc := inputKeyDesc
  keyProjectionSize := keyProjectionSize
  inputKeyData := computeTupleData inputKeyDesc
  lowerBoundDirective := SEARCH_CLOSED_LOWER
  upperBoundDirective := SEARCH_CLOSED_UPPER
  leastUpper := true
  pSearchKey := SearchKeyRef.unset
  rowLimitParamId := 0
  startRidParamId := 0
  ignoreRowLimit := true
  rowLimit := 0
  rowLimitDatum := { pData := PConstBuffer.null, cbData := 0 }
  ridInKey := false
  ridKeySetup := false
  startRid := 0
  startRidDatum := { pData := PConstBuffer.null, cbData := 0 }
  ridSearchKeyData := []
  pDynamicParamManager := params
  paramReads := []

end LbmSearchExecStream

/-! ## Observations on the record of calls -/

/-- The tuples offered to the output accessor, oldest first. -/
def offeredTuples {T : Type} : List (Call T) → List T
  | [] => []
  | Call.outProduceTuple t _ :: cs => t :: offeredTuples cs
  | _ :: cs => offeredTuples cs

/-- The tuples the output accessor accepted, oldest first. -/
def acceptedTuples {T : Type} : List (Call T) → List T
  | [] => []
  | Call.outProduceTuple t true :: cs => t :: acceptedTuples cs
  | _ :: cs => acceptedTuples cs

/-- The number of pulls of the segment reader. -/
def readerPulls {T : Type} : List (Call T) → Nat
  | [] => 0
  | Call.readSegmentAndAdvance _ _ :: cs => readerPulls cs + 1
  | _ :: cs => readerPulls cs

/-- The segments moved from the workspace to the writer
(`advancePastSegment` after an accepted `addSegment`), oldest first. -/
def movedSegments {T : Type} : List (Call T) → List LbmByteSegment
  | [] => []
  | Call.wsAdvancePastSegment seg :: cs => seg :: movedSegments cs
  | _ :: cs => movedSegments cs

namespace LbmUnionExecStream

variable {E : Collaborators}

/-- A run of `execute` calls, one per quantum of the list, each on the stream
the previous one left; the results are collected in order. A call that does
not return ends the run with its outcome. -/
def executeAll (fuel : Nat) :
    List ExecStreamQuantum → LbmUnionExecStream E →
      Outcome (List ExecStreamResult × LbmUnionExecStream E)
  | [], s => Outcome.ret ([], s)
  | q :: qs, s =>
    match execute fuel q s with
    | Outcome.ret (rc, s1) =>
      match executeAll fuel qs s1 with
      | Outcome.ret (rcs, s2) => Outcome.ret (rc :: rcs, s2)
      | Outcome.assertFailed => Outcome.assertFailed
      | Outcome.undefinedBehaviour => Outcome.undefinedBehaviour
      | Outcome.outOfFuel => Outcome.outOfFuel
    | Outcome.assertFailed => Outcome.assertFailed
    | Outcome.undefinedBehaviour => Outcome.undefinedBehaviour
    | Outcome.outOfFuel => Outcome.outOfFuel

end LbmUnionExecStream

/-! ## Predicates used to state the properties -/

/-- The segments the writer accepted, oldest first. -/
def writtenSegments {T : Type} : List (Call T) → List LbmByteSegment
  | [] => []
  | Call.swAddSegment seg true :: cs => seg :: writtenSegments cs
  | _ :: cs => writtenSegments cs

/-- The statuses the segment reader of `E` can report. -/
def ReaderStatus (E : Collaborators) (status : ExecStreamResult) : Prop :=
  ∃ r seg, (E.readSegmentAndAdvance r seg).1 = status

/-- Modelled from the spec: what `LbmSegmentReader::readSegmentAndAdvance`,
whose code is outside these sources, can report. The spec gives it three
results: a segment was produced (`EXECRC_YIELD`), upstream is exhausted
(`EXECRC_EOS`), or upstream has no tuple ready (`EXECRC_BUF_UNDERFLOW`). -/
def ReaderContract (E : Collaborators) : Prop :=
  ∀ r seg, (E.readSegmentAndAdvance r seg).1 = EXECRC_YIELD ∨
    (E.readSegmentAndAdvance r seg).1 = EXECRC_EOS ∨
    (E.readSegmentAndAdvance r seg).1 = EXECRC_BUF_UNDERFLOW

/-- The workspace `w` offers `m` drainable segments in succession and then
none, and the writer, starting from `wr`, accepts each of them. -/
def OffersAccepted (E : Collaborators) : Nat → E.Workspace → E.SegmentWriter → Prop
  | 0, w, _ => E.wsCanProduce w = false
  | m + 1, w, wr =>
    E.wsCanProduce w = true ∧
    (E.swAddSegment wr (E.segGetSrid (E.wsGetSegment w)) (E.wsGetSegment w).byteSeg
      (E.wsGetSegment w).len).1 = true ∧
    OffersAccepted E m (E.wsAdvancePastSegment w)
      (E.swAddSegment wr (E.segGetSrid (E.wsGetSegment w)) (E.wsGetSegment w).byteSeg
        (E.wsGetSegment w).len).2

namespace LbmUnionExecStream

variable {E : Collaborators}

/-- What every step of `execute` keeps: the configuration and, with a segment
limit set, the sum of the segments moved and the segments remaining. -/
def Keeps (s s1 : LbmUnionExecStream E) : Prop :=
  s1.segmentLimitParamId = s.segmentLimitParamId ∧
  s1.startRidParamId = s.startRidParamId ∧
  s1.pDynamicParamManager = s.pDynamicParamManager ∧
  (s.isSegmentLimitSet = true → s.segmentsRemaining < UINT_WIDTH →
    s1.segmentsRemaining < UINT_WIDTH ∧
    (movedSegments s1.calls).length + s1.segmentsRemaining =
      (movedSegments s.calls).length + s.segmentsRemaining) ∧
  (s.isSegmentLimitSet = false → s1.segmentsRemaining = s.segmentsRemaining)

/-- What the steps of `execute` other than `produceTuple` keep: what `Keeps`
lists, the output accessor, and the tuples offered and accepted so far. -/
def Drains (s s1 : LbmUnionExecStream E) : Prop :=
  Keeps s s1 ∧
  s1.pOutAccessor = s.pOutAccessor ∧
  offeredTuples s1.calls = offeredTuples s.calls ∧
  acceptedTuples s1.calls = acceptedTuples s.calls

end LbmUnionExecStream

/-! ## Opening the stream and negotiating its resources -/

/-- The field of `ExecStreamResourceQuantity` the union stream sets. -/
structure ExecStreamResourceQuantity where
  nCachePages : Nat
  deriving DecidableEq, Repr

/-- What `LbmUnionExecStream::open` calls besides the methods of
`Collaborators`, all of it code in other files: the base class's `open`, which
acts on the input the segment reader reads from and on the output accessor,
and the two `init` methods, which return a writer and a workspace on freshly
allocated pages. -/
structure OpenCollaborators (E : Collaborators) where
  /-- Models what `ConfluenceExecStream::open(restart)` does to the input side. -/
  confluenceOpenInput : Bool → E.SegmentReader → E.SegmentReader
  /-- Models what `ConfluenceExecStream::open(restart)` does to the output
  accessor. -/
  confluenceOpenOutput : Bool → E.OutAccessor → E.OutAccessor
  /-- Models `LbmSegmentWriter::init(writerBuf, writerBufSize, tupleDesc)`. -/
  swInit : Nat → E.SegmentWriter
  /-- Models `LbmUnionWorkspace::init(pWorkspaceBuffer, maxSegmentSize)` on a
  buffer of `nWorkspacePages` pages of `pageSize` bytes; the arguments are
  `nWorkspacePages`, `pageSize` and `maxSegmentSize`. -/
  wsInit : Nat → Nat → Nat → E.Workspace

/-- The initialisers that go with `modelCollaborators`; the base class's `open`
leaves the scripted reader and the output accessor as they are. -/
def modelOpenCollaborators : OpenCollaborators modelCollaborators where
  confluenceOpenInput := fun _ r => r
  confluenceOpenOutput := fun _ o => o
  swInit := fun bufferSize => { bufferSize := bufferSize, buffer := [] }
  wsInit := fun _ _ _ => { limit := none, segments := [] }

namespace LbmUnionExecStream

variable {E : Collaborators}

/-- Embeds `LbmUnionExecStream::open` (`open` is a keyword of Lean). The usable
page size read from the scratch segment is the value `prepare` stored in
`pageSize`; `createParam` and `writeParam` leave the value of `ridLimit` in the
slot `ridLimitParamId`. The ghost field `calls` records the two `reset` calls;
the `init` calls are not methods of `Collaborators` and are not recorded. -/
def openStream (I : OpenCollaborators E) (restart : Bool) (s : LbmUnionExecStream E) :
    LbmUnionExecStream E :=
  let s0 : LbmUnionExecStream E :=
    { s with segmentReader := I.confluenceOpenInput restart s.segmentReader,
             pOutAccessor := I.confluenceOpenOutput restart s.pOutAccessor }
  let s1 : LbmUnionExecStream E :=
    if !restart then
      let writerBufSize := s0.pageSize % UINT_WIDTH / 8
      { s0 with segmentWriter := I.swInit writerBufSize,
                workspace := I.wsInit s0.nWorkspacePages s0.pageSize writerBufSize,
                pDynamicParamManager :=
                  Function.update s0.pDynamicParamManager s0.ridLimitParamId s0.ridLimit }
    else
      { s0 with workspace := E.wsReset s0.workspace,
                segmentWriter := E.swReset s0.segmentWriter,
                calls := s0.calls ++ [Call.wsReset, Call.swReset] }
  { s1 with writePending := false, producePending := false, isDone := false }

/-- Embeds `LbmUnionExecStream::getResourceRequirements`; the two arguments are
the quantities as `ConfluenceExecStream::getResourceRequirements` left them.
`nCachePages` is a `uint`, and so is `computeOptWorkspacePages(maxRid) + 1`. -/
def getResourceRequirements (s : LbmUnionExecStream E)
    (minQuantity optQuantity : ExecStreamResourceQuantity) :
    Outcome (ExecStreamResourceQuantity × ExecStreamResourceQuantity) :=
  let min1 : ExecStreamResourceQuantity :=
    { nCachePages := (minQuantity.nCachePages + 2) % UINT_WIDTH }
  match computeOptWorkspacePages s s.maxRid with
  | Outcome.ret pages =>
    Outcome.ret (min1,
      { nCachePages := (optQuantity.nCachePages + (pages + 1) % UINT_WIDTH) % UINT_WIDTH })
  | Outcome.assertFailed => Outcome.assertFailed
  | Outcome.undefinedBehaviour => Outcome.undefinedBehaviour
  | Outcome.outOfFuel => Outcome.outOfFuel

/-- Embeds `LbmUnionExecStream::setResourceAllocation`. -/
def setResourceAllocation (s : LbmUnionExecStream E) (quantity : ExecStreamResourceQuantity) :
    Outcome (LbmUnionExecStream E) :=
  let s1 : LbmUnionExecStream E := { s with nWorkspacePages := quantity.nCachePages }
  match computeRidLimit s1 s1.nWorkspacePages with
  | Outcome.ret limit => Outcome.ret { s1 with ridLimit := limit }
  | Outcome.assertFailed => Outcome.assertFailed
  | Outcome.undefinedBehaviour => Outcome.undefinedBehaviour
  | Outcome.outOfFuel => Outcome.outOfFuel

end LbmUnionExecStream

/-! ## More observations on the record of calls -/

/-- The segments the writer refused, oldest first. -/
def refusedSegments {T : Type} : List (Call T) → List LbmByteSegment
  | [] => []
  | Call.swAddSegment seg false :: cs => seg :: refusedSegments cs
  | _ :: cs => refusedSegments cs

/-- The segments the reader yielded, oldest first. -/
def pulledSegments {T : Type} : List (Call T) → List LbmByteSegment
  | [] => []
  | Call.readSegmentAndAdvance EXECRC_YIELD seg :: cs => seg :: pulledSegments cs
  | _ :: cs => pulledSegments cs

/-- The segments the workspace merged (`addSegment` returned true), oldest
first. -/
def addedSegments {T : Type} : List (Call T) → List LbmByteSegment
  | [] => []
  | Call.wsAddSegment seg true :: cs => seg :: addedSegments cs
  | _ :: cs => addedSegments cs

/-- The bounds passed to `setProductionLimit`, oldest first. -/
def productionLimits {T : Type} : List (Call T) → List Nat
  | [] => []
  | Call.wsSetProductionLimit rid :: cs => rid :: productionLimits cs
  | _ :: cs => productionLimits cs

/-- The number of `removeLimit` calls. -/
def limitRemovals {T : Type} : List (Call T) → Nat
  | [] => 0
  | Call.wsRemoveLimit :: cs => limitRemovals cs + 1
  | _ :: cs => limitRemovals cs

namespace LbmUnionExecStream

variable {E : Collaborators}

/-- Every segment pulled from the reader, in order, has been merged into the
workspace, but for the last one while it is pending in `inputSegment`. -/
def NoSegmentDropped (s : LbmUnionExecStream E) : Prop :=
  pulledSegments s.calls =
    addedSegments s.calls ++ (if s.writePending then [s.inputSegment] else [])

/-- A stream that is done has neither an input segment nor an output tuple
pending. -/
def DoneInvariant (s : LbmUnionExecStream E) : Prop :=
  s.isDone = true → s.writePending = false ∧ s.producePending = false

end LbmUnionExecStream

/-! ## More predicates and streams used to state the properties -/

/-- A union stream over `modelCollaborators`, just opened, with pages of
`pageSize` usable bytes and the largest Rid `maxRid`. -/
def modelStreamSized (pageSize maxRid : Nat) : LbmUnionExecStream modelCollaborators :=
  { modelStream [] 0 0 (fun _ => 0) with pageSize := pageSize, maxRid := maxRid }

/-- The first `k` segments the workspace `w` offers, each after
`advancePastSegment` on the one before. -/
def offeredSegments (E : Collaborators) : Nat → E.Workspace → List LbmByteSegment
  | 0, _ => []
  | k + 1, w => E.wsGetSegment w :: offeredSegments E k (E.wsAdvancePastSegment w)

/-- The workspace after `k` calls of `advancePastSegment`. -/
def advancedPast (E : Collaborators) : Nat → E.Workspace → E.Workspace
  | 0, w => w
  | k + 1, w => advancedPast E k (E.wsAdvancePastSegment w)

namespace LbmUnionExecStream

variable {E : Collaborators}

/-- What the draining steps of `execute` keep of the input side and of the
flags: the three flags, the pending input segment, the reader, and the
segments pulled and merged so far. -/
def SameInput (s s1 : LbmUnionExecStream E) : Prop :=
  s1.writePending = s.writePending ∧ s1.producePending = s.producePending ∧
  s1.isDone = s.isDone ∧ s1.inputSegment = s.inputSegment ∧
  s1.segmentReader = s.segmentReader ∧
  pulledSegments s1.calls = pulledSegments s.calls ∧
  addedSegments s1.calls = addedSegments s.calls

end LbmUnionExecStream

namespace LbmSearchExecStream

/-- The stream in the middle of a scan: `rowLimit` holds `stored`, left by an
earlier call of `reachedTupleLimit`, and the parameter slots hold `params`. -/
def midScan (stored : Nat) (params : Nat → Nat) (s : LbmSearchExecStream) :
    LbmSearchExecStream :=
  { s with rowLimit := stored, pDynamicParamManager := params }

end LbmSearchExecStream

/-! ## The build without assertions

With `NDEBUG` defined, `assert(e)` expands to nothing and `e` is not
evaluated. On the path of `execute` two methods contain `assert`:
`writeSegment` (twice) and `produceTuple`. The definitions below embed these
two methods, and the loops of `execute` that call them, as that build compiles
them; `readSegment`, `transfer` and `transferLast` contain no `assert` and are
the same in both builds. -/

namespace LbmUnionExecStream

variable {E : Collaborators}

/-- Embeds `LbmUnionExecStream::writeSegment` as compiled with `NDEBUG`: the
lines `assert(writePending = true);` and
`assert(workspace.addSegment(inputSegment));` are empty statements, so
`workspace.addSegment` is not called. -/
def writeSegmentNDEBUG (fuel : Nat) (s : LbmUnionExecStream E) :
    Outcome (Bool × LbmUnionExecStream E) :=
  let s1 : LbmUnionExecStream E :=
    if s.isConsumerSridSet then
      { s with workspace := E.wsAdvanceToSrid s.workspace s.requestedSrid,
               calls := s.calls ++ [Call.wsAdvanceToSrid s.requestedSrid] }
    else s
  let currentSrid := E.getSrid s1.segmentReader % RID_WIDTH
  let limit := (currentSrid + RID_WIDTH - 1) % RID_WIDTH
  let s2 : LbmUnionExecStream E :=
    { s1 with workspace := E.wsSetProductionLimit s1.workspace limit,
              calls := s1.calls ++ [Call.readerGetSrid, Call.wsSetProductionLimit limit] }
  match transfer fuel s2 with
  | Outcome.ret (false, s3) => Outcome.ret (false, s3)
  | Outcome.ret (true, s3) => Outcome.ret (true, { s3 with writePending := false })
  | Outcome.assertFailed => Outcome.assertFailed
  | Outcome.undefinedBehaviour => Outcome.undefinedBehaviour
  | Outcome.outOfFuel => Outcome.outOfFuel

/-- Embeds `LbmUnionExecStream::produceTuple` as compiled with `NDEBUG`: the
line `assert(producePending);` is an empty statement. -/
def produceTupleNDEBUG (s : LbmUnionExecStream E) : Bool × LbmUnionExecStream E :=
  let p := E.swProduceSegmentTuple s.segmentWriter
  let o := E.outProduceTuple s.pOutAccessor p.1
  let s1 : LbmUnionExecStream E :=
    { s with outputTuple := p.1, segmentWriter := p.2, pOutAccessor := o.2,
             calls := s.calls ++
               [Call.swProduceSegmentTuple p.1, Call.outProduceTuple p.1 o.1] }
  if o.1 then (true, { s1 with producePending := false })
  else (false, s1)

/-- The loop `while (! producePending) { ... }` inside `execute`, as compiled
with `NDEBUG`: it calls `writeSegmentNDEBUG`. -/
def whileNotPendingNDEBUG :
    Nat → LbmUnionExecStream E → Outcome (Option ExecStreamResult × LbmUnionExecStream E)
  | 0, _ => Outcome.outOfFuel
  | fuel + 1, s =>
    if s.producePending then
      Outcome.ret (none, s)
    else
      let r := s.readSegment
      if r.1 = EXECRC_EOS then
        let s1 := r.2.log Call.wsIsEmpty
        if !E.wsIsEmpty s1.workspace then
          match transferLast (fuel + 1) s1 with
          | Outcome.ret s2 => Outcome.ret (none, { s2 with producePending := true })
          | Outcome.assertFailed => Outcome.assertFailed
          | Outcome.undefinedBehaviour => Outcome.undefinedBehaviour
          | Outcome.outOfFuel => Outcome.outOfFuel
        else
          Outcome.ret (some EXECRC_BUF_OVERFLOW, { s1 with isDone := true })
      else if r.1 ≠ EXECRC_YIELD then
        Outcome.ret (some r.1, r.2)
      else
        match writeSegmentNDEBUG (fuel + 1) r.2 with
        | Outcome.ret (false, s2) => whileNotPendingNDEBUG fuel { s2 with producePending := true }
        | Outcome.ret (true, s2) => whileNotPendingNDEBUG fuel s2
        | Outcome.assertFailed => Outcome.assertFailed
        | Outcome.undefinedBehaviour => Outcome.undefinedBehaviour
        | Outcome.outOfFuel => Outcome.outOfFuel

/-- The loop `for (uint i = 0; i < quantum.nTuplesMax; i++) { ... }` of
`execute` followed by `return EXECRC_QUANTUM_EXPIRED`, as compiled with
`NDEBUG`. -/
def forLoopNDEBUG (fuel : Nat) :
    Nat → LbmUnionExecStream E → Outcome (ExecStreamResult × LbmUnionExecStream E)
  | 0, s => Outcome.ret (EXECRC_QUANTUM_EXPIRED, s)
  | n + 1, s =>
    match whileNotPendingNDEBUG fuel s with
    | Outcome.ret (some status, s1) => Outcome.ret (status, s1)
    | Outcome.ret (none, s1) =>
      match produceTupleNDEBUG s1 with
      | (false, s2) => Outcome.ret (EXECRC_BUF_OVERFLOW, s2)
      | (true, s2) => forLoopNDEBUG fuel n { s2 with producePending := false }
    | Outcome.assertFailed => Outcome.assertFailed
    | Outcome.undefinedBehaviour => Outcome.undefinedBehaviour
    | Outcome.outOfFuel => Outcome.outOfFuel

/-- Embeds `LbmUnionExecStream::execute` as compiled with `NDEBUG`. -/
def executeNDEBUG (fuel : Nat) (quantum : ExecStreamQuantum) (s : LbmUnionExecStream E) :
    Outcome (ExecStreamResult × LbmUnionExecStream E) :=
  if s.isDone then
    Outcome.ret (EXECRC_EOS,
      { s with pOutAccessor := E.outMarkEOS s.pOutAccessor,
               calls := s.calls ++ [Call.outMarkEOS] })
  else
    forLoopNDEBUG fuel quantum.nTuplesMax s.readLimits

end LbmUnionExecStream

/-! ## Restarting the stream -/

/-- Modelled from the spec: what `reset` and `init` of `LbmUnionWorkspace` and
of `LbmSegmentWriter`, whose code is outside these sources, do to their
objects. The spec says that the workspace and the writer "are allocated once
when the stream first opens (on a cold start) and reset (state cleared,
buffers kept) on a restart", calls the workspace's `reset()` a "full-state
clear for restart", and says that after a restart "the workspace is empty and
the writer buffer is empty, equivalent to a freshly opened stream with the
same configuration". In terms of the methods the stream calls:

* `reset` on an object that `init` has just set up leaves it as it is, and a
  workspace that `init` has just set up is empty;
* `reset` clears whatever a method did to the state: the object a method
  leaves resets to what the object it was called on resets to. -/
structure ResetContract (E : Collaborators) (I : OpenCollaborators E) : Prop where
  wsReset_init : ∀ n p m, E.wsReset (I.wsInit n p m) = I.wsInit n p m
  wsIsEmpty_init : ∀ n p m, E.wsIsEmpty (I.wsInit n p m) = true
  wsReset_advancePastSegment : ∀ w, E.wsReset (E.wsAdvancePastSegment w) = E.wsReset w
  wsReset_setProductionLimit : ∀ w rid, E.wsReset (E.wsSetProductionLimit w rid) = E.wsReset w
  wsReset_removeLimit : ∀ w, E.wsReset (E.wsRemoveLimit w) = E.wsReset w
  wsReset_advanceToSrid : ∀ w rid, E.wsReset (E.wsAdvanceToSrid w rid) = E.wsReset w
  wsReset_addSegment : ∀ w seg, E.wsReset (E.wsAddSegment w seg).2 = E.wsReset w
  swReset_init : ∀ b, E.swReset (I.swInit b) = I.swInit b
  swReset_addSegment : ∀ w srid byteSeg len,
    E.swReset (E.swAddSegment w srid byteSeg len).2 = E.swReset w
  swReset_produceSegmentTuple : ∀ w, E.swReset (E.swProduceSegmentTuple w).2 = E.swReset w

namespace LbmUnionExecStream

variable {E : Collaborators}

/-- The states the stream is in between calls, from the prepared stream `c`
on: after the cold `open`, after a restart, after an `execute` call that
returned, and after the other operators of the pipeline supplied input, took
output or wrote parameter slots. -/
inductive Reachable (I : OpenCollaborators E) (c : LbmUnionExecStream E) :
    LbmUnionExecStream E → Prop
  | afterOpen : Reachable I c (openStream I false c)
  | afterRestart (s : LbmUnionExecStream E) :
    Reachable I c s → Reachable I c (openStream I true s)
  | afterExecute (fuel : Nat) (q : ExecStreamQuantum) (s s1 : LbmUnionExecStream E)
      (rc : ExecStreamResult) :
    Reachable I c s → execute fuel q s = Outcome.ret (rc, s1) → Reachable I c s1
  | afterOthers (s : LbmUnionExecStream E) (r : E.SegmentReader) (o : E.OutAccessor)
      (params : Nat → Nat) :
    Reachable I c s →
    Reachable I c { s with segmentReader := r, pOutAccessor := o, pDynamicParamManager := params }

/-- The workspace and the writer of `s1` reset to what those of `s` reset to,
and the two streams have the same page size and number of workspace pages. -/
def SameReset (s s1 : LbmUnionExecStream E) : Prop :=
  E.wsReset s1.workspace = E.wsReset s.workspace ∧
  E.swReset s1.segmentWriter = E.swReset s.segmentWriter ∧
  s1.pageSize = s.pageSize ∧ s1.nWorkspacePages = s.nWorkspacePages

/-- The two streams agree on every member variable of the embedding but the
input side and the output accessor, which are the base class's to open, and
the ghost record of calls. -/
def SameMembers (a b : LbmUnionExecStream E) : Prop :=
  a.ridLimitParamId = b.ridLimitParamId ∧ a.startRidParamId = b.startRidParamId ∧
  a.segmentLimitParamId = b.segmentLimitParamId ∧ a.maxRid = b.maxRid ∧
  a.pageSize = b.pageSize ∧ a.nWorkspacePages = b.nWorkspacePages ∧
  a.ridLimit = b.ridLimit ∧ a.requestedSrid = b.requestedSrid ∧
  a.segmentsRemaining = b.segmentsRemaining ∧ a.writePending = b.writePending ∧
  a.producePending = b.producePending ∧ a.isDone = b.isDone ∧
  a.inputSegment = b.inputSegment ∧ a.outputTuple = b.outputTuple ∧
  a.workspace = b.workspace ∧ a.segmentWriter = b.segmentWriter ∧
  a.pDynamicParamManager = b.pDynamicParamManager

end LbmUnionExecStream

/-! # Theorems -/

/-! ## Lemmas on the record of calls -/

theorem offeredTuples_append {T : Type} (a b : List (Call T)) :
    offeredTuples (a ++ b) = offeredTuples a ++ offeredTuples b := by
  induction a with
  | nil => rfl
  | cons c cs ih => cases c <;> simp [offeredTuples, ih]

theorem acceptedTuples_append {T : Type} (a b : List (Call T)) :
    acceptedTuples (a ++ b) = acceptedTuples a ++ acceptedTuples b := by
  induction a with
  | nil => rfl
  | cons c cs ih =>
    cases c with
    | outProduceTuple t ok => cases ok <;> simp [acceptedTuples, ih]
    | _ => simp [acceptedTuples, ih]

theorem readerPulls_append {T : Type} (a b : List (Call T)) :
    readerPulls (a ++ b) = readerPulls a + readerPulls b := by
  induction a with
  | nil => simp [readerPulls]
  | cons c cs ih => cases c <;> simp [readerPulls, ih]; omega

theorem movedSegments_append {T : Type} (a b : List (Call T)) :
    movedSegments (a ++ b) = movedSegments a ++ movedSegments b := by
  induction a with
  | nil => rfl
  | cons c cs ih => cases c <;> simp [movedSegments, ih]

theorem writtenSegments_append {T : Type} (a b : List (Call T)) :
    writtenSegments (a ++ b) = writtenSegments a ++ writtenSegments b := by
  induction a with
  | nil => rfl
  | cons c cs ih =>
    cases c with
    | swAddSegment seg ok => cases ok <;> simp [writtenSegments, ih]
    | _ => simp [writtenSegments, ih]

theorem modelCollaborators_readerContract : ReaderContract modelCollaborators := by
  intro r seg
  show (ScriptedReader.readSegmentAndAdvance r seg).1 = _ ∨ _
  unfold ScriptedReader.readSegmentAndAdvance
  split <;> simp [modelCollaborators, ScriptedReader.readSegmentAndAdvance, *]

namespace LbmUnionExecStream

variable {E : Collaborators}

/-! ## The parameter reads at the start of `execute` -/

theorem readLimits_frame (s : LbmUnionExecStream E) :
    s.readLimits.isDone = s.isDone ∧ s.readLimits.producePending = s.producePending ∧
    s.readLimits.writePending = s.writePending ∧
    s.readLimits.segmentReader = s.segmentReader ∧
    s.readLimits.inputSegment = s.inputSegment ∧
    s.readLimits.workspace = s.workspace ∧
    s.readLimits.segmentWriter = s.segmentWriter ∧
    s.readLimits.pOutAccessor = s.pOutAccessor ∧
    s.readLimits.segmentLimitParamId = s.segmentLimitParamId ∧
    s.readLimits.pDynamicParamManager = s.pDynamicParamManager := by
  unfold readLimits isConsumerSridSet isSegmentLimitSet
  by_cases h1 : s.startRidParamId > 0 <;> by_cases h2 : s.segmentLimitParamId > 0 <;>
    simp [h1, h2]

theorem readLimits_observed (s : LbmUnionExecStream E) :
    offeredTuples s.readLimits.calls = offeredTuples s.calls ∧
    acceptedTuples s.readLimits.calls = acceptedTuples s.calls ∧
    readerPulls s.readLimits.calls = readerPulls s.calls ∧
    movedSegments s.readLimits.calls = movedSegments s.calls := by
  unfold readLimits isConsumerSridSet isSegmentLimitSet
  by_cases h1 : s.startRidParamId > 0 <;> by_cases h2 : s.segmentLimitParamId > 0 <;>
    simp [h1, h2, offeredTuples_append, acceptedTuples_append, readerPulls_append,
      movedSegments_append, offeredTuples, acceptedTuples, readerPulls, movedSegments]

/-! ## `execute` on a stream that is done, and at end of stream -/

theorem execute_of_isDone (fuel : Nat) (q : ExecStreamQuantum) (s : LbmUnionExecStream E)
    (h : s.isDone = true) :
    execute fuel q s = Outcome.ret (EXECRC_EOS,
      { s with pOutAccessor := E.outMarkEOS s.pOutAccessor,
               calls := s.calls ++ [Call.outMarkEOS] }) := by
  simp [execute, h]

theorem executeAll_of_isDone (fuel : Nat) (qs : List ExecStreamQuantum) :
    ∀ s : LbmUnionExecStream E, s.isDone = true →
      ∃ s1, executeAll fuel qs s = Outcome.ret (List.replicate qs.length EXECRC_EOS, s1) ∧
        s1.isDone = true ∧ s1.writePending = s.writePending ∧
        s1.producePending = s.producePending ∧
        s1.segmentReader = s.segmentReader ∧ s1.inputSegment = s.inputSegment ∧
        s1.workspace = s.workspace ∧
        s1.segmentWriter = s.segmentWriter ∧
        s1.calls = s.calls ++ List.replicate qs.length Call.outMarkEOS := by
  induction qs with
  | nil => intro s h; exact ⟨s, by simp [executeAll, h]⟩
  | cons q qs ih =>
    intro s h
    obtain ⟨s1, h1, h2, h3, h4, h5, h6, h7, h8, h9⟩ :=
      ih { s with pOutAccessor := E.outMarkEOS s.pOutAccessor,
                  calls := s.calls ++ [Call.outMarkEOS] } h
    refine ⟨s1, ?_, h2, h3, h4, h5, h6, h7, h8, ?_⟩
    · simp [executeAll, execute_of_isDone fuel q s h, h1, List.replicate_succ]
    · simp [h9, List.replicate_succ]

theorem execute_eos_empty (fuel : Nat) (q : ExecStreamQuantum) (s : LbmUnionExecStream E)
    (hfuel : 1 ≤ fuel) (hq : 1 ≤ q.nTuplesMax)
    (hdone : s.isDone = false) (hprod : s.producePending = false)
    (hwrite : s.writePending = false)
    (heos : (E.readSegmentAndAdvance s.segmentReader s.inputSegment).1 = EXECRC_EOS)
    (hempty : E.wsIsEmpty s.workspace = true) :
    ∃ s1, execute fuel q s = Outcome.ret (EXECRC_BUF_OVERFLOW, s1) ∧ s1.isDone = true ∧
      s1.producePending = false ∧ s1.writePending = false ∧
      offeredTuples s1.calls = offeredTuples s.calls ∧
      s1.pOutAccessor = s.pOutAccessor ∧ s1.workspace = s.workspace ∧
      s1.segmentWriter = s.segmentWriter := by
  obtain ⟨f, rfl⟩ : ∃ f, fuel = f + 1 := ⟨fuel - 1, by omega⟩
  obtain ⟨n, hn⟩ : ∃ n, q.nTuplesMax = n + 1 := ⟨q.nTuplesMax - 1, by omega⟩
  obtain ⟨l1, l2, l3, l4, l5, l6, l7, l8, -, -⟩ := readLimits_frame s
  obtain ⟨o1, -, -, -⟩ := readLimits_observed s
  simp [execute, hdone, hn, forLoop, whileNotPending, readSegment, l1, l2, l3, l4, l5, l6, l7,
    l8, hprod, hwrite, heos, log, hempty, offeredTuples_append, offeredTuples, o1]

/-! ## What the steps of `execute` keep -/

theorem keeps_refl (s : LbmUnionExecStream E) : Keeps s s := by
  simp [Keeps]

theorem keeps_trans {a b c : LbmUnionExecStream E} (h1 : Keeps a b) (h2 : Keeps b c) :
    Keeps a c := by
  obtain ⟨a1, a2, a3, a8, a9⟩ := h1
  obtain ⟨b1, b2, b3, b8, b9⟩ := h2
  have hl : b.isSegmentLimitSet = a.isSegmentLimitSet := by simp [isSegmentLimitSet, a1]
  refine ⟨by rw [b1, a1], by rw [b2, a2], by rw [b3, a3], ?_, ?_⟩
  · intro hs hr
    obtain ⟨x1, x2⟩ := a8 hs hr
    obtain ⟨y1, y2⟩ := b8 (hl ▸ hs) x1
    exact ⟨y1, by omega⟩
  · intro hs
    rw [b9 (hl ▸ hs), a9 hs]

theorem drains_refl (s : LbmUnionExecStream E) : Drains s s := by
  simp [Drains, Keeps, keeps_refl]

theorem drains_trans {a b c : LbmUnionExecStream E} (h1 : Drains a b) (h2 : Drains b c) :
    Drains a c := by
  obtain ⟨a1, a2, a3, a4⟩ := h1
  obtain ⟨b1, b2, b3, b4⟩ := h2
  exact ⟨keeps_trans a1 b1, by rw [b2, a2], by rw [b3, a3], by rw [b4, a4]⟩

theorem transfer_drains (fuel : Nat) : ∀ (s s1 : LbmUnionExecStream E) (b : Bool),
    transfer fuel s = Outcome.ret (b, s1) → Drains s s1 := by
  induction fuel with
  | zero => intro s s1 b h; simp [transfer] at h
  | succ fuel ih =>
    intro s s1 b h
    unfold transfer at h
    simp only [log] at h
    split at h
    · split at h
      · simp only [Outcome.ret.injEq, Prod.mk.injEq] at h
        obtain ⟨-, rfl⟩ := h
        simp [Drains, Keeps, offeredTuples_append, acceptedTuples_append, movedSegments_append,
          offeredTuples, acceptedTuples, movedSegments, isSegmentLimitSet]
      · split at h
        · simp only [Outcome.ret.injEq, Prod.mk.injEq] at h
          obtain ⟨-, rfl⟩ := h
          simp [Drains, Keeps, offeredTuples_append, acceptedTuples_append, movedSegments_append,
            offeredTuples, acceptedTuples, movedSegments, isSegmentLimitSet]
        · rename_i hlim hacc
          refine drains_trans ?_ (ih _ _ _ h)
          simp only [isSegmentLimitSet, Bool.and_eq_true, decide_eq_true_eq, beq_iff_eq,
            not_and] at hlim
          by_cases hl : s.segmentLimitParamId > 0
          · have h0 := hlim hl
            simp [Drains, Keeps, offeredTuples_append, acceptedTuples_append, movedSegments_append,
              offeredTuples, acceptedTuples, movedSegments, isSegmentLimitSet, hl, UINT_WIDTH]
            intro hr
            omega
          · simp [Drains, Keeps, offeredTuples_append, acceptedTuples_append, movedSegments_append,
              offeredTuples, acceptedTuples, movedSegments, isSegmentLimitSet, hl]
    · simp only [Outcome.ret.injEq, Prod.mk.injEq] at h
      obtain ⟨-, rfl⟩ := h
      simp [Drains, Keeps, offeredTuples_append, acceptedTuples_append, movedSegments_append,
        offeredTuples, acceptedTuples, movedSegments, isSegmentLimitSet]

theorem transferLast_drains (fuel : Nat) (s s1 : LbmUnionExecStream E)
    (h : transferLast fuel s = Outcome.ret s1) : Drains s s1 := by
  unfold transferLast at h
  dsimp only at h
  split at h
  · rename_i r hr
    simp only [Outcome.ret.injEq] at h
    subst h
    refine drains_trans ?_ (transfer_drains fuel _ r.2 r.1 hr)
    simp [Drains, Keeps, offeredTuples_append, acceptedTuples_append, movedSegments_append,
      offeredTuples, acceptedTuples, movedSegments, isSegmentLimitSet]
  all_goals simp at h

theorem writeSegment_drains (fuel : Nat) (s s1 : LbmUnionExecStream E) (b : Bool)
    (h : writeSegment fuel s = Outcome.ret (b, s1)) : Drains s s1 := by
  unfold writeSegment at h
  dsimp only at h
  split at h
  · rename_i s3 hr
    simp only [Outcome.ret.injEq, Prod.mk.injEq] at h
    obtain ⟨-, rfl⟩ := h
    refine drains_trans ?_ (transfer_drains fuel _ _ _ hr)
    by_cases hc : s.startRidParamId > 0 <;>
    simp [Drains, Keeps, offeredTuples_append, acceptedTuples_append, movedSegments_append,
      offeredTuples, acceptedTuples, movedSegments, isSegmentLimitSet, isConsumerSridSet, hc]
  · rename_i s3 hr
    split at h
    · simp only [Outcome.ret.injEq, Prod.mk.injEq] at h
      obtain ⟨-, rfl⟩ := h
      refine drains_trans (drains_trans ?_ (transfer_drains fuel _ _ _ hr)) ?_
      · by_cases hc : s.startRidParamId > 0 <;>
        simp [Drains, Keeps, offeredTuples_append, acceptedTuples_append, movedSegments_append,
          offeredTuples, acceptedTuples, movedSegments, isSegmentLimitSet, isConsumerSridSet, hc]
      · simp [Drains, Keeps, offeredTuples_append, acceptedTuples_append, movedSegments_append,
          offeredTuples, acceptedTuples, movedSegments, isSegmentLimitSet]
    · simp at h
  all_goals simp at h

theorem readSegment_drains (s : LbmUnionExecStream E) : Drains s s.readSegment.2 := by
  unfold readSegment
  by_cases hw : s.writePending = true
  · simp [hw, drains_refl]
  · by_cases hy : (E.readSegmentAndAdvance s.segmentReader s.inputSegment).1 = EXECRC_YIELD <;>
    simp [hw, hy, Drains, Keeps, offeredTuples_append, acceptedTuples_append, movedSegments_append,
      offeredTuples, acceptedTuples, movedSegments, isSegmentLimitSet]

theorem readSegment_status (s : LbmUnionExecStream E) :
    s.readSegment.1 = EXECRC_YIELD ∨ ReaderStatus E s.readSegment.1 := by
  unfold readSegment
  by_cases hw : s.writePending = true
  · simp [hw]
  · right
    refine ⟨s.segmentReader, s.inputSegment, ?_⟩
    by_cases hy : (E.readSegmentAndAdvance s.segmentReader s.inputSegment).1 = EXECRC_YIELD <;>
    simp [hw, hy]

theorem whileNotPending_drains (fuel : Nat) :
    ∀ (s s1 : LbmUnionExecStream E) (r : Option ExecStreamResult),
      whileNotPending fuel s = Outcome.ret (r, s1) →
      Drains s s1 ∧ (r = none → s1.producePending = true) ∧
      (∀ st, r = some st → st = EXECRC_BUF_OVERFLOW ∨
        (ReaderStatus E st ∧ st ≠ EXECRC_EOS ∧ st ≠ EXECRC_YIELD)) := by
  induction fuel with
  | zero => intro s s1 r h; simp [whileNotPending] at h
  | succ fuel ih =>
    intro s s1 r h
    unfold whileNotPending at h
    dsimp only at h
    split at h
    · rename_i hp
      simp only [Outcome.ret.injEq, Prod.mk.injEq] at h
      obtain ⟨rfl, rfl⟩ := h
      exact ⟨drains_refl _, fun _ => hp, by simp⟩
    · split at h
      · split at h
        · split at h
          · rename_i s2 hr
            simp only [Outcome.ret.injEq, Prod.mk.injEq] at h
            obtain ⟨rfl, rfl⟩ := h
            refine ⟨?_, by simp, by simp⟩
            refine drains_trans (drains_trans (drains_trans (readSegment_drains s) ?_)
              (transferLast_drains _ _ _ hr)) ?_
            · simp [Drains, Keeps, log, offeredTuples_append, acceptedTuples_append,
                movedSegments_append, offeredTuples, acceptedTuples, movedSegments,
                isSegmentLimitSet]
            · simp [Drains, Keeps, isSegmentLimitSet]
          all_goals simp at h
        · simp only [Outcome.ret.injEq, Prod.mk.injEq] at h
          obtain ⟨rfl, rfl⟩ := h
          refine ⟨?_, by simp, by simp⟩
          refine drains_trans (readSegment_drains s) ?_
          simp [Drains, Keeps, log, offeredTuples_append, acceptedTuples_append,
            movedSegments_append, offeredTuples, acceptedTuples, movedSegments,
            isSegmentLimitSet]
      · rename_i heos
        split at h
        · rename_i hy
          simp only [Outcome.ret.injEq, Prod.mk.injEq] at h
          obtain ⟨rfl, rfl⟩ := h
          refine ⟨readSegment_drains s, by simp, ?_⟩
          intro st hst
          simp only [Option.some.injEq] at hst
          subst hst
          right
          rcases readSegment_status s with h1 | h1
          · exact absurd h1 hy
          · exact ⟨h1, heos, hy⟩
        · split at h
          · rename_i s2 hr
            obtain ⟨d, p1, p2⟩ := ih _ _ _ h
            refine ⟨?_, p1, p2⟩
            refine drains_trans (drains_trans (drains_trans (readSegment_drains s)
              (writeSegment_drains _ _ _ _ hr)) ?_) d
            simp [Drains, Keeps, isSegmentLimitSet]
          · rename_i s2 hr
            obtain ⟨d, p1, p2⟩ := ih _ _ _ h
            exact ⟨drains_trans (drains_trans (readSegment_drains s)
              (writeSegment_drains _ _ _ _ hr)) d, p1, p2⟩
          all_goals simp at h

theorem produceTuple_keeps (s s2 : LbmUnionExecStream E) (ok : Bool)
    (h : produceTuple s = Outcome.ret (ok, s2)) :
    Keeps s s2 ∧ s.producePending = true ∧
    (offeredTuples s2.calls).length = (offeredTuples s.calls).length + 1 ∧
    (acceptedTuples s2.calls).length =
      (acceptedTuples s.calls).length + (if ok then 1 else 0) := by
  unfold produceTuple at h
  dsimp only at h
  split at h
  · rename_i hp
    split at h
    · rename_i hok
      simp only [Outcome.ret.injEq, Prod.mk.injEq] at h
      obtain ⟨rfl, rfl⟩ := h
      simp [Keeps, hok, hp, offeredTuples_append, acceptedTuples_append, movedSegments_append,
        offeredTuples, acceptedTuples, movedSegments, isSegmentLimitSet]
    · rename_i hok
      simp only [Outcome.ret.injEq, Prod.mk.injEq] at h
      obtain ⟨rfl, rfl⟩ := h
      simp [Keeps, hok, hp, offeredTuples_append, acceptedTuples_append, movedSegments_append,
        offeredTuples, acceptedTuples, movedSegments, isSegmentLimitSet]
  · simp at h

theorem forLoop_counts (fuel : Nat) (n : Nat) :
    ∀ (s s1 : LbmUnionExecStream E) (rc : ExecStreamResult),
      forLoop fuel n s = Outcome.ret (rc, s1) →
      Keeps s s1 ∧
      (offeredTuples s1.calls).length ≤ (offeredTuples s.calls).length + n ∧
      ((rc = EXECRC_QUANTUM_EXPIRED ∧
          (acceptedTuples s1.calls).length = (acceptedTuples s.calls).length + n) ∨
        ((acceptedTuples s1.calls).length < (acceptedTuples s.calls).length + n ∧
          (rc = EXECRC_BUF_OVERFLOW ∨
            (ReaderStatus E rc ∧ rc ≠ EXECRC_EOS ∧ rc ≠ EXECRC_YIELD)))) := by
  induction n with
  | zero =>
    intro s s1 rc h
    simp only [forLoop, Outcome.ret.injEq, Prod.mk.injEq] at h
    obtain ⟨rfl, rfl⟩ := h
    simp [keeps_refl]
  | succ n ih =>
    intro s s1 rc h
    unfold forLoop at h
    split at h
    · rename_i st s2 hw
      simp only [Outcome.ret.injEq, Prod.mk.injEq] at h
      obtain ⟨rfl, rfl⟩ := h
      obtain ⟨⟨k, -, o, a⟩, -, p⟩ := whileNotPending_drains fuel _ _ _ hw
      have o := congrArg List.length o
      have a := congrArg List.length a
      refine ⟨k, by omega, Or.inr ⟨by omega, p _ rfl⟩⟩
    · rename_i s2 hw
      obtain ⟨⟨k, -, o, a⟩, -, -⟩ := whileNotPending_drains fuel _ _ _ hw
      have o := congrArg List.length o
      have a := congrArg List.length a
      split at h
      · rename_i s3 hp
        simp only [Outcome.ret.injEq, Prod.mk.injEq] at h
        obtain ⟨rfl, rfl⟩ := h
        obtain ⟨k2, -, o2, a2⟩ := produceTuple_keeps _ _ _ hp
        simp only [Bool.false_eq_true, if_false] at a2
        exact ⟨keeps_trans k k2, by omega, Or.inr ⟨by omega, Or.inl rfl⟩⟩
      · rename_i s3 hp
        obtain ⟨k2, -, o2, a2⟩ := produceTuple_keeps _ _ _ hp
        simp only [if_true] at a2
        obtain ⟨k3, o3, a3⟩ := ih _ _ _ h
        have k4 : Keeps s3 { s3 with producePending := false } := by
          simp [Keeps, isSegmentLimitSet]
        refine ⟨keeps_trans (keeps_trans (keeps_trans k k2) k4) k3, ?_, ?_⟩
        · simp only at o3; omega
        · simp only at a3
          rcases a3 with ⟨r1, r2⟩ | ⟨r1, r2⟩
          · exact Or.inl ⟨r1, by omega⟩
          · exact Or.inr ⟨by omega, r2⟩
      all_goals simp at h
    all_goals simp at h

/-! ## The segment cutoff in `transfer` -/

theorem readLimits_segmentsRemaining (s : LbmUnionExecStream E)
    (h : s.isSegmentLimitSet = true) :
    s.readLimits.segmentsRemaining = s.pDynamicParamManager s.segmentLimitParamId % UINT_WIDTH := by
  unfold readLimits
  unfold isSegmentLimitSet at h
  by_cases h1 : s.startRidParamId > 0 <;> simp [isConsumerSridSet, isSegmentLimitSet, h1, h]

theorem transfer_cutoff (m : Nat) :
    ∀ (K fuel : Nat) (t : LbmUnionExecStream E), t.isSegmentLimitSet = true →
      t.segmentsRemaining = K → K < UINT_WIDTH →
      OffersAccepted E m t.workspace t.segmentWriter → min K m + 1 ≤ fuel →
      ∃ t1, transfer fuel t = Outcome.ret (decide (m ≤ K), t1) ∧
        t1.segmentsRemaining = K - min K m ∧
        (movedSegments t1.calls).length = (movedSegments t.calls).length + min K m ∧
        (writtenSegments t1.calls).length = (writtenSegments t.calls).length + min K m := by
  induction m with
  | zero =>
    intro K fuel t hl hK hW ho hf
    obtain ⟨f, rfl⟩ : ∃ f, fuel = f + 1 := ⟨fuel - 1, by omega⟩
    simp only [OffersAccepted] at ho
    refine ⟨t.log Call.wsCanProduce, ?_, ?_⟩
    · simp [transfer, log, ho]
    · simp [log, hK, movedSegments_append, writtenSegments_append, movedSegments,
        writtenSegments]
  | succ m ih =>
    intro K fuel t hl hK hW ho hf
    obtain ⟨f, rfl⟩ : ∃ f, fuel = f + 1 := ⟨fuel - 1, by omega⟩
    obtain ⟨ho1, ho2, ho3⟩ := ho
    cases K with
    | zero =>
      have hl2 : t.segmentLimitParamId > 0 := by simpa [isSegmentLimitSet] using hl
      refine ⟨t.log Call.wsCanProduce, ?_, ?_⟩
      · simp [transfer, log, ho1, hK, isSegmentLimitSet, hl2]
      · simp [log, hK, movedSegments_append, writtenSegments_append, movedSegments,
          writtenSegments]
    | succ K =>
      have hl2 : t.segmentLimitParamId > 0 := by simpa [isSegmentLimitSet] using hl
      have hstep : (K + 1 + UINT_WIDTH - 1) % UINT_WIDTH = K := by
        have : K + 1 + UINT_WIDTH - 1 = K + UINT_WIDTH := by omega
        rw [this, Nat.add_mod_right, Nat.mod_eq_of_lt (by omega)]
      obtain ⟨t1, e1, e2, e3, e4⟩ := ih K f
        { t with
          segmentWriter := (E.swAddSegment t.segmentWriter
            (E.segGetSrid (E.wsGetSegment t.workspace)) (E.wsGetSegment t.workspace).byteSeg
            (E.wsGetSegment t.workspace).len).2,
          workspace := E.wsAdvancePastSegment t.workspace,
          segmentsRemaining := K,
          calls := t.calls ++ [Call.wsCanProduce] ++
            [Call.wsGetSegment, Call.swAddSegment (E.wsGetSegment t.workspace) true] ++
            [Call.wsAdvancePastSegment (E.wsGetSegment t.workspace)] }
        (by simpa [isSegmentLimitSet] using hl2) rfl (by omega) ho3
        (by simp only [Nat.succ_min_succ] at hf; omega)
      refine ⟨t1, ?_, ?_, ?_, ?_⟩
      · have hd : decide (m + 1 ≤ K + 1) = decide (m ≤ K) := by simp
        rw [hd, ← e1]
        have hK2 : K % UINT_WIDTH = K := Nat.mod_eq_of_lt (by omega)
        simp [transfer, log, ho1, ho2, hl, hK, isSegmentLimitSet, hl2, hstep, hK2]
      · rw [e2, Nat.succ_min_succ]; omega
      · rw [e3, Nat.succ_min_succ]
        simp [movedSegments_append, movedSegments]; omega
      · rw [e4, Nat.succ_min_succ]
        simp [writtenSegments_append, writtenSegments]; omega

/-! ## The claims on `LbmUnionExecStream::execute` and `transfer` -/

/-- C1. On a stream that is not done, with no tuple and no input segment
pending, a reader that reports end of stream and an empty workspace, a call of
`execute` with `nTuplesMax ≥ 1` returns `EXECRC_BUF_OVERFLOW`, sets `isDone`
and offers no tuple to the output accessor. From every stream `d` with `isDone`
set, every run of `execute` calls, whatever the quanta and the fuel, returns
`EXECRC_EOS` each time, leaves `isDone` set and the reader, the workspace and
the writer as they were, and calls nothing but `markEOS`. -/
theorem execute_end_of_stream_then_done_is_absorbing
    (fuel : Nat) (q : ExecStreamQuantum) (s : LbmUnionExecStream E)
    (hfuel : 1 ≤ fuel) (hq : 1 ≤ q.nTuplesMax)
    (hdone : s.isDone = false) (hprod : s.producePending = false)
    (hwrite : s.writePending = false)
    (heos : (E.readSegmentAndAdvance s.segmentReader s.inputSegment).1 = EXECRC_EOS)
    (hempty : E.wsIsEmpty s.workspace = true) :
    (∃ s1, execute fuel q s = Outcome.ret (EXECRC_BUF_OVERFLOW, s1) ∧ s1.isDone = true ∧
      offeredTuples s1.calls = offeredTuples s.calls ∧
      s1.pOutAccessor = s.pOutAccessor) ∧
    (∀ (d : LbmUnionExecStream E) (fuel2 : Nat) (qs : List ExecStreamQuantum),
      d.isDone = true →
      ∃ d1, executeAll fuel2 qs d = Outcome.ret (List.replicate qs.length EXECRC_EOS, d1) ∧
        d1.isDone = true ∧ d1.segmentReader = d.segmentReader ∧
        d1.workspace = d.workspace ∧ d1.segmentWriter = d.segmentWriter ∧
        d1.calls = d.calls ++ List.replicate qs.length Call.outMarkEOS) := by
  constructor
  · obtain ⟨s1, h1, h2, -, -, h5, h6, -, -⟩ :=
      execute_eos_empty fuel q s hfuel hq hdone hprod hwrite heos hempty
    exact ⟨s1, h1, h2, h5, h6⟩
  · intro d fuel2 qs hd
    obtain ⟨d1, h1, h2, -, -, h5, -, h7, h8, h9⟩ := executeAll_of_isDone fuel2 qs d hd
    exact ⟨d1, h1, h2, h5, h7, h8, h9⟩

/-- Witness of C1: a freshly opened stream over an exhausted reader. -/
theorem execute_end_of_stream_then_done_is_absorbing_witness :
    (∃ s1, execute 1 { nTuplesMax := 1 } (modelStream [] 0 0 (fun _ => 0)) =
        Outcome.ret (EXECRC_BUF_OVERFLOW, s1) ∧ s1.isDone = true ∧
      offeredTuples s1.calls = offeredTuples (modelStream [] 0 0 (fun _ => 0)).calls ∧
      s1.pOutAccessor = (modelStream [] 0 0 (fun _ => 0)).pOutAccessor) ∧
    (∀ (d : LbmUnionExecStream modelCollaborators) (fuel2 : Nat)
      (qs : List ExecStreamQuantum), d.isDone = true →
      ∃ d1, executeAll fuel2 qs d = Outcome.ret (List.replicate qs.length EXECRC_EOS, d1) ∧
        d1.isDone = true ∧ d1.segmentReader = d.segmentReader ∧
        d1.workspace = d.workspace ∧ d1.segmentWriter = d.segmentWriter ∧
        d1.calls = d.calls ++ List.replicate qs.length Call.outMarkEOS) :=
  execute_end_of_stream_then_done_is_absorbing 1 { nTuplesMax := 1 }
    (modelStream [] 0 0 (fun _ => 0)) (by decide) (by decide) rfl rfl rfl rfl rfl

/-- C2, evaluated on the modelled segment writer. The reader yields one
segment and then reports end of stream; the output accessor has no room. The
first `execute` offers the tuple holding that segment, is refused and returns
`EXECRC_BUF_OVERFLOW` with `producePending` still set. The second `execute`
pulls nothing from the reader and offers the output accessor the empty tuple:
`produceTuple` asks the writer again, and the writer's buffer was cleared when
the refused tuple was serialised. -/
theorem execute_retry_offers_another_tuple :
    ∃ s1 s2,
      execute 3 { nTuplesMax := 1 }
          (modelStream [some { byteNum := 0, byteSeg := [255], len := 1 }] 0 0 (fun _ => 0)) =
        Outcome.ret (EXECRC_BUF_OVERFLOW, s1) ∧
      s1.producePending = true ∧
      offeredTuples s1.calls = [[(0, [255], 1)]] ∧
      acceptedTuples s1.calls = [] ∧
      execute 3 { nTuplesMax := 1 } s1 = Outcome.ret (EXECRC_BUF_OVERFLOW, s2) ∧
      s2.producePending = true ∧
      readerPulls s2.calls = readerPulls s1.calls ∧
      offeredTuples s2.calls = [[(0, [255], 1)], []] :=
  ⟨_, _, rfl, rfl, rfl, rfl, rfl, rfl, rfl, rfl⟩

/-- C3. A call of `execute` on a stream that is not done, over a reader that
keeps its contract, offers the output accessor at most `nTuplesMax` tuples, and
it returns `EXECRC_QUANTUM_EXPIRED` exactly when the accessor accepted
`nTuplesMax` tuples during the call, one per iteration. With `nTuplesMax = 0`
the call returns `EXECRC_QUANTUM_EXPIRED` for every fuel, without pulling the
reader and without offering a tuple. -/
theorem execute_offers_at_most_quantum
    (fuel : Nat) (q : ExecStreamQuantum) (s s1 : LbmUnionExecStream E)
    (rc : ExecStreamResult) (hreader : ReaderContract E) (hdone : s.isDone = false)
    (hret : execute fuel q s = Outcome.ret (rc, s1)) :
    (offeredTuples s1.calls).length ≤ (offeredTuples s.calls).length + q.nTuplesMax ∧
    (acceptedTuples s1.calls).length ≤ (acceptedTuples s.calls).length + q.nTuplesMax ∧
    (rc = EXECRC_QUANTUM_EXPIRED ↔
      (acceptedTuples s1.calls).length = (acceptedTuples s.calls).length + q.nTuplesMax) ∧
    (∀ fuel0 : Nat, ∃ s0, execute fuel0 { nTuplesMax := 0 } s =
        Outcome.ret (EXECRC_QUANTUM_EXPIRED, s0) ∧
      readerPulls s0.calls = readerPulls s.calls ∧
      offeredTuples s0.calls = offeredTuples s.calls ∧
      s0.segmentReader = s.segmentReader ∧ s0.pOutAccessor = s.pOutAccessor) := by
  obtain ⟨-, -, -, l4, -, -, -, l8, -, -⟩ := readLimits_frame s
  obtain ⟨o1, o2, o3, -⟩ := readLimits_observed s
  have hloop : forLoop fuel q.nTuplesMax s.readLimits = Outcome.ret (rc, s1) := by
    simpa [execute, hdone] using hret
  obtain ⟨-, c1, c2⟩ := forLoop_counts fuel q.nTuplesMax _ _ _ hloop
  rw [o1] at c1
  rw [o2] at c2
  refine ⟨c1, ?_, ?_, ?_⟩
  · rcases c2 with ⟨-, c⟩ | ⟨c, -⟩ <;> omega
  · constructor
    · intro hrc
      rcases c2 with ⟨-, c⟩ | ⟨-, c⟩
      · exact c
      · subst hrc
        rcases c with c | ⟨⟨r, seg, c⟩, c3, c4⟩
        · cases c
        · rcases hreader r seg with h | h | h <;> rw [c] at h <;> cases h
    · intro hacc
      rcases c2 with ⟨c, -⟩ | ⟨c, -⟩
      · exact c
      · omega
  · intro fuel0
    exact ⟨s.readLimits, by simp [execute, hdone, forLoop], o3, o1, l4, l8⟩

/-- Witness of C3: one segment, then end of stream, a quantum of one tuple and
an output accessor with room. -/
theorem execute_offers_at_most_quantum_witness :
    ∃ s1, execute 3 { nTuplesMax := 1 }
        (modelStream [some { byteNum := 0, byteSeg := [255], len := 1 }] 5 0 (fun _ => 0)) =
        Outcome.ret (EXECRC_QUANTUM_EXPIRED, s1) ∧
      (offeredTuples s1.calls).length ≤ 0 + 1 ∧
      (acceptedTuples s1.calls).length ≤ 0 + 1 ∧
      (EXECRC_QUANTUM_EXPIRED = EXECRC_QUANTUM_EXPIRED ↔
        (acceptedTuples s1.calls).length = 0 + 1) :=
  ⟨_, rfl,
    (execute_offers_at_most_quantum 3 { nTuplesMax := 1 }
      (modelStream [some { byteNum := 0, byteSeg := [255], len := 1 }] 5 0 (fun _ => 0)) _
      EXECRC_QUANTUM_EXPIRED modelCollaborators_readerContract rfl rfl).1,
    (execute_offers_at_most_quantum 3 { nTuplesMax := 1 }
      (modelStream [some { byteNum := 0, byteSeg := [255], len := 1 }] 5 0 (fun _ => 0)) _
      EXECRC_QUANTUM_EXPIRED modelCollaborators_readerContract rfl rfl).2.1,
    (execute_offers_at_most_quantum 3 { nTuplesMax := 1 }
      (modelStream [some { byteNum := 0, byteSeg := [255], len := 1 }] 5 0 (fun _ => 0)) _
      EXECRC_QUANTUM_EXPIRED modelCollaborators_readerContract rfl rfl).2.2.1⟩

/-- C4. With the segment limit parameter set, a `transfer` entered with
`segmentsRemaining = K`, on a workspace that offers `m` drainable segments in
succession to a writer that accepts each, moves `min K m` segments, leaves
`segmentsRemaining = K - min K m` and returns `false` exactly when `m > K`.
Every `execute` call that returns moves, over all its `transfer` calls, as many
segments as `segmentsRemaining` went down from the value `K0` it read from the
parameter at its start, hence at most `K0`; and whatever `segmentsRemaining`
was left by an earlier call, the parameter reads at the start of `execute` set
it to the parameter's value again. -/
theorem transfer_stops_at_segment_cutoff
    (m K fuel : Nat) (t : LbmUnionExecStream E)
    (hlimit : t.isSegmentLimitSet = true) (hK : t.segmentsRemaining = K)
    (hrange : K < UINT_WIDTH)
    (hoffers : OffersAccepted E m t.workspace t.segmentWriter)
    (hfuel : min K m + 1 ≤ fuel) :
    (∃ t1, transfer fuel t = Outcome.ret (decide (m ≤ K), t1) ∧
      t1.segmentsRemaining = K - min K m ∧
      (movedSegments t1.calls).length = (movedSegments t.calls).length + min K m ∧
      (writtenSegments t1.calls).length = (writtenSegments t.calls).length + min K m) ∧
    (∀ (fuel2 : Nat) (q : ExecStreamQuantum) (s s1 : LbmUnionExecStream E)
      (rc : ExecStreamResult),
      s.isSegmentLimitSet = true → s.isDone = false →
      execute fuel2 q s = Outcome.ret (rc, s1) →
      s.readLimits.segmentsRemaining =
        s.pDynamicParamManager s.segmentLimitParamId % UINT_WIDTH ∧
      (movedSegments s1.calls).length + s1.segmentsRemaining =
        (movedSegments s.calls).length +
          s.pDynamicParamManager s.segmentLimitParamId % UINT_WIDTH ∧
      (movedSegments s1.calls).length ≤
        (movedSegments s.calls).length +
          s.pDynamicParamManager s.segmentLimitParamId % UINT_WIDTH ∧
      s1.isSegmentLimitSet = true ∧
      s1.pDynamicParamManager s1.segmentLimitParamId =
        s.pDynamicParamManager s.segmentLimitParamId) := by
  refine ⟨transfer_cutoff m K fuel t hlimit hK hrange hoffers hfuel, ?_⟩
  intro fuel2 q s s1 rc hl hdone hret
  have hrem := readLimits_segmentsRemaining s hl
  obtain ⟨-, -, -, -, -, -, -, -, l9, l10⟩ := readLimits_frame s
  obtain ⟨-, -, -, o4⟩ := readLimits_observed s
  have hloop : forLoop fuel2 q.nTuplesMax s.readLimits = Outcome.ret (rc, s1) := by
    simpa [execute, hdone] using hret
  obtain ⟨⟨k1, -, k3, k4, -⟩, -, -⟩ := forLoop_counts fuel2 q.nTuplesMax _ _ _ hloop
  have hl2 : s.readLimits.isSegmentLimitSet = true := by
    simpa [isSegmentLimitSet, l9] using hl
  have hlt : s.readLimits.segmentsRemaining < UINT_WIDTH := by
    rw [hrem]; exact Nat.mod_lt _ (by decide)
  obtain ⟨-, k5⟩ := k4 hl2 hlt
  rw [o4, hrem] at k5
  refine ⟨hrem, k5, by omega, ?_, ?_⟩
  · simpa [isSegmentLimitSet, k1, l9] using hl
  · rw [k1, k3, l9, l10]

/-- Witness of C4: a cutoff of 1, a workspace holding two drainable segments,
and a writer with room for both. -/
theorem transfer_stops_at_segment_cutoff_witness :
    ∃ t1, transfer 2
        (modelStreamHolding [{ byteNum := 0, byteSeg := [1], len := 1 },
          { byteNum := 1, byteSeg := [2], len := 1 }] 1 7 (fun _ => 1)) =
        Outcome.ret (decide (2 ≤ 1), t1) ∧
      t1.segmentsRemaining = 1 - min 1 2 ∧
      (movedSegments t1.calls).length = 0 + min 1 2 ∧
      (writtenSegments t1.calls).length = 0 + min 1 2 :=
  (transfer_stops_at_segment_cutoff 2 1 2
    (modelStreamHolding [{ byteNum := 0, byteSeg := [1], len := 1 },
      { byteNum := 1, byteSeg := [2], len := 1 }] 1 7 (fun _ => 1))
    rfl rfl (by decide) ⟨rfl, rfl, rfl, rfl, rfl⟩ (by decide)).1

end LbmUnionExecStream

namespace LbmSearchExecStream

/-! ## `LbmSearchExecStream`: lemmas -/

theorem copyKeys_getElem (input : List TupleDatum) (n : Nat) :
    ∀ (i : Nat) (k : List TupleDatum), i + n ≤ input.length → i + n ≤ k.length →
      ∃ k1, copyKeys input n i k = Outcome.ret k1 ∧ k1.length = k.length ∧
        ∀ j, k1[j]? = if i ≤ j ∧ j < i + n then input[j]? else k[j]? := by
  induction n with
  | zero =>
    intro i k _ _
    refine ⟨k, rfl, rfl, ?_⟩
    intro j
    rw [if_neg (by omega)]
  | succ n ih =>
    intro i k hi hk
    have hlt : i < input.length := by omega
    have hik : i < k.length := by omega
    obtain ⟨k1, e1, e2, e3⟩ := ih (i + 1) (k.set i input[i])
      (by omega) (by simp; omega)
    refine ⟨k1, ?_, by simpa using e2, ?_⟩
    · have hg : input.get? i = some input[i] := by simp [List.getElem?_eq_getElem hlt]
      simp only [copyKeys, hg, hik, if_true]
      exact e1
    · intro j
      rw [e3 j]
      by_cases h1 : i + 1 ≤ j ∧ j < i + 1 + n
      · rw [if_pos h1, if_pos (by omega)]
      · rw [if_neg h1]
        by_cases h3 : j = i
        · subst h3
          rw [if_pos (by omega)]
          simp [List.getElem?_eq_getElem hlt, hik]
        · rw [if_neg (by omega), List.getElem?_set_ne (Ne.symm h3)]

theorem copyKeys_all (input rest : List TupleDatum) (k : List TupleDatum)
    (hk : k.length = input.length) :
    copyKeys input input.length 0 (k ++ rest) = Outcome.ret (input ++ rest) := by
  obtain ⟨k1, e1, e2, e3⟩ := copyKeys_getElem input input.length 0 (k ++ rest)
    (by omega) (by simp; omega)
  rw [e1]
  congr 1
  apply List.ext_getElem?
  intro j
  rw [e3 j]
  by_cases hj : j < input.length
  · rw [if_pos (by omega), List.getElem?_append_left hj]
  · rw [if_neg (by omega), List.getElem?_append_right (by omega),
      List.getElem?_append_right (by omega), hk]

theorem prepareRidSearchKey_append (desc : List TupleAttributeDescriptor)
    (a : TupleAttributeDescriptor) (s : LbmSearchExecStream)
    (hlen : desc.length < RID_WIDTH) :
    prepareRidSearchKey (desc ++ [a]) s = Outcome.ret
      { s with ridSearchKeyData := computeTupleData desc ++
                 [{ pData := PConstBuffer.startRidMember, cbData := a.cbStorage }],
               leastUpper := false } := by
  have hidx : ((computeTupleData (desc ++ [a])).length + RID_WIDTH - 1) % RID_WIDTH
      = desc.length := by
    simp only [computeTupleData, List.length_map, List.length_append, List.length_singleton]
    have : desc.length + 1 + RID_WIDTH - 1 = desc.length + RID_WIDTH := by omega
    rw [this, Nat.add_mod_right, Nat.mod_eq_of_lt (by omega)]
  unfold prepareRidSearchKey
  simp only [hidx]
  simp [setPData, computeTupleData]

theorem prepareRidSearchKey_singleton (a : TupleAttributeDescriptor)
    (s : LbmSearchExecStream) :
    prepareRidSearchKey [a] s = Outcome.ret
      { s with ridSearchKeyData :=
                 [{ pData := PConstBuffer.startRidMember, cbData := a.cbStorage }],
               leastUpper := false } :=
  prepareRidSearchKey_append [] a s (by decide)

theorem prepare_spec (params : LbmSearchExecStreamParams) (b s : LbmSearchExecStream)
    (h : prepare params b = Outcome.ret s) :
    s.rowLimitParamId = params.rowLimitParamId ∧
    s.ignoreRowLimit = decide (params.rowLimitParamId = 0) ∧
    (params.rowLimitParamId ≠ 0 → s.rowLimitDatum.pData = PConstBuffer.rowLimitMember) ∧
    s.startRidParamId = params.startRidParamId ∧
    s.ridInKey = decide (params.startRidParamId > 0) ∧
    s.inputKeyDesc = b.inputKeyDesc ∧ s.keyProjectionSize = b.keyProjectionSize ∧
    s.pDynamicParamManager = b.pDynamicParamManager ∧ s.paramReads = b.paramReads ∧
    (params.startRidParamId = 0 → s.leastUpper = b.leastUpper) ∧
    (params.startRidParamId > 0 →
      s.leastUpper = false ∧ s.startRidDatum.pData = PConstBuffer.startRidMember ∧
      ((s.ridKeySetup = false ∧
          b.inputKeyDesc.length = (b.keyProjectionSize + RID_WIDTH - 1) % RID_WIDTH ∧
          s.ridSearchKeyData = computeTupleData b.inputKeyDesc ++
            [{ pData := PConstBuffer.startRidMember, cbData := 8 }]) ∨
        (s.ridKeySetup = true ∧ b.inputKeyDesc.length = 1 ∧ b.keyProjectionSize = 1 ∧
          ∃ cb, s.ridSearchKeyData = [{ pData := PConstBuffer.startRidMember, cbData := cb }]))) := by
  by_cases hs : params.startRidParamId > 0
  · have hs0 : params.startRidParamId ≠ 0 := by omega
    by_cases hl1 : b.inputKeyDesc.length = (b.keyProjectionSize + RID_WIDTH - 1) % RID_WIDTH
    · have hlt : b.inputKeyDesc.length < RID_WIDTH := by
        rw [hl1]; exact Nat.mod_lt _ (by decide)
      by_cases hr : params.rowLimitParamId = 0
      · simp only [prepare, hr, hs, hl1, decide_True, Bool.not_true, Bool.false_eq_true,
          if_false, if_true] at h
        rw [prepareRidSearchKey_append _ _ _ hlt] at h
        simp only [Outcome.ret.injEq] at h
        subst h
        simp [hr, hs, hs0, hl1, recordNumAttr]
      · simp only [prepare, hr, hs, hl1, decide_True, decide_False, Bool.not_false,
          if_true] at h
        rw [prepareRidSearchKey_append _ _ _ hlt] at h
        simp only [Outcome.ret.injEq] at h
        subst h
        simp [hr, hs, hs0, hl1, recordNumAttr]
    · by_cases hl2 : b.inputKeyDesc.length = 1 ∧ b.inputKeyDesc.length = b.keyProjectionSize
      · obtain ⟨a, ha⟩ : ∃ a, b.inputKeyDesc = [a] := by
          match hd : b.inputKeyDesc, hl2.1 with
          | [a], _ => exact ⟨a, rfl⟩
        have hkp : b.keyProjectionSize = 1 := by omega
        by_cases hr : params.rowLimitParamId = 0
        · simp only [prepare, hr, hs, decide_True, Bool.not_true,
            Bool.false_eq_true, if_false, if_true] at h
          rw [if_neg hl1, if_pos hl2, ha, prepareRidSearchKey_singleton] at h
          simp only [Outcome.ret.injEq] at h
          subst h
          refine ⟨by simp [hr], by simp [hr], by simp [hr], rfl, by simp [hs], ha.symm, rfl,
            rfl, rfl, fun h0 => absurd h0 hs0,
            fun _ => ⟨rfl, rfl, Or.inr ⟨rfl, by rw [ha]; rfl, hkp, _, rfl⟩⟩⟩
        · simp only [prepare, hr, hs, decide_True, decide_False, Bool.not_false,
            if_false, if_true] at h
          rw [if_neg hl1, if_pos hl2, ha, prepareRidSearchKey_singleton] at h
          simp only [Outcome.ret.injEq] at h
          subst h
          refine ⟨by simp [hr], by simp [hr], by simp [hr], rfl, by simp [hs], ha.symm, rfl,
            rfl, rfl, fun h0 => absurd h0 hs0,
            fun _ => ⟨rfl, rfl, Or.inr ⟨rfl, by rw [ha]; rfl, hkp, _, rfl⟩⟩⟩
      · by_cases hr : params.rowLimitParamId = 0 <;>
          simp [prepare, hr, hs, hl1, hl2] at h
  · have hs0 : params.startRidParamId = 0 := by omega
    by_cases hr : params.rowLimitParamId = 0 <;>
      simp only [prepare, hs, hr, decide_True, decide_False, Bool.not_false, Bool.not_true,
        Bool.false_eq_true, if_false, if_true, Outcome.ret.injEq] at h <;>
      subst h <;> simp [hr, hs0]

theorem setAdditionalKeys_prepared (params : LbmSearchExecStreamParams)
    (b s0 : LbmSearchExecStream) (key : List TupleDatum) (lower upper : SearchEndpoint)
    (pm : Nat → Nat) (hprep : prepare params b = Outcome.ret s0)
    (hkey : key.length = b.inputKeyDesc.length) :
    setAdditionalKeys (bindSearch key lower upper pm s0) =
      if params.startRidParamId = 0 then
        Outcome.ret { bindSearch key lower upper pm s0 with
          pSearchKey := SearchKeyRef.inputKeyData }
      else if lower = SEARCH_CLOSED_LOWER ∧
          upper = (if s0.ridKeySetup then SEARCH_UNBOUNDED_UPPER else SEARCH_CLOSED_UPPER) then
        Outcome.ret { bindSearch key lower upper pm s0 with
          ridSearchKeyData :=
            (if s0.ridKeySetup then s0.ridSearchKeyData
             else key ++ [{ pData := PConstBuffer.startRidMember, cbData := 8 }]),
          startRid := pm params.startRidParamId % RID_WIDTH,
          paramReads := s0.paramReads ++ [params.startRidParamId],
          pSearchKey := SearchKeyRef.ridSearchKeyData }
      else Outcome.assertFailed := by
  obtain ⟨-, -, -, p4, p5, -, -, -, -, -, p11⟩ := prepare_spec params b s0 hprep
  by_cases hs : params.startRidParamId = 0
  · have hrid : s0.ridInKey = false := by simp [p5, hs]
    simp [setAdditionalKeys, bindSearch, hrid, hs]
  · have hrid : s0.ridInKey = true := by simp [p5]; omega
    obtain ⟨-, hd, hshape⟩ := p11 (by omega)
    rw [if_neg hs]
    by_cases hl : lower = SEARCH_CLOSED_LOWER
    · rcases hshape with ⟨hk, -, hdata⟩ | ⟨hk, -, -, -⟩
      · by_cases hu : upper = SEARCH_CLOSED_UPPER
        · have hcopy := copyKeys_all key
            [{ pData := PConstBuffer.startRidMember, cbData := 8 }]
            (computeTupleData b.inputKeyDesc) (by simp [computeTupleData, hkey])
          simp [setAdditionalKeys, bindSearch, hrid, hl, hk, hu, hdata, hcopy, readParam, hd,
            p4]
        · simp [setAdditionalKeys, bindSearch, hrid, hl, hk, hu]
      · by_cases hu : upper = SEARCH_UNBOUNDED_UPPER
        · simp [setAdditionalKeys, bindSearch, hrid, hl, hk, hu, readParam, hd, p4]
        · simp [setAdditionalKeys, bindSearch, hrid, hl, hk, hu]
    · simp [setAdditionalKeys, bindSearch, hrid, hl]

/-! ## The claims on `LbmSearchExecStream` -/

theorem reachedTupleLimit_first (s : LbmSearchExecStream) (n : Nat)
    (hi : s.ignoreRowLimit = false) (hd : s.rowLimitDatum.pData = PConstBuffer.rowLimitMember)
    (hn : n % UINT_WIDTH = 0) :
    reachedTupleLimit n s = Outcome.ret (false,
      { s with rowLimit := s.pDynamicParamManager s.rowLimitParamId % RID_WIDTH,
               paramReads := s.paramReads ++ [s.rowLimitParamId] }) := by
  simp [reachedTupleLimit, hi, readParam, hd, hn]

theorem reachedTupleLimit_later (s : LbmSearchExecStream) (n : Nat)
    (hi : s.ignoreRowLimit = false) (hn : 1 ≤ n % UINT_WIDTH) :
    reachedTupleLimit n s =
      Outcome.ret (decide (1 ≤ s.rowLimit ∧ s.rowLimit ≤ n % UINT_WIDTH), s) := by
  have hn0 : n % UINT_WIDTH ≠ 0 := by omega
  by_cases h0 : s.rowLimit = 0
  · simp [reachedTupleLimit, hi, hn0, h0]
  · have h1 : 1 ≤ s.rowLimit := by omega
    simp [reachedTupleLimit, hi, hn0, h0, h1]

/-- C5, as the code has it. After `prepare`, with a row-limit parameter
configured (`rowLimitParamId ≠ 0`) whose slot holds the 64-bit value `L`: the
call with `nTuples = 0` reads `L` and answers `false`; from then on the call
with a `uint` count `n ≥ 1` answers `true` exactly when `1 ≤ L` and `L ≤ n`,
and leaves the stream as it is. So with `L = 0` the answer is `false` for
every `n`; with `1 ≤ L < 2 ^ 32` a scan that asks for `n = 0, 1, 2, ...` gets
`true` for the first time at `n = L`; and with `L ≥ 2 ^ 32`, a limit no `uint`
count reaches, the answer is `false` for every count. With no row-limit
parameter (`rowLimitParamId = 0`) the answer is `false` for every `n`. -/
theorem reachedTupleLimit_cuts_after_row_limit
    (params : LbmSearchExecStreamParams) (b s : LbmSearchExecStream) (L : Nat)
    (hprep : prepare params b = Outcome.ret s) (hL : L < RID_WIDTH)
    (hval : s.pDynamicParamManager params.rowLimitParamId = L) :
    (params.rowLimitParamId ≠ 0 →
      ∃ s1, reachedTupleLimit 0 s = Outcome.ret (false, s1) ∧ s1.rowLimit = L ∧
        (∀ n, 1 ≤ n → n < UINT_WIDTH →
          reachedTupleLimit n s1 = Outcome.ret (decide (1 ≤ L ∧ L ≤ n), s1)) ∧
        (L = 0 → ∀ n, 1 ≤ n → n < UINT_WIDTH →
          reachedTupleLimit n s1 = Outcome.ret (false, s1)) ∧
        (1 ≤ L → L < UINT_WIDTH → reachedTupleLimit L s1 = Outcome.ret (true, s1) ∧
          ∀ n, 1 ≤ n → n < L → reachedTupleLimit n s1 = Outcome.ret (false, s1)) ∧
        (UINT_WIDTH ≤ L → ∀ n, ∃ s2, reachedTupleLimit n s1 = Outcome.ret (false, s2))) ∧
    (params.rowLimitParamId = 0 → ∀ n, reachedTupleLimit n s = Outcome.ret (false, s)) := by
  obtain ⟨p1, p2, p3, -⟩ := prepare_spec params b s hprep
  constructor
  · intro hr
    have hi : s.ignoreRowLimit = false := by simp [p2, hr]
    have hlater : ∀ n, 1 ≤ n → n < UINT_WIDTH →
        reachedTupleLimit n
          { s with rowLimit := s.pDynamicParamManager s.rowLimitParamId % RID_WIDTH,
                   paramReads := s.paramReads ++ [s.rowLimitParamId] } =
        Outcome.ret (decide (1 ≤ L ∧ L ≤ n),
          { s with rowLimit := s.pDynamicParamManager s.rowLimitParamId % RID_WIDTH,
                   paramReads := s.paramReads ++ [s.rowLimitParamId] }) := by
      intro n hn hu
      have hstep := reachedTupleLimit_later
        { s with rowLimit := s.pDynamicParamManager s.rowLimitParamId % RID_WIDTH,
                 paramReads := s.paramReads ++ [s.rowLimitParamId] } n hi
        (by rw [Nat.mod_eq_of_lt hu]; exact hn)
      rw [hstep, Nat.mod_eq_of_lt hu]
      simp [p1, hval, Nat.mod_eq_of_lt hL]
    refine ⟨_, reachedTupleLimit_first s 0 hi (p3 hr) (Nat.zero_mod _), ?_, hlater, ?_, ?_, ?_⟩
    · simp [p1, hval, Nat.mod_eq_of_lt hL]
    · intro h0 n hn hu
      rw [hlater n hn hu]
      simp [h0]
    · intro h1 hu
      refine ⟨?_, ?_⟩
      · rw [hlater L h1 hu]; simp [h1]
      · intro n hn hlt
        rw [hlater n hn (by omega)]
        have : ¬ (1 ≤ L ∧ L ≤ n) := by omega
        simp [this]
    · intro hwide n
      have hmod : n % UINT_WIDTH < UINT_WIDTH := Nat.mod_lt _ (by decide)
      by_cases hz : n % UINT_WIDTH = 0
      · refine ⟨_, reachedTupleLimit_first _ n hi (p3 hr) hz⟩
      · have hstep := reachedTupleLimit_later
          { s with rowLimit := s.pDynamicParamManager s.rowLimitParamId % RID_WIDTH,
                   paramReads := s.paramReads ++ [s.rowLimitParamId] } n hi (by omega)
        refine ⟨{ s with rowLimit := s.pDynamicParamManager s.rowLimitParamId % RID_WIDTH,
                         paramReads := s.paramReads ++ [s.rowLimitParamId] }, ?_⟩
        rw [hstep]
        have hfalse : ¬ (1 ≤ L ∧ L ≤ n % UINT_WIDTH) := by omega
        simp [p1, hval, Nat.mod_eq_of_lt hL, hfalse]
  · intro hr n
    have hi : s.ignoreRowLimit = true := by simp [p2, hr]
    simp [reachedTupleLimit, hi]

/-- Witness of C5: a row limit of 2. -/
theorem reachedTupleLimit_cuts_after_row_limit_witness :
    ∃ s, prepare { rowLimitParamId := 3, startRidParamId := 0 }
        (modelSearchStream [recordNumAttr] 2 (fun _ => 2)) = Outcome.ret s ∧
      ∃ s1, reachedTupleLimit 0 s = Outcome.ret (false, s1) ∧ s1.rowLimit = 2 ∧
        reachedTupleLimit 1 s1 = Outcome.ret (false, s1) ∧
        reachedTupleLimit 2 s1 = Outcome.ret (true, s1) :=
  ⟨_, rfl,
    match (reachedTupleLimit_cuts_after_row_limit { rowLimitParamId := 3, startRidParamId := 0 }
      (modelSearchStream [recordNumAttr] 2 (fun _ => 2)) _ 2 rfl (by decide) rfl).1
      (by decide) with
    | ⟨s1, h1, h2, _, _, h5, _⟩ => ⟨s1, h1, h2,
        ((h5 (by decide) (by decide)).2 1 (by decide) (by decide)),
        (h5 (by decide) (by decide)).1⟩⟩

/-- C5 as stated fails: the claim has the scan cut off at `n = L` for every
`L ≥ 1`. With the row limit `L = 2 ^ 32` the first call reads `L`, and after
it every call answers `false`, whatever the count: the largest count a `uint`
holds, `2 ^ 32 - 1`, is below `L`, and a count of `2 ^ 32 = L` rows reaches the
function as `nTuples = 0`, which reads the parameter again and answers
`false`. The scan is not cut off after `L` rows. -/
theorem reachedTupleLimit_wide_limit_counterexample :
    ∃ s s1, prepare { rowLimitParamId := 3, startRidParamId := 0 }
        (modelSearchStream [recordNumAttr] 2 (fun _ => 4294967296)) = Outcome.ret s ∧
      reachedTupleLimit 0 s = Outcome.ret (false, s1) ∧ s1.rowLimit = 4294967296 ∧
      (∀ n, ∃ s2, reachedTupleLimit n s1 = Outcome.ret (false, s2)) ∧
      reachedTupleLimit 4294967295 s1 = Outcome.ret (false, s1) ∧
      ∃ s2, reachedTupleLimit 4294967296 s1 = Outcome.ret (false, s2) ∧
        s1.paramReads = [3] ∧ s2.paramReads = [3, 3] := by
  refine ⟨_, _, rfl, rfl, rfl, ?_, rfl, _, rfl, rfl, rfl⟩
  intro n
  have hW : UINT_WIDTH = 4294967296 := by decide
  have hmod : n % UINT_WIDTH < UINT_WIDTH := Nat.mod_lt _ (by decide)
  by_cases hz : n % UINT_WIDTH = 0
  · exact ⟨_, reachedTupleLimit_first _ n rfl rfl hz⟩
  · have hfalse : ¬ ((1 : Nat) ≤ 4294967296 ∧ 4294967296 ≤ n % UINT_WIDTH) := by omega
    refine ⟨?_, (reachedTupleLimit_later _ n rfl (by omega)).trans ?_⟩
    swap
    exact congrArg (fun b => Outcome.ret (b, _)) (decide_eq_false hfalse)

/-- C8. On a stream that `prepare` set up and to which an input key of the
prepared shape and two bound directives were bound, `setAdditionalKeys` either
fails its assertion or returns, and it fails exactly when `ridInKey` holds and
the directives are not `SEARCH_CLOSED_LOWER` with, for `ridKeySetup` false,
`SEARCH_CLOSED_UPPER` and, for `ridKeySetup` true, `SEARCH_UNBOUNDED_UPPER`.
Spelled out: without `ridInKey` it returns for every pair of directives; with
`ridInKey` and `ridKeySetup` false it returns iff the pair is closed-lower and
closed-upper; with `ridKeySetup` true iff it is closed-lower and
unbounded-upper. -/
theorem setAdditionalKeys_fails_iff_bad_directives
    (params : LbmSearchExecStreamParams) (b s0 : LbmSearchExecStream)
    (key : List TupleDatum) (lower upper : SearchEndpoint) (pm : Nat → Nat)
    (hprep : prepare params b = Outcome.ret s0)
    (hkey : key.length = b.inputKeyDesc.length) :
    (setAdditionalKeys (bindSearch key lower upper pm s0) = Outcome.assertFailed ∨
      ∃ s1, setAdditionalKeys (bindSearch key lower upper pm s0) = Outcome.ret s1) ∧
    (setAdditionalKeys (bindSearch key lower upper pm s0) = Outcome.assertFailed ↔
      s0.ridInKey = true ∧
        ¬ (lower = SEARCH_CLOSED_LOWER ∧
          upper = (if s0.ridKeySetup then SEARCH_UNBOUNDED_UPPER else SEARCH_CLOSED_UPPER))) ∧
    (s0.ridInKey = false →
      ∃ s1, setAdditionalKeys (bindSearch key lower upper pm s0) = Outcome.ret s1) ∧
    (s0.ridInKey = true → s0.ridKeySetup = false →
      ((∃ s1, setAdditionalKeys (bindSearch key lower upper pm s0) = Outcome.ret s1) ↔
        lower = SEARCH_CLOSED_LOWER ∧ upper = SEARCH_CLOSED_UPPER)) ∧
    (s0.ridInKey = true → s0.ridKeySetup = true →
      ((∃ s1, setAdditionalKeys (bindSearch key lower upper pm s0) = Outcome.ret s1) ↔
        lower = SEARCH_CLOSED_LOWER ∧ upper = SEARCH_UNBOUNDED_UPPER)) := by
  have heval := setAdditionalKeys_prepared params b s0 key lower upper pm hprep hkey
  obtain ⟨-, -, -, -, p5, -⟩ := prepare_spec params b s0 hprep
  by_cases hs : params.startRidParamId = 0
  · have hrid : s0.ridInKey = false := by simp [p5, hs]
    rw [if_pos hs] at heval
    simp [heval, hrid]
  · have hrid : s0.ridInKey = true := by simp [p5]; omega
    rw [if_neg hs] at heval
    by_cases hshape : lower = SEARCH_CLOSED_LOWER ∧
        upper = (if s0.ridKeySetup then SEARCH_UNBOUNDED_UPPER else SEARCH_CLOSED_UPPER)
    · rw [if_pos hshape] at heval
      rw [heval]
      refine ⟨Or.inr ⟨_, rfl⟩, by simp [hshape], by simp [hrid], ?_, ?_⟩
      · intro _ hk
        simp only [hk, Bool.false_eq_true, if_false] at hshape
        simp [hshape]
      · intro _ hk
        simp only [hk, if_true] at hshape
        simp [hshape]
    · rw [if_neg hshape] at heval
      rw [heval]
      refine ⟨Or.inl rfl, by simp [hrid, hshape], by simp [hrid], ?_, ?_⟩
      · intro _ hk
        simp only [hk, Bool.false_eq_true, if_false] at hshape
        simp [hshape]
      · intro _ hk
        simp only [hk, if_true] at hshape
        simp [hshape]

/-- Witness of C8: a start-Rid parameter, a one-column key on a two-column
tree, and an open lower bound. -/
theorem setAdditionalKeys_fails_iff_bad_directives_witness :
    ∃ s0, prepare { rowLimitParamId := 0, startRidParamId := 5 }
        (modelSearchStream [recordNumAttr] 2 (fun _ => 40)) = Outcome.ret s0 ∧
      setAdditionalKeys (bindSearch [{ pData := PConstBuffer.external 7, cbData := 8 }]
        SEARCH_OPEN_LOWER SEARCH_CLOSED_UPPER (fun _ => 40) s0) = Outcome.assertFailed ∧
      ∃ s1, setAdditionalKeys (bindSearch [{ pData := PConstBuffer.external 7, cbData := 8 }]
        SEARCH_CLOSED_LOWER SEARCH_CLOSED_UPPER (fun _ => 40) s0) = Outcome.ret s1 :=
  ⟨_, rfl,
    (setAdditionalKeys_fails_iff_bad_directives
      { rowLimitParamId := 0, startRidParamId := 5 }
      (modelSearchStream [recordNumAttr] 2 (fun _ => 40)) _
      [{ pData := PConstBuffer.external 7, cbData := 8 }]
      SEARCH_OPEN_LOWER SEARCH_CLOSED_UPPER (fun _ => 40) rfl rfl).2.1.2
      ⟨rfl, by decide⟩,
    ((setAdditionalKeys_fails_iff_bad_directives
      { rowLimitParamId := 0, startRidParamId := 5 }
      (modelSearchStream [recordNumAttr] 2 (fun _ => 40)) _
      [{ pData := PConstBuffer.external 7, cbData := 8 }]
      SEARCH_CLOSED_LOWER SEARCH_CLOSED_UPPER (fun _ => 40) rfl rfl).2.2.2.1 rfl rfl).2
      ⟨rfl, rfl⟩⟩

/-- C9. When `setAdditionalKeys` returns: with no start-Rid parameter the
search key is the input key and no parameter is read. With one, and the Rid
not part of the supplied key, the search key has one component more than the
input key (as many as the tree's key projection, for a projection size that
is a positive `size_t`), its first components are the input key's in order,
and its last one points at `startRid`, which holds the value read from the
parameter during this call. With the Rid already part of the key, the search
key is the one component holding that value. In both cases the start-Rid
parameter is read once by the call. -/
theorem setAdditionalKeys_search_key
    (params : LbmSearchExecStreamParams) (b s0 s1 : LbmSearchExecStream)
    (key : List TupleDatum) (lower upper : SearchEndpoint) (pm : Nat → Nat)
    (hprep : prepare params b = Outcome.ret s0)
    (hkey : key.length = b.inputKeyDesc.length)
    (hret : setAdditionalKeys (bindSearch key lower upper pm s0) = Outcome.ret s1) :
    (params.startRidParamId = 0 →
      s1.searchKey = key ∧ s1.paramReads = s0.paramReads) ∧
    (params.startRidParamId > 0 → s0.ridKeySetup = false →
      s1.searchKey.length = key.length + 1 ∧
      (0 < b.keyProjectionSize → b.keyProjectionSize < RID_WIDTH →
        s1.searchKey.length = b.keyProjectionSize) ∧
      s1.searchKey.take key.length = key ∧
      s1.searchKey.drop key.length =
        [{ pData := PConstBuffer.startRidMember, cbData := 8 }] ∧
      s1.datumValue { pData := PConstBuffer.startRidMember, cbData := 8 } =
        some (pm params.startRidParamId % RID_WIDTH) ∧
      s1.paramReads = s0.paramReads ++ [params.startRidParamId]) ∧
    (params.startRidParamId > 0 → s0.ridKeySetup = true →
      s1.searchKeyValues = [some (pm params.startRidParamId % RID_WIDTH)] ∧
      s1.paramReads = s0.paramReads ++ [params.startRidParamId]) := by
  have heval := setAdditionalKeys_prepared params b s0 key lower upper pm hprep hkey
  obtain ⟨-, -, -, -, -, -, -, -, -, -, p11⟩ := prepare_spec params b s0 hprep
  rw [hret] at heval
  refine ⟨?_, ?_, ?_⟩
  · intro hs
    rw [if_pos hs] at heval
    simp only [Outcome.ret.injEq] at heval
    subst heval
    simp [searchKey, bindSearch]
  · intro hs hk
    rw [if_neg (by omega)] at heval
    simp only [hk, Bool.false_eq_true, if_false] at heval
    split at heval
    · simp only [Outcome.ret.injEq] at heval
      subst heval
      obtain ⟨-, -, hshape⟩ := p11 hs
      rcases hshape with ⟨-, hlen, -⟩ | ⟨hk2, -⟩
      · refine ⟨by simp [searchKey, bindSearch, hk], ?_, by simp [searchKey, bindSearch, hk],
          by simp [searchKey, bindSearch, hk], by simp [datumValue, bindSearch],
          by simp [bindSearch]⟩
        intro h1 h2
        have : (b.keyProjectionSize + RID_WIDTH - 1) % RID_WIDTH = b.keyProjectionSize - 1 := by
          have : b.keyProjectionSize + RID_WIDTH - 1 = b.keyProjectionSize - 1 + RID_WIDTH := by
            omega
          rw [this, Nat.add_mod_right, Nat.mod_eq_of_lt (by omega)]
        simp [searchKey, bindSearch, hk, hkey, hlen, this]
        omega
      · rw [hk] at hk2; cases hk2
    · cases heval
  · intro hs hk
    rw [if_neg (by omega)] at heval
    simp only [hk, if_true] at heval
    split at heval
    · simp only [Outcome.ret.injEq] at heval
      subst heval
      obtain ⟨-, -, hshape⟩ := p11 hs
      rcases hshape with ⟨hk2, -⟩ | ⟨-, -, -, cb, hdata⟩
      · rw [hk] at hk2; cases hk2
      · simp [searchKeyValues, searchKey, bindSearch, hk, hdata, datumValue]
    · cases heval

/-- Witness of C9: a start-Rid parameter holding 40, a one-column key on a
two-column tree. -/
theorem setAdditionalKeys_search_key_witness :
    ∃ s0 s1, prepare { rowLimitParamId := 0, startRidParamId := 5 }
        (modelSearchStream [recordNumAttr] 2 (fun _ => 0)) = Outcome.ret s0 ∧
      setAdditionalKeys (bindSearch [{ pData := PConstBuffer.external 7, cbData := 8 }]
        SEARCH_CLOSED_LOWER SEARCH_CLOSED_UPPER (fun _ => 40) s0) = Outcome.ret s1 ∧
      s1.searchKey.length = 1 + 1 ∧
      s1.searchKeyValues = [some 7, some 40] ∧
      s1.paramReads = [5] :=
  ⟨_, _, rfl, rfl,
    ((setAdditionalKeys_search_key { rowLimitParamId := 0, startRidParamId := 5 }
      (modelSearchStream [recordNumAttr] 2 (fun _ => 0)) _ _
      [{ pData := PConstBuffer.external 7, cbData := 8 }]
      SEARCH_CLOSED_LOWER SEARCH_CLOSED_UPPER (fun _ => 40) rfl rfl rfl).2.1
      (by decide) rfl).1,
    rfl, rfl⟩

/-- C10, as the code has it. When a start-Rid parameter is configured
(`startRidParamId > 0`) and `prepare` returns, `leastUpper` is false afterwards:
the search looks for the greatest lower bound. When none is configured,
`leastUpper` is what `BTreeSearchExecStream::prepare` left. -/
theorem prepare_start_rid_sets_greatest_lower
    (params : LbmSearchExecStreamParams) (b s : LbmSearchExecStream)
    (hprep : prepare params b = Outcome.ret s) :
    (params.startRidParamId > 0 → s.leastUpper = false) ∧
    (params.startRidParamId = 0 → s.leastUpper = b.leastUpper) := by
  obtain ⟨-, -, -, -, -, -, -, -, -, p10, p11⟩ := prepare_spec params b s hprep
  exact ⟨fun h => (p11 h).1, p10⟩

/-- Witness of C10 as the code has it: start-Rid parameter 5 on a stream the
base class left searching for the least upper bound. -/
theorem prepare_start_rid_sets_greatest_lower_witness :
    ∃ s, prepare { rowLimitParamId := 0, startRidParamId := 5 }
        (modelSearchStream [recordNumAttr] 2 (fun _ => 0)) = Outcome.ret s ∧
      s.leastUpper = false :=
  ⟨_, rfl, (prepare_start_rid_sets_greatest_lower
    { rowLimitParamId := 0, startRidParamId := 5 }
    (modelSearchStream [recordNumAttr] 2 (fun _ => 0)) _ rfl).1 (by decide)⟩

/-- C10 as stated fails: it is not so that `leastUpper` is true after every
`prepare` with a start-Rid parameter. -/
theorem prepare_start_rid_leastUpper_counterexample :
    ¬ (∀ (params : LbmSearchExecStreamParams) (b s : LbmSearchExecStream),
      prepare params b = Outcome.ret s → params.startRidParamId > 0 → s.leastUpper = true) := by
  intro h
  have h1 := h { rowLimitParamId := 0, startRidParamId := 5 }
    (modelSearchStream [recordNumAttr] 2 (fun _ => 0)) _ rfl (by decide)
  exact absurd h1 (by decide)

end LbmSearchExecStream

/-! ## Rounding to `double` -/

theorem roundHalfEven_intCast (k : ℤ) : roundHalfEven (k : ℚ) = k := by
  simp [roundHalfEven]

theorem roundHalfEven_abs_le (q : ℚ) : |((roundHalfEven q : ℤ) : ℚ) - q| ≤ 1 / 2 := by
  have h0 : 0 ≤ q - ⌊q⌋ := by linarith [Int.floor_le q]
  have h1 : q - ⌊q⌋ < 1 := by linarith [Int.lt_floor_add_one q]
  unfold roundHalfEven
  dsimp only
  split_ifs with c1 c2 c3
  · rw [abs_le]; constructor <;> linarith
  · rw [abs_le]; push_cast; constructor <;> linarith
  · rw [abs_le]; constructor <;> linarith
  · rw [abs_le]; push_cast; constructor <;> linarith

theorem roundToDouble_abs_le (x : ℚ) (hx : x ≠ 0) :
    |roundToDouble x - x| ≤ (2 : ℚ) ^ (Int.log 2 |x| - 53) := by
  have hu : (0 : ℚ) < (2 : ℚ) ^ (Int.log 2 |x| - 52) := zpow_pos (by norm_num) _
  have hb := roundHalfEven_abs_le (x / (2 : ℚ) ^ (Int.log 2 |x| - 52))
  have hsplit : (2 : ℚ) ^ (Int.log 2 |x| - 53) = (2 : ℚ) ^ (Int.log 2 |x| - 52) / 2 := by
    have : Int.log 2 |x| - 53 = Int.log 2 |x| - 52 - 1 := by ring
    rw [this, zpow_sub_one₀ (by norm_num)]
    ring
  unfold roundToDouble
  rw [if_neg hx]
  dsimp only
  have hrew : ((roundHalfEven (x / (2 : ℚ) ^ (Int.log 2 |x| - 52)) : ℤ) : ℚ) *
      (2 : ℚ) ^ (Int.log 2 |x| - 52) - x =
      (((roundHalfEven (x / (2 : ℚ) ^ (Int.log 2 |x| - 52)) : ℤ) : ℚ) -
        x / (2 : ℚ) ^ (Int.log 2 |x| - 52)) * (2 : ℚ) ^ (Int.log 2 |x| - 52) := by
    field_simp
  rw [hrew, abs_mul, abs_of_pos hu, hsplit]
  calc |((roundHalfEven (x / (2 : ℚ) ^ (Int.log 2 |x| - 52)) : ℤ) : ℚ) -
        x / (2 : ℚ) ^ (Int.log 2 |x| - 52)| * (2 : ℚ) ^ (Int.log 2 |x| - 52)
      ≤ 1 / 2 * (2 : ℚ) ^ (Int.log 2 |x| - 52) := by
        exact mul_le_mul_of_nonneg_right hb hu.le
    _ = (2 : ℚ) ^ (Int.log 2 |x| - 52) / 2 := by ring

/-- A number `m * 2 ^ j` with `|m| < 2 ^ 53` is a `double`. -/
theorem roundToDouble_dyadic (m j : ℤ) (hm : |m| < 2 ^ 53) :
    roundToDouble ((m : ℚ) * (2 : ℚ) ^ j) = (m : ℚ) * (2 : ℚ) ^ j := by
  by_cases hm0 : m = 0
  · simp [hm0, roundToDouble]
  have h2j : (0 : ℚ) < (2 : ℚ) ^ j := zpow_pos (by norm_num) _
  have hx : (m : ℚ) * (2 : ℚ) ^ j ≠ 0 := by
    have : (m : ℚ) ≠ 0 := by exact_mod_cast hm0
    positivity
  have habs : |(m : ℚ) * (2 : ℚ) ^ j| = (|m| : ℤ) * (2 : ℚ) ^ j := by
    rw [abs_mul, abs_of_pos h2j]; push_cast; rfl
  have hpos : (0 : ℚ) < |(m : ℚ) * (2 : ℚ) ^ j| := abs_pos.mpr hx
  have hm1 : (1 : ℚ) ≤ ((|m| : ℤ) : ℚ) := by
    have : (1 : ℤ) ≤ |m| := Int.one_le_abs hm0
    exact_mod_cast this
  have hm2 : ((|m| : ℤ) : ℚ) < (2 : ℚ) ^ (53 : ℤ) := by
    have : ((|m| : ℤ) : ℚ) < ((2 ^ 53 : ℤ) : ℚ) := by exact_mod_cast hm
    rw [show ((2 : ℚ) ^ (53 : ℤ)) = ((2 ^ 53 : ℤ) : ℚ) by norm_num]
    exact this
  -- the exponent of the leading bit lies between `j` and `j + 52`
  have hlow : j ≤ Int.log 2 |(m : ℚ) * (2 : ℚ) ^ j| := by
    rw [← Int.zpow_le_iff_le_log (by norm_num) hpos, habs]
    simp only [Nat.cast_ofNat]
    calc (2 : ℚ) ^ j = 1 * (2 : ℚ) ^ j := by ring
      _ ≤ ((|m| : ℤ) : ℚ) * (2 : ℚ) ^ j := mul_le_mul_of_nonneg_right hm1 h2j.le
  have hhigh : Int.log 2 |(m : ℚ) * (2 : ℚ) ^ j| < 53 + j := by
    rw [← Int.lt_zpow_iff_log_lt (by norm_num) hpos, habs]
    simp only [Nat.cast_ofNat]
    rw [zpow_add₀ (by norm_num)]
    exact mul_lt_mul_of_pos_right hm2 h2j
  obtain ⟨d, hd⟩ : ∃ d : ℕ, j - (Int.log 2 |(m : ℚ) * (2 : ℚ) ^ j| - 52) = d :=
    ⟨(j - (Int.log 2 |(m : ℚ) * (2 : ℚ) ^ j| - 52)).toNat, by
      rw [Int.toNat_of_nonneg]; omega⟩
  have hquot : (m : ℚ) * (2 : ℚ) ^ j / (2 : ℚ) ^ (Int.log 2 |(m : ℚ) * (2 : ℚ) ^ j| - 52) =
      ((m * 2 ^ d : ℤ) : ℚ) := by
    rw [mul_div_assoc, ← zpow_sub₀ (by norm_num), hd, zpow_natCast]
    push_cast
    rfl
  unfold roundToDouble
  rw [if_neg hx]
  dsimp only
  rw [hquot, roundHalfEven_intCast, ← hquot]
  field_simp

theorem roundToDouble_natCast (n : ℕ) (hn : n < 2 ^ 53) : roundToDouble (n : ℚ) = n := by
  have h := roundToDouble_dyadic (n : ℤ) 0 (by
    rw [abs_of_nonneg (by positivity)]; exact_mod_cast hn)
  simpa using h

theorem roundToDouble_half (k : ℤ) (hk : |k| < 2 ^ 53) :
    roundToDouble ((k : ℚ) / 2) = (k : ℚ) / 2 := by
  have h := roundToDouble_dyadic k (-1) hk
  have h2 : (2 : ℚ) ^ (-1 : ℤ) = 1 / 2 := by norm_num
  rw [h2] at h
  have h3 : (k : ℚ) * (1 / 2) = (k : ℚ) / 2 := by ring
  rw [h3] at h
  exact h

/-- The quotient of two integers below `2 ^ 53`, rounded to a `double`, has the
ceiling of the exact quotient. -/
theorem ceil_roundToDouble_div (a b : ℕ) (hb : 0 < b) (ha : a < 2 ^ 53) :
    ⌈roundToDouble ((a : ℚ) / b)⌉ = ⌈(a : ℚ) / b⌉ := by
  have hbq : (0 : ℚ) < b := by exact_mod_cast hb
  obtain ⟨q, r, hr, hdecomp⟩ : ∃ q r : ℕ, r < b ∧ a = b * q + r :=
    ⟨a / b, a % b, Nat.mod_lt _ hb, (Nat.div_add_mod a b).symm⟩
  have hx : (a : ℚ) / b = q + (r : ℚ) / b := by
    rw [hdecomp]; push_cast; field_simp; ring
  by_cases hr0 : r = 0
  · -- the quotient is an integer
    have hq : q < 2 ^ 53 := by
      have : q ≤ a := by
        rw [hdecomp]; nlinarith
      omega
    rw [hx, hr0]
    simp only [Nat.cast_zero, zero_div, add_zero]
    rw [roundToDouble_natCast q hq]
  · -- the quotient lies strictly between two integers, at least `1 / b` from both
    have hrpos : 0 < r := Nat.pos_of_ne_zero hr0
    have hapos : 0 < a := by rw [hdecomp]; omega
    have hxpos : (0 : ℚ) < (a : ℚ) / b := by
      have : (0 : ℚ) < a := by exact_mod_cast hapos
      positivity
    have hxne : (a : ℚ) / b ≠ 0 := ne_of_gt hxpos
    have herr := roundToDouble_abs_le ((a : ℚ) / b) hxne
    rw [abs_of_pos hxpos] at herr
    -- half an ulp is less than `1 / b`
    have hlog : (2 : ℚ) ^ Int.log 2 ((a : ℚ) / b) ≤ (a : ℚ) / b := by
      have := Int.zpow_log_le_self (b := 2) (by norm_num) hxpos
      simpa using this
    have hulp : (2 : ℚ) ^ (Int.log 2 ((a : ℚ) / b) - 53) < 1 / b := by
      rw [zpow_sub₀ (by norm_num)]
      have h53 : (0 : ℚ) < (2 : ℚ) ^ (53 : ℤ) := by positivity
      have ha53 : (a : ℚ) < (2 : ℚ) ^ (53 : ℤ) := by
        rw [show ((2 : ℚ) ^ (53 : ℤ)) = ((2 ^ 53 : ℕ) : ℚ) by norm_num]
        exact_mod_cast ha
      rw [div_lt_div_iff₀ h53 hbq]
      calc (2 : ℚ) ^ Int.log 2 ((a : ℚ) / b) * b ≤ (a : ℚ) / b * b :=
            mul_le_mul_of_nonneg_right hlog hbq.le
        _ = a := by field_simp
        _ < 1 * (2 : ℚ) ^ (53 : ℤ) := by linarith
    have hrb : (1 : ℚ) / b ≤ (r : ℚ) / b := by
      have : (1 : ℚ) ≤ r := by exact_mod_cast hrpos
      exact div_le_div_of_nonneg_right this hbq.le
    have hrb2 : (r : ℚ) / b + 1 / b ≤ 1 := by
      have : (r : ℚ) + 1 ≤ b := by exact_mod_cast hr
      rw [← add_div, div_le_one hbq]
      exact this
    have hbounds := abs_le.mp herr
    have h1 : ((q : ℤ) : ℚ) < roundToDouble ((a : ℚ) / b) := by
      push_cast; linarith [hbounds.1]
    have h2 : roundToDouble ((a : ℚ) / b) ≤ ((q + 1 : ℤ) : ℚ) := by
      push_cast; linarith [hbounds.2]
    have h3 : ((q : ℤ) : ℚ) < (a : ℚ) / b := by
      have : (0 : ℚ) < (r : ℚ) / b := by
        have : (0 : ℚ) < r := by exact_mod_cast hrpos
        positivity
      push_cast; linarith
    have h4 : (a : ℚ) / b ≤ ((q + 1 : ℤ) : ℚ) := by
      have : (0 : ℚ) < 1 / (b : ℚ) := by positivity
      push_cast; linarith
    rw [Int.ceil_eq_iff.mpr ⟨by push_cast at h1 ⊢; linarith, h2⟩,
      Int.ceil_eq_iff.mpr ⟨by push_cast at h3 ⊢; linarith, h4⟩]

theorem ceil_natCast_div (a b : ℕ) (hb : 0 < b) :
    ⌈(a : ℚ) / b⌉ = (((a + b - 1) / b : ℕ) : ℤ) := by
  have hbq : (0 : ℚ) < b := by exact_mod_cast hb
  rw [Int.ceil_eq_iff]
  have h1 : (a + b - 1) / b * b ≤ a + b - 1 := Nat.div_mul_le_self _ _
  have h2 : a + b - 1 < ((a + b - 1) / b + 1) * b := by
    have := Nat.lt_succ_self ((a + b - 1) / b)
    exact (Nat.div_lt_iff_lt_mul hb).mp this
  generalize (a + b - 1) / b = k at h1 h2
  simp only [Int.cast_natCast]
  have h3 : (k + 1) * b = k * b + b := by ring
  constructor
  · rw [lt_div_iff₀ hbq]
    have h4 : k * b < a + b := by omega
    have h5 : ((k * b : ℕ) : ℚ) < ((a + b : ℕ) : ℚ) := by exact_mod_cast h4
    push_cast at h5
    linarith
  · rw [div_le_iff₀ hbq]
    have h4 : a ≤ k * b := by omega
    exact_mod_cast h4

theorem doubleToUint_half (k : ℕ) :
    doubleToUint ((k : ℚ) / 2) =
      if k / 2 < UINT_WIDTH then Outcome.ret (k / 2) else Outcome.undefinedBehaviour := by
  have hfloor : ⌊(k : ℚ) / 2⌋ = ((k / 2 : ℕ) : ℤ) := by
    have := Rat.floor_natCast_div_natCast k 2
    simpa using this
  have hneg : (-1 : ℚ) < (k : ℚ) / 2 := by
    have : (0 : ℚ) ≤ (k : ℚ) / 2 := by positivity
    linarith
  have hiff : (k : ℚ) / 2 < (UINT_WIDTH : ℚ) ↔ k / 2 < UINT_WIDTH := by
    have h := Int.floor_lt (a := (k : ℚ) / 2) (z := (UINT_WIDTH : ℤ))
    rw [hfloor] at h
    have h2 : (((UINT_WIDTH : ℕ) : ℤ) : ℚ) = ((UINT_WIDTH : ℕ) : ℚ) := by push_cast; rfl
    rw [h2] at h
    rw [← h]
    exact_mod_cast Iff.rfl
  unfold doubleToUint
  by_cases hlt : k / 2 < UINT_WIDTH
  · rw [if_pos ⟨hneg, hiff.mpr hlt⟩, if_pos hlt, hfloor]
    rfl
  · rw [if_neg (fun h => hlt (hiff.mp h.2)), if_neg hlt]

theorem doubleToUint_natCast (k : ℕ) :
    doubleToUint (k : ℚ) =
      if k < UINT_WIDTH then Outcome.ret k else Outcome.undefinedBehaviour := by
  have hneg : (-1 : ℚ) < (k : ℚ) := by
    have : (0 : ℚ) ≤ (k : ℚ) := by positivity
    linarith
  have hiff : (k : ℚ) < (UINT_WIDTH : ℚ) ↔ k < UINT_WIDTH := by exact_mod_cast Iff.rfl
  unfold doubleToUint
  by_cases hlt : k < UINT_WIDTH
  · rw [if_pos ⟨hneg, hiff.mpr hlt⟩, if_pos hlt]
    simp
  · rw [if_neg (fun h => hlt (hiff.mp h.2)), if_neg hlt]

namespace LbmUnionExecStream

variable {E : Collaborators}

/-! ## The sizing functions -/

theorem computeRidLimit_eq (s : LbmUnionExecStream E) (n : Nat)
    (hn1 : 1 ≤ n) (hn : n < UINT_WIDTH) (hp : s.pageSize < UINT_WIDTH)
    (hexact : (2 * n - 1) * s.pageSize < 2 ^ 53) :
    computeRidLimit s n =
      if (2 * n - 1) * s.pageSize / 2 < UINT_WIDTH then
        Outcome.ret ((2 * n - 1) * s.pageSize / 2 * LbmOneByteSize % UINT_WIDTH)
      else Outcome.undefinedBehaviour := by
  have hn53 : n < 2 ^ 53 := by unfold UINT_WIDTH at hn; omega
  have hp53 : s.pageSize < 2 ^ 53 := by unfold UINT_WIDTH at hp; omega
  have hsub : doubleSub (doubleOfNat n) (1 / 2) = (((2 * n - 1 : ℕ) : ℤ) : ℚ) / 2 := by
    unfold doubleSub doubleOfNat
    rw [roundToDouble_natCast n hn53]
    have h1 : (n : ℚ) - 1 / 2 = (((2 * n - 1 : ℕ) : ℤ) : ℚ) / 2 := by
      have : ((2 * n - 1 : ℕ) : ℚ) = 2 * (n : ℚ) - 1 := by
        rw [Nat.cast_sub (by omega)]; push_cast; ring
      rw [Int.cast_natCast, this]; ring
    rw [h1]
    apply roundToDouble_half
    rw [abs_of_nonneg (by positivity)]
    have : 2 * n - 1 < 2 ^ 53 := by unfold UINT_WIDTH at hn; omega
    exact_mod_cast this
  have hmul : doubleMul (doubleSub (doubleOfNat n) (1 / 2)) (doubleOfNat s.pageSize) =
      (((2 * n - 1) * s.pageSize : ℕ) : ℚ) / 2 := by
    unfold doubleMul
    rw [hsub]
    unfold doubleOfNat
    rw [roundToDouble_natCast _ hp53]
    have h1 : (((2 * n - 1 : ℕ) : ℤ) : ℚ) / 2 * (s.pageSize : ℚ) =
        ((((2 * n - 1) * s.pageSize : ℕ) : ℤ) : ℚ) / 2 := by
      push_cast; ring
    rw [h1]
    have h2 := roundToDouble_half (((2 * n - 1) * s.pageSize : ℕ) : ℤ) (by
      rw [abs_of_nonneg (by positivity)]; exact_mod_cast hexact)
    rw [h2, Int.cast_natCast]
  unfold computeRidLimit
  dsimp only
  rw [Nat.mod_eq_of_lt hn, Nat.mod_eq_of_lt hp, hmul, doubleToUint_half]
  split_ifs <;> rfl

theorem computeOptWorkspacePages_eq (s : LbmUnionExecStream E) (maxRid : Nat)
    (hp1 : 1 ≤ s.pageSize) (hp : s.pageSize < UINT_WIDTH)
    (hexact : maxRid / 8 + 1 + s.pageSize / 2 < 2 ^ 53) :
    computeOptWorkspacePages s maxRid =
      if (maxRid / 8 + 1 + s.pageSize / 2 + s.pageSize - 1) / s.pageSize < UINT_WIDTH then
        Outcome.ret ((maxRid / 8 + 1 + s.pageSize / 2 + s.pageSize - 1) / s.pageSize)
      else Outcome.undefinedBehaviour := by
  have hm : maxRid < RID_WIDTH := by unfold RID_WIDTH; omega
  have hp0 : s.pageSize ≠ 0 := by omega
  have hp53 : s.pageSize < 2 ^ 53 := by unfold UINT_WIDTH at hp; omega
  have hb0 : maxRid / 8 + 1 < RID_WIDTH := by unfold RID_WIDTH; omega
  have hb : maxRid / 8 + 1 + s.pageSize / 2 < RID_WIDTH := by unfold RID_WIDTH; omega
  unfold computeOptWorkspacePages
  dsimp only
  rw [Nat.mod_eq_of_lt hm, Nat.mod_eq_of_lt hp]
  simp only [LbmOneByteSize]
  rw [Nat.mod_eq_of_lt hb0, Nat.mod_eq_of_lt hb, if_neg hp0]
  unfold doubleDiv doubleOfNat doubleCeil
  rw [roundToDouble_natCast _ hexact, roundToDouble_natCast _ hp53,
    ceil_roundToDouble_div _ _ (by omega) hexact, ceil_natCast_div _ _ (by omega),
    Int.cast_natCast, doubleToUint_natCast]

/-- C6, as the code has it. For `nWorkspacePages ≥ 1` and a result within the
unsigned 32-bit range, `computeRidLimit` is `8` times the whole number of bytes
in `(nWorkspacePages - 0.5) * pageSize`: the conversion to `uint` drops the
half byte of an odd product. For an even `pageSize` that is
`(2 * nWorkspacePages - 1) * pageSize * 4`; for an odd one it is 4 less. -/
theorem computeRidLimit_truncates_to_whole_bytes (s : LbmUnionExecStream E) (n : Nat)
    (hn1 : 1 ≤ n) (hn : n < UINT_WIDTH)
    (hrange : (2 * n - 1) * s.pageSize * 4 < UINT_WIDTH) :
    computeRidLimit s n = Outcome.ret ((2 * n - 1) * s.pageSize / 2 * 8) ∧
    (s.pageSize % 2 = 0 → computeRidLimit s n = Outcome.ret ((2 * n - 1) * s.pageSize * 4)) ∧
    (s.pageSize % 2 = 1 →
      computeRidLimit s n = Outcome.ret ((2 * n - 1) * s.pageSize * 4 - 4)) := by
  have hk : 1 ≤ 2 * n - 1 := by omega
  have hp : s.pageSize < UINT_WIDTH := by
    have : s.pageSize ≤ (2 * n - 1) * s.pageSize := Nat.le_mul_of_pos_left _ hk
    omega
  have hexact : (2 * n - 1) * s.pageSize < 2 ^ 53 := by unfold UINT_WIDTH at hrange; omega
  have hlt : (2 * n - 1) * s.pageSize / 2 < UINT_WIDTH := by omega
  have hmod : (2 * n - 1) * s.pageSize / 2 * LbmOneByteSize % UINT_WIDTH =
      (2 * n - 1) * s.pageSize / 2 * 8 := by
    unfold LbmOneByteSize
    apply Nat.mod_eq_of_lt
    omega
  have hval := computeRidLimit_eq s n hn1 hn hp hexact
  rw [if_pos hlt, hmod] at hval
  refine ⟨hval, ?_, ?_⟩
  · intro heven
    rw [hval]
    have : ((2 * n - 1) * s.pageSize) % 2 = 0 := by
      rw [Nat.mul_mod, heven]; simp
    congr 1
    omega
  · intro hodd
    rw [hval]
    have hodd2 : (2 * n - 1) % 2 = 1 := by omega
    have : ((2 * n - 1) * s.pageSize) % 2 = 1 := by
      rw [Nat.mul_mod, hodd, hodd2]
    congr 1
    omega

/-- Witness of C6 as the code has it: 2 pages of 4096 bytes give 49152. -/
theorem computeRidLimit_truncates_to_whole_bytes_witness :
    computeRidLimit (modelStreamPaged 4096) 2 = Outcome.ret (3 * 4096 / 2 * 8) ∧
    computeRidLimit (modelStreamPaged 4096) 2 = Outcome.ret 49152 :=
  ⟨(computeRidLimit_truncates_to_whole_bytes (modelStreamPaged 4096) 2 (by decide)
      (by decide) (by decide)).1,
    (computeRidLimit_truncates_to_whole_bytes (modelStreamPaged 4096) 2 (by decide)
      (by decide) (by decide)).2.1 (by decide)⟩

/-- C6 as stated fails: with 2 pages of 4095 bytes `computeRidLimit` is 49136,
not `(2 * 2 - 1) * 4095 * 4 = 49140`. -/
theorem computeRidLimit_odd_page_counterexample :
    ¬ (∀ (s : LbmUnionExecStream modelCollaborators) (n : Nat), 1 ≤ n → n < UINT_WIDTH →
      (2 * n - 1) * s.pageSize * 4 < UINT_WIDTH →
      computeRidLimit s n = Outcome.ret ((2 * n - 1) * s.pageSize * 4)) := by
  intro h
  have h1 := h (modelStreamPaged 4095) 2 (by decide) (by decide) (by decide)
  have h2 := computeRidLimit_eq (modelStreamPaged 4095) 2 (by decide) (by decide)
    (by decide) (by decide)
  rw [h1] at h2
  revert h2
  decide

/-- C7, as the code has it. For `pageSize ≥ 1`, a byte count
`maxRid / 8 + 1 + pageSize / 2` below `2 ^ 53` and a page count that fits the
`uint` result, `computeOptWorkspacePages` returns the ceiling of the byte count
divided by `pageSize`, which is the least `k` with
`k * pageSize ≥ maxRid / 8 + 1 + pageSize / 2`. -/
theorem computeOptWorkspacePages_is_ceiling (s : LbmUnionExecStream E) (maxRid : Nat)
    (hp1 : 1 ≤ s.pageSize) (hp : s.pageSize < UINT_WIDTH)
    (hexact : maxRid / 8 + 1 + s.pageSize / 2 < 2 ^ 53)
    (hfit : (maxRid / 8 + 1 + s.pageSize / 2 + s.pageSize - 1) / s.pageSize < UINT_WIDTH) :
    computeOptWorkspacePages s maxRid =
      Outcome.ret ((maxRid / 8 + 1 + s.pageSize / 2 + s.pageSize - 1) / s.pageSize) ∧
    (((maxRid / 8 + 1 + s.pageSize / 2 + s.pageSize - 1) / s.pageSize : ℕ) : ℤ) =
      ⌈((maxRid / 8 + 1 + s.pageSize / 2 : ℕ) : ℚ) / (s.pageSize : ℚ)⌉ ∧
    (∀ k : ℕ, maxRid / 8 + 1 + s.pageSize / 2 ≤ k * s.pageSize ↔
      (maxRid / 8 + 1 + s.pageSize / 2 + s.pageSize - 1) / s.pageSize ≤ k) := by
  have hval := computeOptWorkspacePages_eq s maxRid hp1 hp hexact
  rw [if_pos hfit] at hval
  refine ⟨hval, (ceil_natCast_div _ _ (by omega)).symm, ?_⟩
  intro k
  generalize maxRid / 8 + 1 + s.pageSize / 2 = bytes
  have hpos : 0 < s.pageSize := by omega
  constructor
  · intro h
    have : bytes + s.pageSize - 1 < (k + 1) * s.pageSize := by
      have : (k + 1) * s.pageSize = k * s.pageSize + s.pageSize := by ring
      omega
    have := (Nat.div_lt_iff_lt_mul hpos).mpr this
    omega
  · intro h
    have h1 : bytes + s.pageSize - 1 < ((bytes + s.pageSize - 1) / s.pageSize + 1) * s.pageSize :=
      (Nat.div_lt_iff_lt_mul hpos).mp (Nat.lt_succ_self _)
    have h2 : ((bytes + s.pageSize - 1) / s.pageSize + 1) * s.pageSize ≤ (k + 1) * s.pageSize :=
      Nat.mul_le_mul_right _ (by omega)
    have h3 : (k + 1) * s.pageSize = k * s.pageSize + s.pageSize := by ring
    omega

/-- Witness of C7 as the code has it: `maxRid = 1000` with 4096-byte pages
gives 1 page. -/
theorem computeOptWorkspacePages_is_ceiling_witness :
    computeOptWorkspacePages (modelStreamPaged 4096) 1000 = Outcome.ret 1 :=
  (computeOptWorkspacePages_is_ceiling (modelStreamPaged 4096) 1000 (by decide) (by decide)
    (by decide) (by decide)).1

/-- C7 as stated fails: with 4096-byte pages and `maxRid = 2 ^ 47` the ceiling
is `2 ^ 32 + 1`, which is no `uint`; the conversion of the `double` is
undefined and the function does not return that value. -/
theorem computeOptWorkspacePages_overflow_counterexample :
    ¬ (∀ (s : LbmUnionExecStream modelCollaborators) (maxRid : Nat), 1 ≤ s.pageSize →
      s.pageSize < UINT_WIDTH → maxRid / 8 + 1 + s.pageSize / 2 < 2 ^ 53 →
      computeOptWorkspacePages s maxRid =
        Outcome.ret ((maxRid / 8 + 1 + s.pageSize / 2 + s.pageSize - 1) / s.pageSize)) := by
  intro h
  have h1 := h (modelStreamPaged 4096) (2 ^ 47) (by decide) (by decide) (by decide)
  have h2 := computeOptWorkspacePages_eq (modelStreamPaged 4096) (2 ^ 47) (by decide)
    (by decide) (by decide)
  rw [h1] at h2
  revert h2
  decide

end LbmUnionExecStream

/-! ## Lemmas on the further observations -/

theorem refusedSegments_append {T : Type} (a b : List (Call T)) :
    refusedSegments (a ++ b) = refusedSegments a ++ refusedSegments b := by
  induction a with
  | nil => rfl
  | cons c cs ih =>
    cases c with
    | swAddSegment seg ok => cases ok <;> simp [refusedSegments, ih]
    | _ => simp [refusedSegments, ih]

theorem pulledSegments_append {T : Type} (a b : List (Call T)) :
    pulledSegments (a ++ b) = pulledSegments a ++ pulledSegments b := by
  induction a with
  | nil => rfl
  | cons c cs ih =>
    cases c with
    | readSegmentAndAdvance status seg => cases status <;> simp [pulledSegments, ih]
    | _ => simp [pulledSegments, ih]

theorem addedSegments_append {T : Type} (a b : List (Call T)) :
    addedSegments (a ++ b) = addedSegments a ++ addedSegments b := by
  induction a with
  | nil => rfl
  | cons c cs ih =>
    cases c with
    | wsAddSegment seg ok => cases ok <;> simp [addedSegments, ih]
    | _ => simp [addedSegments, ih]

namespace LbmUnionExecStream

variable {E : Collaborators}

/-! ## The claims on `open` and on a reader that is not ready -/

theorem sameReset_refl (s : LbmUnionExecStream E) : SameReset s s := ⟨rfl, rfl, rfl, rfl⟩

theorem sameReset_trans {a b c : LbmUnionExecStream E} (h1 : SameReset a b)
    (h2 : SameReset b c) : SameReset a c := by
  obtain ⟨a1, a2, a3, a4⟩ := h1
  obtain ⟨b1, b2, b3, b4⟩ := h2
  exact ⟨by rw [b1, a1], by rw [b2, a2], by rw [b3, a3], by rw [b4, a4]⟩

theorem transfer_sameReset {I : OpenCollaborators E} (hc : ResetContract E I) (fuel : Nat) :
    ∀ (s s1 : LbmUnionExecStream E) (b : Bool),
      transfer fuel s = Outcome.ret (b, s1) → SameReset s s1 := by
  induction fuel with
  | zero => intro s s1 b h; simp [transfer] at h
  | succ fuel ih =>
    intro s s1 b h
    unfold transfer at h
    simp only [log] at h
    split at h
    · split at h
      · simp only [Outcome.ret.injEq, Prod.mk.injEq] at h
        obtain ⟨-, rfl⟩ := h
        simp [SameReset]
      · split at h
        · simp only [Outcome.ret.injEq, Prod.mk.injEq] at h
          obtain ⟨-, rfl⟩ := h
          simp [SameReset, hc.swReset_addSegment]
        · refine sameReset_trans ?_ (ih _ _ _ h)
          by_cases hl : s.segmentLimitParamId > 0 <;>
            simp [SameReset, isSegmentLimitSet, hl, hc.swReset_addSegment,
              hc.wsReset_advancePastSegment]
    · simp only [Outcome.ret.injEq, Prod.mk.injEq] at h
      obtain ⟨-, rfl⟩ := h
      simp [SameReset]

theorem transferLast_sameReset {I : OpenCollaborators E} (hc : ResetContract E I) (fuel : Nat)
    (s s1 : LbmUnionExecStream E) (h : transferLast fuel s = Outcome.ret s1) :
    SameReset s s1 := by
  unfold transferLast at h
  dsimp only at h
  split at h
  · rename_i r hr
    simp only [Outcome.ret.injEq] at h
    subst h
    refine sameReset_trans ?_ (transfer_sameReset hc fuel _ r.2 r.1 hr)
    simp [SameReset, hc.wsReset_removeLimit]
  all_goals simp at h

theorem writeSegment_sameReset {I : OpenCollaborators E} (hc : ResetContract E I) (fuel : Nat)
    (s s1 : LbmUnionExecStream E) (b : Bool)
    (h : writeSegment fuel s = Outcome.ret (b, s1)) : SameReset s s1 := by
  unfold writeSegment at h
  dsimp only at h
  split at h
  · rename_i s3 hr
    simp only [Outcome.ret.injEq, Prod.mk.injEq] at h
    obtain ⟨rfl, rfl⟩ := h
    refine sameReset_trans ?_ (transfer_sameReset hc fuel _ _ _ hr)
    by_cases hcs : s.startRidParamId > 0 <;>
      simp [SameReset, isConsumerSridSet, hcs, hc.wsReset_setProductionLimit,
        hc.wsReset_advanceToSrid]
  · rename_i s3 hr
    have hsr : SameReset s s3 := by
      refine sameReset_trans ?_ (transfer_sameReset hc fuel _ _ _ hr)
      by_cases hcs : s.startRidParamId > 0 <;>
        simp [SameReset, isConsumerSridSet, hcs, hc.wsReset_setProductionLimit,
          hc.wsReset_advanceToSrid]
    split at h
    · simp only [Outcome.ret.injEq, Prod.mk.injEq] at h
      obtain ⟨rfl, rfl⟩ := h
      refine sameReset_trans hsr ?_
      simp [SameReset, hc.wsReset_addSegment]
    · simp at h
  all_goals simp at h

theorem readSegment_sameReset (s : LbmUnionExecStream E) : SameReset s s.readSegment.2 := by
  unfold readSegment SameReset
  by_cases hw : s.writePending = true
  · simp [hw]
  · by_cases hy : (E.readSegmentAndAdvance s.segmentReader s.inputSegment).1 = EXECRC_YIELD <;>
      simp [hw, hy]

theorem produceTuple_sameReset {I : OpenCollaborators E} (hc : ResetContract E I)
    (s s1 : LbmUnionExecStream E) (ok : Bool)
    (h : produceTuple s = Outcome.ret (ok, s1)) : SameReset s s1 := by
  unfold produceTuple at h
  dsimp only at h
  split at h
  · split at h
    · simp only [Outcome.ret.injEq, Prod.mk.injEq] at h
      obtain ⟨rfl, rfl⟩ := h
      simp [SameReset, hc.swReset_produceSegmentTuple]
    · simp only [Outcome.ret.injEq, Prod.mk.injEq] at h
      obtain ⟨rfl, rfl⟩ := h
      simp [SameReset, hc.swReset_produceSegmentTuple]
  · simp at h

theorem readLimits_sameReset (s : LbmUnionExecStream E) : SameReset s s.readLimits := by
  unfold readLimits isConsumerSridSet isSegmentLimitSet
  by_cases h1 : s.startRidParamId > 0 <;> by_cases h2 : s.segmentLimitParamId > 0 <;>
    simp [h1, h2, SameReset]

theorem whileNotPending_sameReset {I : OpenCollaborators E} (hc : ResetContract E I)
    (fuel : Nat) :
    ∀ (s s1 : LbmUnionExecStream E) (r : Option ExecStreamResult),
      whileNotPending fuel s = Outcome.ret (r, s1) → SameReset s s1 := by
  induction fuel with
  | zero => intro s s1 r h; simp [whileNotPending] at h
  | succ fuel ih =>
    intro s s1 r h
    have hrs := readSegment_sameReset s
    unfold whileNotPending at h
    dsimp only at h
    split at h
    · simp only [Outcome.ret.injEq, Prod.mk.injEq] at h
      obtain ⟨-, rfl⟩ := h
      exact sameReset_refl _
    · split at h
      · split at h
        · split at h
          · rename_i s2 hr
            simp only [Outcome.ret.injEq, Prod.mk.injEq] at h
            obtain ⟨-, rfl⟩ := h
            have h2 := transferLast_sameReset hc _ _ _ hr
            have h3 : SameReset s s2 := sameReset_trans (sameReset_trans hrs
              (by simp [SameReset, log])) h2
            exact sameReset_trans h3 (by simp [SameReset])
          all_goals simp at h
        · simp only [Outcome.ret.injEq, Prod.mk.injEq] at h
          obtain ⟨-, rfl⟩ := h
          exact sameReset_trans hrs (by simp [SameReset, log])
      · split at h
        · simp only [Outcome.ret.injEq, Prod.mk.injEq] at h
          obtain ⟨-, rfl⟩ := h
          exact hrs
        · split at h
          · rename_i s2 hr
            have h2 := writeSegment_sameReset hc _ _ _ _ hr
            exact sameReset_trans (sameReset_trans (sameReset_trans hrs h2)
              (by simp [SameReset])) (ih _ _ _ h)
          · rename_i s2 hr
            have h2 := writeSegment_sameReset hc _ _ _ _ hr
            exact sameReset_trans (sameReset_trans hrs h2) (ih _ _ _ h)
          all_goals simp at h

theorem forLoop_sameReset {I : OpenCollaborators E} (hc : ResetContract E I)
    (fuel : Nat) (n : Nat) :
    ∀ (s s1 : LbmUnionExecStream E) (rc : ExecStreamResult),
      forLoop fuel n s = Outcome.ret (rc, s1) → SameReset s s1 := by
  induction n with
  | zero =>
    intro s s1 rc h
    simp only [forLoop, Outcome.ret.injEq, Prod.mk.injEq] at h
    obtain ⟨-, rfl⟩ := h
    exact sameReset_refl _
  | succ n ih =>
    intro s s1 rc h
    unfold forLoop at h
    split at h
    · rename_i st s2 hw
      simp only [Outcome.ret.injEq, Prod.mk.injEq] at h
      obtain ⟨-, rfl⟩ := h
      exact whileNotPending_sameReset hc fuel _ _ _ hw
    · rename_i s2 hw
      have h1 := whileNotPending_sameReset hc fuel _ _ _ hw
      split at h
      · rename_i s3 hp
        simp only [Outcome.ret.injEq, Prod.mk.injEq] at h
        obtain ⟨-, rfl⟩ := h
        exact sameReset_trans h1 (produceTuple_sameReset hc _ _ _ hp)
      · rename_i s3 hp
        exact sameReset_trans (sameReset_trans (sameReset_trans h1
          (produceTuple_sameReset hc _ _ _ hp)) (by simp [SameReset])) (ih _ _ _ h)
      all_goals simp at h
    all_goals simp at h

theorem execute_sameReset {I : OpenCollaborators E} (hc : ResetContract E I)
    (fuel : Nat) (q : ExecStreamQuantum) (s s1 : LbmUnionExecStream E)
    (rc : ExecStreamResult) (h : execute fuel q s = Outcome.ret (rc, s1)) :
    SameReset s s1 := by
  by_cases hd : s.isDone = true
  · simp only [execute, hd, if_true, Outcome.ret.injEq, Prod.mk.injEq] at h
    obtain ⟨-, rfl⟩ := h
    simp [SameReset]
  · simp only [Bool.not_eq_true] at hd
    have hloop : forLoop fuel q.nTuplesMax s.readLimits = Outcome.ret (rc, s1) := by
      simpa [execute, hd] using h
    exact sameReset_trans (readLimits_sameReset s) (forLoop_sameReset hc fuel _ _ _ _ hloop)

/-- In every reachable state the workspace and the writer reset to the objects
the cold open set up, and the configuration is that of the cold open. -/
theorem reachable_resets {I : OpenCollaborators E} (hc : ResetContract E I)
    (c s : LbmUnionExecStream E) (h : Reachable I c s) :
    E.wsReset s.workspace =
      I.wsInit c.nWorkspacePages c.pageSize (c.pageSize % UINT_WIDTH / 8) ∧
    E.swReset s.segmentWriter = I.swInit (c.pageSize % UINT_WIDTH / 8) ∧
    s.pageSize = c.pageSize ∧ s.nWorkspacePages = c.nWorkspacePages := by
  induction h with
  | afterOpen =>
    simp [openStream, hc.wsReset_init, hc.swReset_init]
  | afterRestart s _ ih =>
    obtain ⟨i1, i2, i3, i4⟩ := ih
    simp [openStream, i1, i2, i3, i4, hc.wsReset_init, hc.swReset_init]
  | afterExecute fuel q s s1 rc _ he ih =>
    obtain ⟨i1, i2, i3, i4⟩ := ih
    obtain ⟨e1, e2, e3, e4⟩ := execute_sameReset hc fuel q s s1 rc he
    exact ⟨by rw [e1, i1], by rw [e2, i2], by rw [e3, i3], by rw [e4, i4]⟩
  | afterOthers s r o params _ ih =>
    exact ih


/-- The modelled writer and the workspace stand-in meet `ResetContract`. -/
theorem modelCollaborators_resetContract :
    ResetContract modelCollaborators modelOpenCollaborators where
  wsReset_init := fun _ _ _ => rfl
  wsIsEmpty_init := fun _ _ _ => rfl
  wsReset_advancePastSegment := fun _ => rfl
  wsReset_setProductionLimit := fun _ _ => rfl
  wsReset_removeLimit := fun _ => rfl
  wsReset_advanceToSrid := fun _ _ => rfl
  wsReset_addSegment := fun _ _ => rfl
  swReset_init := fun _ => rfl
  swReset_addSegment := by
    intro w srid byteSeg len
    show LbmSegmentWriterModel.reset (LbmSegmentWriterModel.addSegment w srid byteSeg len).2 =
      LbmSegmentWriterModel.reset w
    unfold LbmSegmentWriterModel.addSegment LbmSegmentWriterModel.reset
    split <;> rfl
  swReset_produceSegmentTuple := fun _ => rfl

/-- C11. Let `s` be a state the stream reaches from the cold open of `c`
(done, a tuple pending and a segment pending included), with a workspace and
a writer that meet `ResetContract`. Then `open(restart = true)` calls
`workspace.reset()` and `segmentWriter.reset()` and leaves `writePending`,
`producePending` and `isDone` false, and the workspace it leaves is empty. The
workspace, the writer and the three flags are those a cold
`open(restart = false)` leaves on any stream `c2` with the configuration of
`s` (page size and number of workspace pages). A second `open(restart = true)`
leaves every member variable listed in `SameMembers`, the workspace, the
writer and the flags among them, as the first one left it. -/
theorem openStream_restart_is_idempotent
    (I : OpenCollaborators E) (c s : LbmUnionExecStream E)
    (hc : ResetContract E I) (hreach : Reachable I c s) :
    ((openStream I true s).workspace = E.wsReset s.workspace ∧
      (openStream I true s).segmentWriter = E.swReset s.segmentWriter ∧
      (openStream I true s).calls = s.calls ++ [Call.wsReset, Call.swReset] ∧
      (openStream I true s).writePending = false ∧
      (openStream I true s).producePending = false ∧
      (openStream I true s).isDone = false ∧
      E.wsIsEmpty (openStream I true s).workspace = true) ∧
    (∀ c2 : LbmUnionExecStream E,
      c2.pageSize = s.pageSize → c2.nWorkspacePages = s.nWorkspacePages →
      (openStream I true s).workspace = (openStream I false c2).workspace ∧
      (openStream I true s).segmentWriter = (openStream I false c2).segmentWriter ∧
      (openStream I true s).writePending = (openStream I false c2).writePending ∧
      (openStream I true s).producePending = (openStream I false c2).producePending ∧
      (openStream I true s).isDone = (openStream I false c2).isDone) ∧
    SameMembers (openStream I true (openStream I true s)) (openStream I true s) := by
  obtain ⟨i1, i2, i3, i4⟩ := reachable_resets hc c s hreach
  refine ⟨⟨rfl, rfl, rfl, rfl, rfl, rfl, ?_⟩, ?_, ?_⟩
  · show E.wsIsEmpty (E.wsReset s.workspace) = true
    rw [i1]
    exact hc.wsIsEmpty_init _ _ _
  · intro c2 h1 h2
    refine ⟨?_, ?_, rfl, rfl, rfl⟩
    · show E.wsReset s.workspace = I.wsInit c2.nWorkspacePages c2.pageSize _
      rw [i1, h1, h2, i3, i4]
    · show E.swReset s.segmentWriter = I.swInit _
      rw [i2, h1, i3]
  · have k1 : E.wsReset (E.wsReset s.workspace) = E.wsReset s.workspace := by
      rw [i1]; exact hc.wsReset_init _ _ _
    have k2 : E.swReset (E.swReset s.segmentWriter) = E.swReset s.segmentWriter := by
      rw [i2]; exact hc.swReset_init _
    simp [SameMembers, openStream, k1, k2]

/-- Witness of C11: after the cold open, one `execute` call on three segments
of 300 bytes with no room downstream ends with an input segment pending, a
tuple pending and a segment in the workspace; the restart clears all of
it. -/
theorem openStream_restart_is_idempotent_witness :
    ∃ s, execute 6 { nTuplesMax := 1 }
        (openStream modelOpenCollaborators false
          (modelStream [some { byteNum := 1, byteSeg := [1], len := 300 },
            some { byteNum := 302, byteSeg := [2], len := 300 },
            some { byteNum := 700, byteSeg := [3], len := 300 }] 0 0 (fun _ => 0))) =
        Outcome.ret (EXECRC_BUF_OVERFLOW, s) ∧
      s.writePending = true ∧ s.producePending = true ∧
      s.workspace = { limit := some 5599,
                      segments := [{ byteNum := 302, byteSeg := [2], len := 300 }] } ∧
      (openStream modelOpenCollaborators true s).workspace = { limit := none, segments := [] } ∧
      (openStream modelOpenCollaborators true s).segmentWriter =
        { bufferSize := 512, buffer := [] } ∧
      (openStream modelOpenCollaborators true s).writePending = false ∧
      (openStream modelOpenCollaborators true s).producePending = false ∧
      SameMembers
        (openStream modelOpenCollaborators true (openStream modelOpenCollaborators true s))
        (openStream modelOpenCollaborators true s) :=
  ⟨_, rfl, rfl, rfl, rfl, rfl, rfl, rfl, rfl,
    (openStream_restart_is_idempotent modelOpenCollaborators
      (modelStream [some { byteNum := 1, byteSeg := [1], len := 300 },
        some { byteNum := 302, byteSeg := [2], len := 300 },
        some { byteNum := 700, byteSeg := [3], len := 300 }] 0 0 (fun _ => 0)) _
      modelCollaborators_resetContract
      (Reachable.afterExecute 6 { nTuplesMax := 1 } _ _ _ Reachable.afterOpen rfl)).2.2⟩

/-- C12. On a stream that is not done, with no tuple and no input segment
pending, when the first pull of the reader reports a status other than
`EXECRC_YIELD` and `EXECRC_EOS`, `execute` (with `nTuplesMax ≥ 1`, so that it
pulls) returns that status, leaves `writePending`, `producePending`, `isDone`,
the workspace, the writer and the output accessor as they were and offers no
tuple; the stream it leaves meets the same conditions again. -/
theorem execute_upstream_not_ready_is_lossless
    (fuel : Nat) (q : ExecStreamQuantum) (s : LbmUnionExecStream E)
    (status : ExecStreamResult)
    (hfuel : 1 ≤ fuel) (hq : 1 ≤ q.nTuplesMax)
    (hdone : s.isDone = false) (hprod : s.producePending = false)
    (hwrite : s.writePending = false)
    (hstatus : (E.readSegmentAndAdvance s.segmentReader s.inputSegment).1 = status)
    (hyield : status ≠ EXECRC_YIELD) (heos : status ≠ EXECRC_EOS) :
    ∃ s1, execute fuel q s = Outcome.ret (status, s1) ∧
      s1.writePending = false ∧ s1.producePending = false ∧ s1.isDone = false ∧
      s1.workspace = s.workspace ∧ s1.segmentWriter = s.segmentWriter ∧
      s1.pOutAccessor = s.pOutAccessor ∧
      offeredTuples s1.calls = offeredTuples s.calls ∧
      readerPulls s1.calls = readerPulls s.calls + 1 := by
  obtain ⟨f, rfl⟩ : ∃ f, fuel = f + 1 := ⟨fuel - 1, by omega⟩
  obtain ⟨n, hn⟩ : ∃ n, q.nTuplesMax = n + 1 := ⟨q.nTuplesMax - 1, by omega⟩
  obtain ⟨l1, l2, l3, l4, l5, l6, l7, l8, -, -⟩ := readLimits_frame s
  obtain ⟨o1, -, o3, -⟩ := readLimits_observed s
  subst hstatus
  simp [execute, hdone, hn, forLoop, whileNotPending, readSegment, l1, l2, l3, l4, l5, l6, l7,
    l8, hprod, hwrite, heos, hyield, offeredTuples_append, offeredTuples, o1, o3,
    readerPulls_append, readerPulls]

/-- Witness of C12: upstream has no tuple ready on the first pull. -/
theorem execute_upstream_not_ready_is_lossless_witness :
    ∃ s1, execute 1 { nTuplesMax := 1 } (modelStream [none] 0 0 (fun _ => 0)) =
        Outcome.ret (EXECRC_BUF_UNDERFLOW, s1) ∧
      s1.writePending = false ∧ s1.producePending = false ∧ s1.isDone = false ∧
      s1.workspace = (modelStream [none] 0 0 (fun _ => 0)).workspace ∧
      s1.segmentWriter = (modelStream [none] 0 0 (fun _ => 0)).segmentWriter ∧
      s1.pOutAccessor = (modelStream [none] 0 0 (fun _ => 0)).pOutAccessor ∧
      offeredTuples s1.calls = offeredTuples (modelStream [none] 0 0 (fun _ => 0)).calls ∧
      readerPulls s1.calls = readerPulls (modelStream [none] 0 0 (fun _ => 0)).calls + 1 :=
  execute_upstream_not_ready_is_lossless 1 { nTuplesMax := 1 }
    (modelStream [none] 0 0 (fun _ => 0)) EXECRC_BUF_UNDERFLOW (by decide) (by decide)
    rfl rfl rfl rfl (by decide) (by decide)

/-! ## The claims on the resource requirements -/

theorem getResourceRequirements_eq (s : LbmUnionExecStream E)
    (minQuantity optQuantity : ExecStreamResourceQuantity)
    (hp1 : 1 ≤ s.pageSize) (hp : s.pageSize < UINT_WIDTH)
    (hexact : s.maxRid / 8 + 1 + s.pageSize / 2 < 2 ^ 53)
    (hfit : (s.maxRid / 8 + 1 + s.pageSize / 2 + s.pageSize - 1) / s.pageSize < UINT_WIDTH) :
    getResourceRequirements s minQuantity optQuantity = Outcome.ret
      ({ nCachePages := (minQuantity.nCachePages + 2) % UINT_WIDTH },
        { nCachePages := (optQuantity.nCachePages +
            ((s.maxRid / 8 + 1 + s.pageSize / 2 + s.pageSize - 1) / s.pageSize + 1) %
              UINT_WIDTH) % UINT_WIDTH }) := by
  have hval := computeOptWorkspacePages_eq s s.maxRid hp1 hp hexact
  rw [if_pos hfit] at hval
  simp [getResourceRequirements, hval]

/-- C13, as the code has it. `getResourceRequirements` adds 2 to the inherited
minimum and `computeOptWorkspacePages(maxRid) + 1` to the inherited optimum,
both in `uint` arithmetic. For `pageSize ≥ 1`, a byte count below `2 ^ 53` and
a page count for which the `uint` sum `computeOptWorkspacePages(maxRid) + 1`
does not wrap, the added optimum is at least 2; then, when the inherited
optimum is not below the inherited minimum and the new optimum does not wrap,
the optimum requested is not below the minimum requested. -/
theorem getResourceRequirements_adds_pages (s : LbmUnionExecStream E)
    (minQuantity optQuantity : ExecStreamResourceQuantity)
    (hp1 : 1 ≤ s.pageSize) (hp : s.pageSize < UINT_WIDTH)
    (hexact : s.maxRid / 8 + 1 + s.pageSize / 2 < 2 ^ 53)
    (hfit : (s.maxRid / 8 + 1 + s.pageSize / 2 + s.pageSize - 1) / s.pageSize + 1 <
      UINT_WIDTH) :
    computeOptWorkspacePages s s.maxRid =
      Outcome.ret ((s.maxRid / 8 + 1 + s.pageSize / 2 + s.pageSize - 1) / s.pageSize) ∧
    getResourceRequirements s minQuantity optQuantity = Outcome.ret
      ({ nCachePages := (minQuantity.nCachePages + 2) % UINT_WIDTH },
        { nCachePages := (optQuantity.nCachePages +
            ((s.maxRid / 8 + 1 + s.pageSize / 2 + s.pageSize - 1) / s.pageSize + 1)) %
              UINT_WIDTH }) ∧
    2 ≤ (s.maxRid / 8 + 1 + s.pageSize / 2 + s.pageSize - 1) / s.pageSize + 1 ∧
    (minQuantity.nCachePages ≤ optQuantity.nCachePages →
      optQuantity.nCachePages +
        ((s.maxRid / 8 + 1 + s.pageSize / 2 + s.pageSize - 1) / s.pageSize + 1) <
          UINT_WIDTH →
      (minQuantity.nCachePages + 2) % UINT_WIDTH ≤
        (optQuantity.nCachePages +
          ((s.maxRid / 8 + 1 + s.pageSize / 2 + s.pageSize - 1) / s.pageSize + 1)) %
            UINT_WIDTH) := by
  have hfit2 : (s.maxRid / 8 + 1 + s.pageSize / 2 + s.pageSize - 1) / s.pageSize <
      UINT_WIDTH := by omega
  have hval := computeOptWorkspacePages_eq s s.maxRid hp1 hp hexact
  rw [if_pos hfit2] at hval
  have hreq := getResourceRequirements_eq s minQuantity optQuantity hp1 hp hexact hfit2
  rw [Nat.mod_eq_of_lt hfit] at hreq
  have hpages : 1 ≤ (s.maxRid / 8 + 1 + s.pageSize / 2 + s.pageSize - 1) / s.pageSize := by
    rw [Nat.le_div_iff_mul_le (by omega)]
    omega
  refine ⟨hval, hreq, by omega, ?_⟩
  intro hle hsum
  rw [Nat.mod_eq_of_lt hsum, Nat.mod_eq_of_lt (by omega)]
  omega

/-- Witness of C13 as the code has it: `maxRid = 1000`, 4096-byte pages. -/
theorem getResourceRequirements_adds_pages_witness :
    getResourceRequirements (modelStreamSized 4096 1000) { nCachePages := 0 }
        { nCachePages := 0 } =
      Outcome.ret ({ nCachePages := (0 + 2) % UINT_WIDTH },
        { nCachePages := (0 + ((1000 / 8 + 1 + 4096 / 2 + 4096 - 1) / 4096 + 1)) %
            UINT_WIDTH }) :=
  (getResourceRequirements_adds_pages (modelStreamSized 4096 1000) { nCachePages := 0 }
    { nCachePages := 0 } (by decide) (by decide) (by decide) (by decide)).2.1

/-- C13 as stated fails: with 4096-byte pages and `maxRid = 140737488306168`
the optimal page count is `2 ^ 32 - 1`, the `uint` sum with 1 wraps to 0, and
from inherited quantities of 0 the stream requests an optimum of 0 pages and a
minimum of 2. -/
theorem getResourceRequirements_wraps_counterexample :
    ∃ minQuantity optQuantity,
      getResourceRequirements (modelStreamSized 4096 140737488306168) { nCachePages := 0 }
        { nCachePages := 0 } = Outcome.ret (minQuantity, optQuantity) ∧
      minQuantity.nCachePages = 2 ∧ optQuantity.nCachePages = 0 ∧
      optQuantity.nCachePages < minQuantity.nCachePages := by
  have h := getResourceRequirements_eq (modelStreamSized 4096 140737488306168)
    { nCachePages := 0 } { nCachePages := 0 } (by decide) (by decide) (by decide) (by decide)
  exact ⟨_, _, h, by decide, by decide, by decide⟩

/-- C18. For an even `pageSize ≥ 2` and a Rid limit within the unsigned 32-bit
range, both sizing functions return, and the Rid limit computed for the
optimal page count of `maxRid` is greater than `maxRid`. -/
theorem computeRidLimit_of_opt_pages_covers_maxRid (s : LbmUnionExecStream E) (maxRid : Nat)
    (hp2 : 2 ≤ s.pageSize) (heven : s.pageSize % 2 = 0)
    (hrange : (2 * ((maxRid / 8 + 1 + s.pageSize / 2 + s.pageSize - 1) / s.pageSize) - 1) *
      s.pageSize * 4 < UINT_WIDTH) :
    ∃ pages limit, computeOptWorkspacePages s maxRid = Outcome.ret pages ∧
      computeRidLimit s pages = Outcome.ret limit ∧ maxRid < limit := by
  have hpos : 0 < s.pageSize := by omega
  have hW : UINT_WIDTH = 4294967296 := by decide
  generalize hP : (maxRid / 8 + 1 + s.pageSize / 2 + s.pageSize - 1) / s.pageSize = P
    at hrange
  -- `P` is the least page count whose bytes hold `maxRid / 8 + 1 + pageSize / 2`
  have hge : maxRid / 8 + 1 + s.pageSize / 2 ≤ P * s.pageSize := by
    have h1 : maxRid / 8 + 1 + s.pageSize / 2 + s.pageSize - 1 < (P + 1) * s.pageSize := by
      rw [← hP]
      exact (Nat.div_lt_iff_lt_mul hpos).mp (Nat.lt_succ_self _)
    have h3 : (P + 1) * s.pageSize = P * s.pageSize + s.pageSize := by ring
    omega
  have hP1 : 1 ≤ P := by
    rcases Nat.eq_zero_or_pos P with h0 | h0
    · rw [h0] at hge; omega
    · exact h0
  -- sizes
  have hk : (2 * P - 1) * s.pageSize = 2 * (P * s.pageSize) - s.pageSize := by
    rw [Nat.sub_mul, Nat.mul_assoc, Nat.one_mul]
  have hPp : s.pageSize ≤ P * s.pageSize := Nat.le_mul_of_pos_left _ hP1
  have hp : s.pageSize < UINT_WIDTH := by omega
  have hPW : P < UINT_WIDTH := by
    have : P ≤ P * s.pageSize := Nat.le_mul_of_pos_right _ hpos
    omega
  have hexact : maxRid / 8 + 1 + s.pageSize / 2 < 2 ^ 53 := by omega
  have hval := computeOptWorkspacePages_eq s maxRid (by omega) hp hexact
  rw [hP, if_pos hPW] at hval
  have hlim := computeRidLimit_eq s P hP1 hPW hp (by omega)
  have hlt : (2 * P - 1) * s.pageSize / 2 < UINT_WIDTH := by omega
  rw [if_pos hlt] at hlim
  refine ⟨P, _, hval, hlim, ?_⟩
  have hmod : (2 * P - 1) * s.pageSize / 2 * LbmOneByteSize % UINT_WIDTH =
      (2 * P - 1) * s.pageSize / 2 * 8 := by
    unfold LbmOneByteSize
    apply Nat.mod_eq_of_lt
    omega
  rw [hmod]
  omega

/-- Witness of C18: `maxRid = 1000`, 4096-byte pages. -/
theorem computeRidLimit_of_opt_pages_covers_maxRid_witness :
    ∃ pages limit, computeOptWorkspacePages (modelStreamSized 4096 1000) 1000 =
        Outcome.ret pages ∧
      computeRidLimit (modelStreamSized 4096 1000) pages = Outcome.ret limit ∧ 1000 < limit :=
  computeRidLimit_of_opt_pages_covers_maxRid (modelStreamSized 4096 1000) 1000 (by decide)
    (by decide) (by decide)

/-! ## The claims on the production limit and on `transfer` -/

/-- C14, evaluated. The reader yields two segments that both start at Rid 0
and then reports end of stream. Both times `writeSegment` passes
`0 - 1 = 2 ^ 64 - 1` to `setProductionLimit`, a bound above the start Rid 0 of
the segment about to be merged, and during the second `writeSegment` the first
segment, which covers Rid 0, is moved to the writer before the second one is
merged. -/
theorem writeSegment_limit_wraps_at_rid_zero :
    ∃ s1, execute 4 { nTuplesMax := 1 }
        (modelStream [some { byteNum := 0, byteSeg := [1], len := 1 },
          some { byteNum := 0, byteSeg := [2], len := 1 }] 1 0 (fun _ => 0)) =
        Outcome.ret (EXECRC_QUANTUM_EXPIRED, s1) ∧
      productionLimits s1.calls = [2 ^ 64 - 1, 2 ^ 64 - 1] ∧
      ¬ (2 ^ 64 - 1 ≤ 0) ∧
      s1.calls.take 14 =
        [Call.readSegmentAndAdvance EXECRC_YIELD { byteNum := 0, byteSeg := [1], len := 1 },
          Call.readerGetSrid,
          Call.wsSetProductionLimit 18446744073709551615,
          Call.wsCanProduce,
          Call.wsAddSegment { byteNum := 0, byteSeg := [1], len := 1 } true,
          Call.readSegmentAndAdvance EXECRC_YIELD { byteNum := 0, byteSeg := [2], len := 1 },
          Call.readerGetSrid,
          Call.wsSetProductionLimit 18446744073709551615,
          Call.wsCanProduce,
          Call.wsGetSegment,
          Call.swAddSegment { byteNum := 0, byteSeg := [1], len := 1 } true,
          Call.wsAdvancePastSegment { byteNum := 0, byteSeg := [1], len := 1 },
          Call.wsCanProduce,
          Call.wsAddSegment { byteNum := 0, byteSeg := [2], len := 1 } true] ∧
      limitRemovals (s1.calls.take 14) = 0 :=
  ⟨_, rfl, rfl, by decide, rfl, rfl⟩

theorem transfer_moves (fuel : Nat) : ∀ (s s1 : LbmUnionExecStream E) (b : Bool),
    transfer fuel s = Outcome.ret (b, s1) →
    ∃ k, movedSegments s1.calls = movedSegments s.calls ++ offeredSegments E k s.workspace ∧
      writtenSegments s1.calls = writtenSegments s.calls ++ offeredSegments E k s.workspace ∧
      s1.workspace = advancedPast E k s.workspace ∧
      (refusedSegments s1.calls = refusedSegments s.calls ∨
        (b = false ∧ E.wsCanProduce s1.workspace = true ∧
          refusedSegments s1.calls =
            refusedSegments s.calls ++ [E.wsGetSegment s1.workspace])) ∧
      (s.isSegmentLimitSet = true → s.segmentsRemaining < UINT_WIDTH →
        s1.segmentsRemaining + k = s.segmentsRemaining) ∧
      (s.isSegmentLimitSet = false → s1.segmentsRemaining = s.segmentsRemaining) := by
  induction fuel with
  | zero => intro s s1 b h; simp [transfer] at h
  | succ fuel ih =>
    intro s s1 b h
    unfold transfer at h
    simp only [log] at h
    split at h
    · rename_i hcan
      split at h
      · simp only [Outcome.ret.injEq, Prod.mk.injEq] at h
        obtain ⟨-, rfl⟩ := h
        refine ⟨0, ?_⟩
        simp [offeredSegments, advancedPast, movedSegments_append, writtenSegments_append,
          refusedSegments_append, movedSegments, writtenSegments, refusedSegments,
          isSegmentLimitSet]
      · split at h
        · rename_i hlim hacc
          simp only [Outcome.ret.injEq, Prod.mk.injEq] at h
          obtain ⟨rfl, rfl⟩ := h
          refine ⟨0, ?_⟩
          simp only [Bool.not_eq_true', ] at hacc
          simp [offeredSegments, advancedPast, movedSegments_append, writtenSegments_append,
            refusedSegments_append, movedSegments, writtenSegments, refusedSegments,
            isSegmentLimitSet, hacc]
          exact hcan
        · rename_i hlim hacc
          simp only [Bool.not_eq_true', Bool.not_eq_false] at hacc
          obtain ⟨k, m1, m2, m3, m4, m5, m6⟩ := ih _ _ _ h
          refine ⟨k + 1, ?_, ?_, ?_, ?_, ?_, ?_⟩
          · rw [m1]
            by_cases hl : s.segmentLimitParamId > 0 <;>
              simp [offeredSegments, movedSegments_append, movedSegments, isSegmentLimitSet, hl]
          · rw [m2]
            by_cases hl : s.segmentLimitParamId > 0 <;>
              simp [offeredSegments, writtenSegments_append, writtenSegments,
                isSegmentLimitSet, hl, hacc]
          · rw [m3]
            by_cases hl : s.segmentLimitParamId > 0 <;>
              simp [advancedPast, isSegmentLimitSet, hl]
          · by_cases hl : s.segmentLimitParamId > 0 <;>
              simpa [refusedSegments_append, refusedSegments, isSegmentLimitSet, hl, hacc]
                using m4
          · intro hs hr
            have hl : s.segmentLimitParamId > 0 := by simpa [isSegmentLimitSet] using hs
            simp only [isSegmentLimitSet, Bool.and_eq_true, decide_eq_true_eq, beq_iff_eq,
              not_and] at hlim
            have h0 := hlim hl
            have hstep : (s.segmentsRemaining + UINT_WIDTH - 1) % UINT_WIDTH =
                s.segmentsRemaining - 1 := by
              have : s.segmentsRemaining + UINT_WIDTH - 1 =
                  s.segmentsRemaining - 1 + UINT_WIDTH := by omega
              rw [this, Nat.add_mod_right, Nat.mod_eq_of_lt (by omega)]
            have := m5 (by simp [isSegmentLimitSet, hl])
              (by simp [isSegmentLimitSet, hl, hstep]; omega)
            simp [isSegmentLimitSet, hl, hstep] at this
            omega
          · intro hs
            have hl : ¬ s.segmentLimitParamId > 0 := by simpa [isSegmentLimitSet] using hs
            have := m6 (by simp [isSegmentLimitSet, hl])
            simpa [isSegmentLimitSet, hl] using this
    · simp only [Outcome.ret.injEq, Prod.mk.injEq] at h
      obtain ⟨-, rfl⟩ := h
      refine ⟨0, ?_⟩
      simp [offeredSegments, advancedPast, movedSegments_append, writtenSegments_append,
        refusedSegments_append, movedSegments, writtenSegments, refusedSegments,
        isSegmentLimitSet]

/-- C15. A `transfer` that returns has moved the first `k` segments the
workspace offered, for some `k`: the segments passed to `advancePastSegment`
and the segments the writer accepted are those `k` segments, in the order the
workspace offered them, and the workspace is `k` segments further. The writer
refused at most one segment; if it refused one, `transfer` returned false and
that segment is still the workspace's next drainable segment. With a segment
limit set, `segmentsRemaining` went down by `k`, the number of segments moved,
and by nothing for a refused segment. -/
theorem transfer_moves_each_segment_once (fuel : Nat) (s s1 : LbmUnionExecStream E)
    (b : Bool) (hret : transfer fuel s = Outcome.ret (b, s1)) :
    ∃ k, movedSegments s1.calls = movedSegments s.calls ++ offeredSegments E k s.workspace ∧
      writtenSegments s1.calls = writtenSegments s.calls ++ offeredSegments E k s.workspace ∧
      s1.workspace = advancedPast E k s.workspace ∧
      (refusedSegments s1.calls = refusedSegments s.calls ∨
        (b = false ∧ E.wsCanProduce s1.workspace = true ∧
          refusedSegments s1.calls =
            refusedSegments s.calls ++ [E.wsGetSegment s1.workspace])) ∧
      (s.isSegmentLimitSet = true → s.segmentsRemaining < UINT_WIDTH →
        s1.segmentsRemaining + k = s.segmentsRemaining) ∧
      (s.isSegmentLimitSet = false → s1.segmentsRemaining = s.segmentsRemaining) :=
  transfer_moves fuel s s1 b hret

/-- Witness of C15: two drainable segments of 300 bytes and a writer with room
for 512 bytes; the second segment is refused. -/
theorem transfer_moves_each_segment_once_witness :
    ∃ s1 k, transfer 3
        (modelStreamHolding [{ byteNum := 0, byteSeg := [1], len := 300 },
          { byteNum := 300, byteSeg := [2], len := 300 }] 0 0 (fun _ => 0)) =
        Outcome.ret (false, s1) ∧
      refusedSegments s1.calls = [{ byteNum := 300, byteSeg := [2], len := 300 }] ∧
      movedSegments s1.calls =
          movedSegments (modelStreamHolding [{ byteNum := 0, byteSeg := [1], len := 300 },
            { byteNum := 300, byteSeg := [2], len := 300 }] 0 0 (fun _ => 0)).calls ++
          offeredSegments modelCollaborators k
            (modelStreamHolding [{ byteNum := 0, byteSeg := [1], len := 300 },
              { byteNum := 300, byteSeg := [2], len := 300 }] 0 0 (fun _ => 0)).workspace := by
  have h := transfer_moves_each_segment_once 3
      (modelStreamHolding [{ byteNum := 0, byteSeg := [1], len := 300 },
        { byteNum := 300, byteSeg := [2], len := 300 }] 0 0 (fun _ => 0)) _ false rfl
  obtain ⟨k, h1, -⟩ := h
  exact ⟨_, k, rfl, rfl, h1⟩

/-! ## The pending input segment and the done state -/

theorem sameInput_trans {a b c : LbmUnionExecStream E} (h1 : SameInput a b)
    (h2 : SameInput b c) : SameInput a c := by
  obtain ⟨a1, a2, a3, a4, a5, a6, a7⟩ := h1
  obtain ⟨b1, b2, b3, b4, b5, b6, b7⟩ := h2
  exact ⟨by rw [b1, a1], by rw [b2, a2], by rw [b3, a3], by rw [b4, a4], by rw [b5, a5],
    by rw [b6, a6], by rw [b7, a7]⟩

theorem transfer_sameInput (fuel : Nat) : ∀ (s s1 : LbmUnionExecStream E) (b : Bool),
    transfer fuel s = Outcome.ret (b, s1) → SameInput s s1 := by
  induction fuel with
  | zero => intro s s1 b h; simp [transfer] at h
  | succ fuel ih =>
    intro s s1 b h
    unfold transfer at h
    simp only [log] at h
    split at h
    · split at h
      · simp only [Outcome.ret.injEq, Prod.mk.injEq] at h
        obtain ⟨-, rfl⟩ := h
        simp [SameInput, pulledSegments_append, addedSegments_append, pulledSegments,
          addedSegments]
      · split at h
        · simp only [Outcome.ret.injEq, Prod.mk.injEq] at h
          obtain ⟨-, rfl⟩ := h
          simp [SameInput, pulledSegments_append, addedSegments_append, pulledSegments,
            addedSegments]
        · refine sameInput_trans ?_ (ih _ _ _ h)
          by_cases hl : s.segmentLimitParamId > 0 <;>
            simp [SameInput, pulledSegments_append, addedSegments_append, pulledSegments,
              addedSegments, isSegmentLimitSet, hl]
    · simp only [Outcome.ret.injEq, Prod.mk.injEq] at h
      obtain ⟨-, rfl⟩ := h
      simp [SameInput, pulledSegments_append, addedSegments_append, pulledSegments,
        addedSegments]

theorem transferLast_sameInput (fuel : Nat) (s s1 : LbmUnionExecStream E)
    (h : transferLast fuel s = Outcome.ret s1) : SameInput s s1 := by
  unfold transferLast at h
  dsimp only at h
  split at h
  · rename_i r hr
    simp only [Outcome.ret.injEq] at h
    subst h
    refine sameInput_trans ?_ (transfer_sameInput fuel _ r.2 r.1 hr)
    simp [SameInput, pulledSegments_append, addedSegments_append, pulledSegments,
      addedSegments]
  all_goals simp at h

/-- What `writeSegment` does to the pending input segment. -/
theorem writeSegment_pending (fuel : Nat) (s s1 : LbmUnionExecStream E) (b : Bool)
    (h : writeSegment fuel s = Outcome.ret (b, s1)) :
    s1.writePending = !b ∧ s1.producePending = s.producePending ∧ s1.isDone = s.isDone ∧
    s1.inputSegment = s.inputSegment ∧ s1.segmentReader = s.segmentReader ∧
    pulledSegments s1.calls = pulledSegments s.calls ∧
    addedSegments s1.calls =
      addedSegments s.calls ++ (if b then [s.inputSegment] else []) ∧
    (b = true → ∃ cs, s1.calls = cs ++ [Call.wsAddSegment s.inputSegment true]) := by
  unfold writeSegment at h
  dsimp only at h
  split at h
  · rename_i s3 hr
    simp only [Outcome.ret.injEq, Prod.mk.injEq] at h
    obtain ⟨rfl, rfl⟩ := h
    have hsi : SameInput ({ s with writePending := true } : LbmUnionExecStream E) s3 := by
      refine sameInput_trans ?_ (transfer_sameInput fuel _ _ _ hr)
      by_cases hc : s.startRidParamId > 0 <;>
        simp [SameInput, isConsumerSridSet, hc, pulledSegments_append, addedSegments_append,
          pulledSegments, addedSegments]
    obtain ⟨t1, t2, t3, t4, t5, t6, t7⟩ := hsi
    simp only at t1 t2 t3 t4 t5 t6 t7
    simp [t1, t2, t3, t4, t5, t6, t7]
  · rename_i s3 hr
    have hsi : SameInput ({ s with writePending := true } : LbmUnionExecStream E) s3 := by
      refine sameInput_trans ?_ (transfer_sameInput fuel _ _ _ hr)
      by_cases hc : s.startRidParamId > 0 <;>
        simp [SameInput, isConsumerSridSet, hc, pulledSegments_append, addedSegments_append,
          pulledSegments, addedSegments]
    obtain ⟨t1, t2, t3, t4, t5, t6, t7⟩ := hsi
    simp only at t1 t2 t3 t4 t5 t6 t7
    split at h
    · rename_i hadd
      simp only [Outcome.ret.injEq, Prod.mk.injEq] at h
      obtain ⟨rfl, rfl⟩ := h
      rw [t4] at hadd
      refine ⟨rfl, t2, t3, t4, t5, ?_, ?_, fun _ => ⟨s3.calls, ?_⟩⟩
      · simp [pulledSegments_append, pulledSegments, t6]
      · simp [addedSegments_append, addedSegments, t7, t4, hadd]
      · simp [t4, hadd]
    · simp at h
  all_goals simp at h

theorem produceTuple_sameInput (s s2 : LbmUnionExecStream E) (ok : Bool)
    (h : produceTuple s = Outcome.ret (ok, s2)) :
    s2.writePending = s.writePending ∧ s2.isDone = s.isDone ∧
    s2.inputSegment = s.inputSegment ∧ s2.workspace = s.workspace ∧
    pulledSegments s2.calls = pulledSegments s.calls ∧
    addedSegments s2.calls = addedSegments s.calls ∧
    (ok = false → s2.producePending = true) := by
  unfold produceTuple at h
  dsimp only at h
  split at h
  · rename_i hp
    split at h
    · simp only [Outcome.ret.injEq, Prod.mk.injEq] at h
      obtain ⟨rfl, rfl⟩ := h
      simp [pulledSegments_append, addedSegments_append, pulledSegments, addedSegments]
    · simp only [Outcome.ret.injEq, Prod.mk.injEq] at h
      obtain ⟨rfl, rfl⟩ := h
      simp [pulledSegments_append, addedSegments_append, pulledSegments, addedSegments, hp]
  · simp at h

/-- What `readSegment` does to the pending input segment. -/
theorem readSegment_pending (s : LbmUnionExecStream E) :
    (s.writePending = true → s.readSegment = (EXECRC_YIELD, s)) ∧
    (s.writePending = false →
      s.readSegment.1 = (E.readSegmentAndAdvance s.segmentReader s.inputSegment).1 ∧
      (s.readSegment.2.writePending = true ↔
        (E.readSegmentAndAdvance s.segmentReader s.inputSegment).1 = EXECRC_YIELD) ∧
      s.readSegment.2.calls = s.calls ++
        [Call.readSegmentAndAdvance (E.readSegmentAndAdvance s.segmentReader s.inputSegment).1
          (E.readSegmentAndAdvance s.segmentReader s.inputSegment).2.1] ∧
      s.readSegment.2.inputSegment =
        (E.readSegmentAndAdvance s.segmentReader s.inputSegment).2.1) ∧
    s.readSegment.2.isDone = s.isDone ∧ s.readSegment.2.producePending = s.producePending ∧
    s.readSegment.2.workspace = s.workspace ∧
    (s.readSegment.2.writePending = true ↔ s.readSegment.1 = EXECRC_YIELD) ∧
    (NoSegmentDropped s → NoSegmentDropped s.readSegment.2) := by
  unfold readSegment NoSegmentDropped
  by_cases hw : s.writePending = true
  · simp [hw]
  · simp only [Bool.not_eq_true] at hw
    by_cases hy : (E.readSegmentAndAdvance s.segmentReader s.inputSegment).1 = EXECRC_YIELD
    · simp [hw, hy, pulledSegments_append, addedSegments_append, pulledSegments,
        addedSegments]
    · simp [hw, hy, pulledSegments_append, addedSegments_append, pulledSegments,
        addedSegments]

theorem noSegmentDropped_of_sameInput {a b : LbmUnionExecStream E} (h : SameInput a b)
    (ha : NoSegmentDropped a) : NoSegmentDropped b := by
  obtain ⟨h1, -, -, h4, -, h6, h7⟩ := h
  unfold NoSegmentDropped at ha ⊢
  rw [h1, h4, h6, h7]
  exact ha

theorem readLimits_sameInput (s : LbmUnionExecStream E) : SameInput s s.readLimits := by
  unfold readLimits isConsumerSridSet isSegmentLimitSet
  by_cases h1 : s.startRidParamId > 0 <;> by_cases h2 : s.segmentLimitParamId > 0 <;>
    simp [h1, h2, SameInput, pulledSegments_append, addedSegments_append, pulledSegments,
      addedSegments]

/-- The state in which the loop of `execute` sets `isDone`. -/
theorem whileNotPending_pending (fuel : Nat) :
    ∀ (s s1 : LbmUnionExecStream E) (r : Option ExecStreamResult),
      whileNotPending fuel s = Outcome.ret (r, s1) → s.isDone = false →
      (NoSegmentDropped s → NoSegmentDropped s1) ∧
      (r = none → s1.producePending = true ∧ s1.isDone = false) ∧
      (∀ st, r = some st → s1.isDone = false ∨
        (st = EXECRC_BUF_OVERFLOW ∧ s1.isDone = true ∧ s1.writePending = false ∧
          s1.producePending = false ∧ E.wsIsEmpty s1.workspace = true)) := by
  induction fuel with
  | zero => intro s s1 r h; simp [whileNotPending] at h
  | succ fuel ih =>
    intro s s1 r h hd
    obtain ⟨-, -, q3, q4, q5, q6, q7⟩ := readSegment_pending s
    unfold whileNotPending at h
    dsimp only at h
    split at h
    · rename_i hp
      simp only [Outcome.ret.injEq, Prod.mk.injEq] at h
      obtain ⟨rfl, rfl⟩ := h
      exact ⟨fun hn => hn, fun _ => ⟨hp, hd⟩, by simp⟩
    · rename_i hp
      simp only [Bool.not_eq_true] at hp
      split at h
      · rename_i heos
        have hwp : s.readSegment.2.writePending = false := by
          cases hw : s.readSegment.2.writePending
          · rfl
          · rw [q6.mp hw] at heos; cases heos
        split at h
        · split at h
          · rename_i s2 hr
            simp only [Outcome.ret.injEq, Prod.mk.injEq] at h
            obtain ⟨rfl, rfl⟩ := h
            have hsi := transferLast_sameInput _ _ _ hr
            refine ⟨?_, ?_, by simp⟩
            · intro hn
              have hn2 : NoSegmentDropped (s.readSegment.2.log Call.wsIsEmpty) := by
                have := q7 hn
                simpa [NoSegmentDropped, log, pulledSegments_append, addedSegments_append,
                  pulledSegments, addedSegments] using this
              have hn3 := noSegmentDropped_of_sameInput hsi hn2
              simpa [NoSegmentDropped] using hn3
            · intro _
              obtain ⟨-, -, t3, -⟩ := hsi
              refine ⟨rfl, ?_⟩
              simp only [log] at t3
              simp [t3, q3, hd]
          all_goals simp at h
        · rename_i hempty
          simp only [Outcome.ret.injEq, Prod.mk.injEq] at h
          obtain ⟨rfl, rfl⟩ := h
          refine ⟨?_, by simp, ?_⟩
          · intro hn
            have := q7 hn
            simpa [NoSegmentDropped, log, pulledSegments_append, addedSegments_append,
              pulledSegments, addedSegments] using this
          · intro st hst
            simp only [Option.some.injEq] at hst
            subst hst
            right
            simp only [log, Bool.not_eq_true, Bool.not_eq_false] at hempty ⊢
            simp [hwp, q4, hp]
            simpa using hempty
      · rename_i heos
        split at h
        · simp only [Outcome.ret.injEq, Prod.mk.injEq] at h
          obtain ⟨rfl, rfl⟩ := h
          refine ⟨q7, by simp, ?_⟩
          intro st _
          left
          rw [q3, hd]
        · rename_i hy
          simp only [ne_eq, Decidable.not_not] at hy
          have hwp : s.readSegment.2.writePending = true := q6.mpr hy
          split at h
          · rename_i s2 hr
            obtain ⟨w1, w2, w3, w4, w5, w6, w7, -⟩ := writeSegment_pending _ _ _ _ hr
            obtain ⟨i1, i2, i3⟩ := ih _ _ _ h (by simp [w3, q3, hd])
            refine ⟨fun hn => i1 ?_, i2, i3⟩
            have hn1 := q7 hn
            unfold NoSegmentDropped at hn1 ⊢
            simp only [Bool.not_false] at w1
            simp only [Bool.false_eq_true, if_false, List.append_nil] at w7
            simp only [w1, w4, w6, w7, if_true]
            simpa [hwp] using hn1
          · rename_i s2 hr
            obtain ⟨w1, w2, w3, w4, w5, w6, w7, -⟩ := writeSegment_pending _ _ _ _ hr
            obtain ⟨i1, i2, i3⟩ := ih _ _ _ h (by simp [w3, q3, hd])
            refine ⟨fun hn => i1 ?_, i2, i3⟩
            have hn1 := q7 hn
            unfold NoSegmentDropped at hn1 ⊢
            simp only [Bool.not_true] at w1
            simp only [if_true] at w7
            simp only [w1, w6, w7, Bool.false_eq_true, if_false, List.append_nil]
            simpa [hwp] using hn1
          all_goals simp at h

theorem forLoop_pending (fuel : Nat) (n : Nat) :
    ∀ (s s1 : LbmUnionExecStream E) (rc : ExecStreamResult),
      forLoop fuel n s = Outcome.ret (rc, s1) → s.isDone = false →
      (NoSegmentDropped s → NoSegmentDropped s1) ∧
      (s1.isDone = false ∨
        (rc = EXECRC_BUF_OVERFLOW ∧ s1.isDone = true ∧ s1.writePending = false ∧
          s1.producePending = false ∧ E.wsIsEmpty s1.workspace = true)) := by
  induction n with
  | zero =>
    intro s s1 rc h hd
    simp only [forLoop, Outcome.ret.injEq, Prod.mk.injEq] at h
    obtain ⟨rfl, rfl⟩ := h
    exact ⟨fun hn => hn, Or.inl hd⟩
  | succ n ih =>
    intro s s1 rc h hd
    unfold forLoop at h
    split at h
    · rename_i st s2 hw
      simp only [Outcome.ret.injEq, Prod.mk.injEq] at h
      obtain ⟨rfl, rfl⟩ := h
      obtain ⟨p1, -, p3⟩ := whileNotPending_pending fuel _ _ _ hw hd
      exact ⟨p1, p3 _ rfl⟩
    · rename_i s2 hw
      obtain ⟨p1, p2, -⟩ := whileNotPending_pending fuel _ _ _ hw hd
      obtain ⟨-, p4⟩ := p2 rfl
      split at h
      · rename_i s3 hp
        simp only [Outcome.ret.injEq, Prod.mk.injEq] at h
        obtain ⟨rfl, rfl⟩ := h
        obtain ⟨x1, x2, x3, -, x5, x6, -⟩ := produceTuple_sameInput _ _ _ hp
        refine ⟨fun hn => ?_, Or.inl (by rw [x2, p4])⟩
        have p1 := p1 hn
        unfold NoSegmentDropped at p1 ⊢
        rw [x1, x3, x5, x6]
        exact p1
      · rename_i s3 hp
        obtain ⟨x1, x2, x3, -, x5, x6, -⟩ := produceTuple_sameInput _ _ _ hp
        obtain ⟨i1, i2⟩ := ih _ _ _ h (by simp [x2, p4])
        refine ⟨fun hn => i1 ?_, i2⟩
        have p1 := p1 hn
        unfold NoSegmentDropped at p1 ⊢
        simp only [x1, x3, x5, x6]
        exact p1
      all_goals simp at h
    all_goals simp at h

theorem execute_pending (fuel : Nat) (q : ExecStreamQuantum) (s s1 : LbmUnionExecStream E)
    (rc : ExecStreamResult) (h : execute fuel q s = Outcome.ret (rc, s1)) :
    (NoSegmentDropped s → NoSegmentDropped s1) ∧
    (DoneInvariant s → DoneInvariant s1) ∧
    (s.isDone = false → s1.isDone = true →
      rc = EXECRC_BUF_OVERFLOW ∧ s1.writePending = false ∧ s1.producePending = false ∧
        E.wsIsEmpty s1.workspace = true) := by
  by_cases hd : s.isDone = true
  · simp only [execute, hd, if_true, Outcome.ret.injEq, Prod.mk.injEq] at h
    obtain ⟨rfl, rfl⟩ := h
    refine ⟨?_, ?_, by simp [hd]⟩
    · intro hn
      simpa [NoSegmentDropped, pulledSegments_append, addedSegments_append, pulledSegments,
        addedSegments] using hn
    · intro hi
      have := hi hd
      simpa [DoneInvariant] using this
  · simp only [Bool.not_eq_true] at hd
    have hloop : forLoop fuel q.nTuplesMax s.readLimits = Outcome.ret (rc, s1) := by
      simpa [execute, hd] using h
    have hsi := readLimits_sameInput s
    obtain ⟨p1, p2⟩ := forLoop_pending fuel q.nTuplesMax _ _ _ hloop (by rw [hsi.2.2.1, hd])
    refine ⟨fun hn => p1 (noSegmentDropped_of_sameInput hsi hn), ?_, ?_⟩
    · intro _ hd1
      rcases p2 with p | ⟨-, -, p3, p4, -⟩
      · rw [p] at hd1; cases hd1
      · exact ⟨p3, p4⟩
    · intro _ hd1
      rcases p2 with p | ⟨p1, -, p3, p4, p5⟩
      · rw [p] at hd1; cases hd1
      · exact ⟨p1, p3, p4, p5⟩

theorem executeAll_pending (fuel : Nat) (qs : List ExecStreamQuantum) :
    ∀ (s s1 : LbmUnionExecStream E) (rcs : List ExecStreamResult),
      executeAll fuel qs s = Outcome.ret (rcs, s1) →
      (NoSegmentDropped s → NoSegmentDropped s1) ∧ (DoneInvariant s → DoneInvariant s1) := by
  induction qs with
  | nil =>
    intro s s1 rcs h
    simp only [executeAll, Outcome.ret.injEq, Prod.mk.injEq] at h
    obtain ⟨-, rfl⟩ := h
    exact ⟨fun h => h, fun h => h⟩
  | cons q qs ih =>
    intro s s1 rcs h
    unfold executeAll at h
    split at h
    · rename_i rc s2 he
      obtain ⟨e1, e2, -⟩ := execute_pending fuel q _ _ _ he
      split at h
      · rename_i rcs2 s3 ha
        simp only [Outcome.ret.injEq, Prod.mk.injEq] at h
        obtain ⟨-, rfl⟩ := h
        obtain ⟨a1, a2⟩ := ih _ _ _ ha
        exact ⟨fun hn => a1 (e1 hn), fun hi => a2 (e2 hi)⟩
      all_goals simp at h
    all_goals simp at h

/-- The build with assertions compiled in drops no input segment.
`readSegment` on a stream with `writePending` set returns `EXECRC_YIELD` and
leaves the stream, its reader and `inputSegment` included, as it is; otherwise
it pulls the reader once and sets `writePending` exactly when the reader
yields a segment. `writeSegment` clears `writePending` exactly when it returns
true, and then its last call was `workspace.addSegment(inputSegment)`, the
argument of its second `assert`; `transfer` and `produceTuple` leave
`writePending` and `inputSegment` alone. So over every run of `execute` calls
that starts with every pulled segment merged, but for one pending in
`inputSegment`, the same holds at the end: the segments pulled are, in order,
the segments merged, followed by the pending one if there is one. -/
theorem execute_with_assertions_drops_no_input_segment (fuel : Nat) (qs : List ExecStreamQuantum)
    (s s1 : LbmUnionExecStream E) (rcs : List ExecStreamResult)
    (hinv : NoSegmentDropped s)
    (hret : executeAll fuel qs s = Outcome.ret (rcs, s1)) :
    NoSegmentDropped s1 ∧
    (∀ t : LbmUnionExecStream E,
      (t.writePending = true → t.readSegment = (EXECRC_YIELD, t)) ∧
      (t.writePending = false →
        (t.readSegment.2.writePending = true ↔
          (E.readSegmentAndAdvance t.segmentReader t.inputSegment).1 = EXECRC_YIELD) ∧
        t.readSegment.2.calls = t.calls ++
          [Call.readSegmentAndAdvance
            (E.readSegmentAndAdvance t.segmentReader t.inputSegment).1
            (E.readSegmentAndAdvance t.segmentReader t.inputSegment).2.1])) ∧
    (∀ (fuel2 : Nat) (t t1 : LbmUnionExecStream E) (b : Bool),
      writeSegment fuel2 t = Outcome.ret (b, t1) →
      t1.writePending = !b ∧ t1.inputSegment = t.inputSegment ∧
      (b = true → ∃ cs, t1.calls = cs ++ [Call.wsAddSegment t.inputSegment true])) ∧
    (∀ (fuel2 : Nat) (t t1 : LbmUnionExecStream E) (b : Bool),
      transfer fuel2 t = Outcome.ret (b, t1) →
      t1.writePending = t.writePending ∧ t1.inputSegment = t.inputSegment) ∧
    (∀ (t t1 : LbmUnionExecStream E) (ok : Bool),
      produceTuple t = Outcome.ret (ok, t1) →
      t1.writePending = t.writePending ∧ t1.inputSegment = t.inputSegment) := by
  refine ⟨(executeAll_pending fuel qs s s1 rcs hret).1 hinv, ?_, ?_, ?_, ?_⟩
  · intro t
    obtain ⟨q1, q2, -⟩ := readSegment_pending t
    exact ⟨q1, fun hw => ⟨(q2 hw).2.1, (q2 hw).2.2.1⟩⟩
  · intro fuel2 t t1 b h
    obtain ⟨w1, -, -, w4, -, -, -, w8⟩ := writeSegment_pending fuel2 t t1 b h
    exact ⟨w1, w4, w8⟩
  · intro fuel2 t t1 b h
    obtain ⟨t1', -, -, t4, -⟩ := transfer_sameInput fuel2 t t1 b h
    exact ⟨t1', t4⟩
  · intro t t1 ok h
    obtain ⟨x1, -, x3, -⟩ := produceTuple_sameInput t t1 ok h
    exact ⟨x1, x3⟩

/-- An instance of the invariant in the build with assertions: two segments
pulled and merged in two `execute` calls. -/
theorem execute_with_assertions_drops_no_input_segment_witness :
    ∃ rcs s1, executeAll 4 [{ nTuplesMax := 1 }, { nTuplesMax := 1 }]
        (modelStream [some { byteNum := 0, byteSeg := [1], len := 1 },
          some { byteNum := 8, byteSeg := [2], len := 1 }] 5 0 (fun _ => 0)) =
        Outcome.ret (rcs, s1) ∧
      NoSegmentDropped s1 ∧
      pulledSegments s1.calls = [{ byteNum := 0, byteSeg := [1], len := 1 },
        { byteNum := 8, byteSeg := [2], len := 1 }] :=
  ⟨_, _, rfl,
    (execute_with_assertions_drops_no_input_segment 4 [{ nTuplesMax := 1 }, { nTuplesMax := 1 }]
      (modelStream [some { byteNum := 0, byteSeg := [1], len := 1 },
        some { byteNum := 8, byteSeg := [2], len := 1 }] 5 0 (fun _ => 0)) _ _ rfl rfl).1,
    rfl⟩

/-- C16, evaluated in both builds. The reader yields one segment and then
reports end of stream, and `execute(nTuplesMax = 1)` runs on a freshly opened
stream. With assertions compiled in, the segment pulled is merged into the
workspace and offered downstream. Compiled with `NDEBUG`, where
`assert(workspace.addSegment(inputSegment))` is an empty statement,
`writeSegment` clears `writePending` without the merge: the segment was
pulled, nothing was added to the workspace and nothing is pending, so the next
pull's end of stream finds the workspace empty, no tuple is offered and the
stream is done. -/
theorem writeSegment_ndebug_drops_input_segment :
    (∃ s1, execute 4 { nTuplesMax := 1 }
        (modelStream [some { byteNum := 1, byteSeg := [1], len := 1 }] 1 0 (fun _ => 0)) =
        Outcome.ret (EXECRC_QUANTUM_EXPIRED, s1) ∧
      pulledSegments s1.calls = [{ byteNum := 1, byteSeg := [1], len := 1 }] ∧
      addedSegments s1.calls = [{ byteNum := 1, byteSeg := [1], len := 1 }] ∧
      offeredTuples s1.calls = [[(8, [1], 1)]] ∧ s1.isDone = false) ∧
    (∃ s1, executeNDEBUG 4 { nTuplesMax := 1 }
        (modelStream [some { byteNum := 1, byteSeg := [1], len := 1 }] 1 0 (fun _ => 0)) =
        Outcome.ret (EXECRC_BUF_OVERFLOW, s1) ∧
      s1.calls =
        [Call.readSegmentAndAdvance EXECRC_YIELD { byteNum := 1, byteSeg := [1], len := 1 },
          Call.readerGetSrid,
          Call.wsSetProductionLimit 7,
          Call.wsCanProduce,
          Call.readSegmentAndAdvance EXECRC_EOS { byteNum := 1, byteSeg := [1], len := 1 },
          Call.wsIsEmpty] ∧
      pulledSegments s1.calls = [{ byteNum := 1, byteSeg := [1], len := 1 }] ∧
      addedSegments s1.calls = [] ∧
      s1.writePending = false ∧ s1.isDone = true ∧
      offeredTuples s1.calls = [] ∧
      ¬ NoSegmentDropped s1) := by
  refine ⟨⟨_, rfl, rfl, rfl, rfl, rfl⟩, ⟨_, rfl, rfl, rfl, rfl, rfl, rfl, rfl, ?_⟩⟩
  intro h
  have h2 : [({ byteNum := 1, byteSeg := [1], len := 1 } : LbmByteSegment)] = [] := h
  exact List.cons_ne_nil _ _ h2

/-- C19. In every state a run of `execute` calls reaches from `open`, `isDone`
implies that `writePending` and `producePending` are false. Every `execute`
call keeps that invariant, and a call that sets `isDone` returns
`EXECRC_BUF_OVERFLOW` on a stream with nothing pending whose workspace answers
`isEmpty()` with true. -/
theorem execute_done_only_with_nothing_pending
    (I : OpenCollaborators E) (restart : Bool) (s0 s1 : LbmUnionExecStream E)
    (fuel : Nat) (qs : List ExecStreamQuantum) (rcs : List ExecStreamResult)
    (hret : executeAll fuel qs (openStream I restart s0) = Outcome.ret (rcs, s1)) :
    DoneInvariant s1 ∧
    (∀ (fuel2 : Nat) (q : ExecStreamQuantum) (t t1 : LbmUnionExecStream E)
      (rc : ExecStreamResult), execute fuel2 q t = Outcome.ret (rc, t1) →
      (DoneInvariant t → DoneInvariant t1) ∧
      (t.isDone = false → t1.isDone = true →
        rc = EXECRC_BUF_OVERFLOW ∧ t1.writePending = false ∧ t1.producePending = false ∧
          E.wsIsEmpty t1.workspace = true)) := by
  refine ⟨(executeAll_pending fuel qs _ s1 rcs hret).2 ?_, ?_⟩
  · intro hd
    simp [openStream] at hd
  · intro fuel2 q t t1 rc h
    obtain ⟨-, e2, e3⟩ := execute_pending fuel2 q t t1 rc h
    exact ⟨e2, e3⟩

/-- Witness of C19: a cold open, one segment, and three `execute` calls, the
last of which finds the stream done. -/
theorem execute_done_only_with_nothing_pending_witness :
    ∃ rcs s1, executeAll 4 [{ nTuplesMax := 1 }, { nTuplesMax := 1 }, { nTuplesMax := 1 }]
        (openStream modelOpenCollaborators false
          (modelStream [some { byteNum := 0, byteSeg := [1], len := 1 }] 5 0 (fun _ => 0))) =
        Outcome.ret (rcs, s1) ∧
      s1.isDone = true ∧ DoneInvariant s1 :=
  ⟨_, _, rfl, rfl,
    (execute_done_only_with_nothing_pending modelOpenCollaborators false
      (modelStream [some { byteNum := 0, byteSeg := [1], len := 1 }] 5 0 (fun _ => 0)) _ 4
      [{ nTuplesMax := 1 }, { nTuplesMax := 1 }, { nTuplesMax := 1 }] _ rfl).1⟩

end LbmUnionExecStream

namespace LbmSearchExecStream

/-! ## The row limit is read once -/

/-- C17. On a stream that `prepare` set up, in the middle of a scan, for
every value `n` of the `uint` parameter `nTuples`: `reachedTupleLimit(n)`
returns, and it reads a parameter, the row-limit parameter, exactly when one
is configured and `n = 0`. For `n ≥ 1` it leaves the stream as it is and its
answer is a function of `n`, the stored `rowLimit` and whether a parameter is
configured: two parameter stores give the same answer. -/
theorem reachedTupleLimit_reads_parameter_once
    (params : LbmSearchExecStreamParams) (b s0 : LbmSearchExecStream)
    (stored : Nat) (pm pm2 : Nat → Nat) (n : Nat)
    (hprep : prepare params b = Outcome.ret s0) (hu : n < UINT_WIDTH) :
    (∃ r s1, reachedTupleLimit n (midScan stored pm s0) = Outcome.ret (r, s1) ∧
      s1.paramReads = s0.paramReads ++
        (if params.rowLimitParamId ≠ 0 ∧ n = 0 then [params.rowLimitParamId] else [])) ∧
    (1 ≤ n →
      reachedTupleLimit n (midScan stored pm s0) =
        Outcome.ret (decide (params.rowLimitParamId ≠ 0 ∧ 1 ≤ stored ∧ stored ≤ n),
          midScan stored pm s0) ∧
      ∃ r s1 s2, reachedTupleLimit n (midScan stored pm s0) = Outcome.ret (r, s1) ∧
        reachedTupleLimit n (midScan stored pm2 s0) = Outcome.ret (r, s2)) := by
  obtain ⟨p1, p2, p3, -⟩ := prepare_spec params b s0 hprep
  have hmod : n % UINT_WIDTH = n := Nat.mod_eq_of_lt hu
  have hlater : ∀ (f : Nat → Nat), 1 ≤ n →
      reachedTupleLimit n (midScan stored f s0) =
        Outcome.ret (decide (params.rowLimitParamId ≠ 0 ∧ 1 ≤ stored ∧ stored ≤ n),
          midScan stored f s0) := by
    intro f hn
    by_cases hr : params.rowLimitParamId = 0
    · have hi : (midScan stored f s0).ignoreRowLimit = true := by simp [midScan, p2, hr]
      simp [reachedTupleLimit, hi, hr]
    · have hi : (midScan stored f s0).ignoreRowLimit = false := by simp [midScan, p2, hr]
      rw [reachedTupleLimit_later _ n hi (by omega), hmod]
      simp [midScan, hr]
  refine ⟨?_, fun hn => ⟨hlater pm hn, _, _, _, hlater pm hn, hlater pm2 hn⟩⟩
  by_cases hn : n = 0
  · by_cases hr : params.rowLimitParamId = 0
    · have hi : (midScan stored pm s0).ignoreRowLimit = true := by simp [midScan, p2, hr]
      exact ⟨false, midScan stored pm s0, by simp [reachedTupleLimit, hi],
        by simp [midScan, hr]⟩
    · have hi : (midScan stored pm s0).ignoreRowLimit = false := by simp [midScan, p2, hr]
      have hd : (midScan stored pm s0).rowLimitDatum.pData = PConstBuffer.rowLimitMember := by
        simpa [midScan] using p3 hr
      subst hn
      exact ⟨_, _, reachedTupleLimit_first _ 0 hi hd hmod, by simp [midScan, hr, p1]⟩
  · refine ⟨_, _, hlater pm (by omega), ?_⟩
    simp [midScan, hn]

/-- Witness of C17: the stored limit is 2 and the slot has since changed to
100. -/
theorem reachedTupleLimit_reads_parameter_once_witness :
    ∃ s0, prepare { rowLimitParamId := 3, startRidParamId := 0 }
        (modelSearchStream [recordNumAttr] 2 (fun _ => 2)) = Outcome.ret s0 ∧
      reachedTupleLimit 5 (midScan 2 (fun _ => 100) s0) =
        Outcome.ret (decide ((3 : Nat) ≠ 0 ∧ 1 ≤ 2 ∧ 2 ≤ 5), midScan 2 (fun _ => 100) s0) :=
  ⟨_, rfl,
    ((reachedTupleLimit_reads_parameter_once { rowLimitParamId := 3, startRidParamId := 0 }
      (modelSearchStream [recordNumAttr] 2 (fun _ => 2)) _ 2 (fun _ => 100) (fun _ => 7) 5
      rfl (by decide)).2 (by decide)).1⟩

end LbmSearchExecStream

end Fennel
